import Mathlib

/-!
# Verification of devnev/go-grouped against its specification

This file gives a shallow embedding of the three core components of the
repository and proves the frozen claims about them:

* `calls.go` (`Calls.Do`): a per-key call-coalescing group.  Since `Do` is
  concurrent code, it is embedded as a small-step state machine: each caller
  is a little program whose atomic steps correspond to the lock-protected
  regions and channel operations of the Go source, and a trace is an
  arbitrary interleaving of those steps.
* `refcache.go` (`RefCache`): a reference-counted cache, embedded as a
  sequential state machine over an explicit item store.
* `errfuncs.go` (`ErrFuncs` / `spawnedErrFuncs.run`): the fan-in group whose
  aggregation loop is embedded as a fold over the sequence of events (own
  task results and predecessor signals) that its `select` consumes.

All definitions are translated from the Go source; line references are given
at each definition.
-/

namespace Grouped

set_option maxHeartbeats 1000000

/-- `Status` from `status.go`: `Canceled`, `Exclusive`, `Shared`. -/
inductive Status where
  | Canceled
  | Exclusive
  | Shared
deriving DecidableEq, Repr

/-- Go `interface{}` values, modelled as an optional number; `none` is Go `nil`. -/
abbrev Val := Option Nat

/-! ## Model of `Calls.Do` (`calls.go`)

The Go code serializes access to the map `g.groups` with `g.mu`, races the
three `select` branches, and (un)publishes per-key state objects
(`callGroupInner`).  The model fixes one key (groups for distinct keys are
completely independent in the source) and represents:

* `g.groups[key]` by `Config.index : Option Nat`, an optional id into a
  store of every `callGroupInner` ever created for the key
  (ids are needed because the Go code compares state *pointers*:
  `inner != g.groups[key]`);
* the single-capacity `leader` channel by a boolean `leaderAvail`;
* the closed-or-not `done` channel by a boolean `done`;
* each concurrent `Do` invocation by a `Caller` with a program counter whose
  atomic steps are the lock-protected regions and channel operations of the
  source.

Ghost fields (`resultSet`, `execs`) record facts needed to state the claims
(whether the callback body ran, how often) and do not influence control flow.
-/

/-- The fixed outcome of one caller's callback `do`: the `(result, accept)`
pair it returns, or the fact that it panics.  (The claims under verification
only concern callbacks with a fixed behavior.) -/
structure Behavior where
  result : Val
  accept : Bool
  panics : Bool
deriving DecidableEq, Repr

/-- `callGroupInner` from `calls.go` lines 73-78, for one key.
`leaderAvail` models the token being present in the capacity-1 `leader`
channel; `done` models the `done` channel being closed.  `resultSet` and
`execs` are ghost fields: `resultSet` is true once an accepting callback has
stored `result` (line 55), `execs` counts invocations of `do()` (line 54). -/
structure CallInner where
  leaderAvail : Bool
  done : Bool
  result : Val
  resultSet : Bool
  monitors : Int
  execs : Nat
deriving DecidableEq, Repr

/-- Program counter of one `Do` invocation.  Atomic regions of the source:
* `start`: about to run the locked prologue, lines 18-31;
* `sel`: blocked in the `select`, lines 33-46;
* `cancelCheck`: took the `<-cancel` branch, about to run lines 35-42;
* `exec`: acquired the leader token, about to run `do()` (lines 48-59);
* `retire`: accepted, about to run `delete(g.groups, key)` (lines 61-63);
* `closeDone`: about to run `close(inner.done)` (line 65);
* `classify`: about to read `inner.monitors` and return (lines 66-70);
* `finished`: returned, with `out` the returned `(value, Status)`;
* `panicked`: the callback panicked and the panic propagated out of `Do`
  (after the deferred token hand-back, lines 49-53). -/
inductive Pc where
  | start
  | sel
  | cancelCheck
  | exec
  | retire
  | closeDone
  | classify
  | finished
  | panicked
deriving DecidableEq, Repr

/-- One concurrent `Do` invocation.  `sid` is the id of the `callGroupInner`
the caller registered against (meaningful once `pc ≠ start`); `canCancel`
records whether its `cancel` channel can ever fire (`false` models a `nil`
channel); `cancelFired` whether it has fired; `out` the eventual return
value (meaningful once `pc = finished`). -/
structure Caller where
  pc : Pc
  sid : Nat
  beh : Behavior
  canCancel : Bool
  cancelFired : Bool
  out : Val × Status
deriving DecidableEq, Repr

/-- Global configuration: the store of every `callGroupInner` created so far
for the key (`storeLen` of them), the current `g.groups[key]` (`index`), and
the callers. -/
structure Config where
  storeLen : Nat
  store : Nat → CallInner
  index : Option Nat
  numCallers : Nat
  callers : Nat → Caller

/-- A scheduling step: which caller performs its next atomic region, or the
environment firing a caller's cancel channel. -/
inductive Step where
  | register (i : Nat)
  | selectDone (i : Nat)
  | selectLeader (i : Nat)
  | selectCancel (i : Nat)
  | cancelCheck (i : Nat)
  | exec (i : Nat)
  | retire (i : Nat)
  | closeDone (i : Nat)
  | classify (i : Nat)
  | fireCancel (i : Nat)
deriving DecidableEq, Repr

/-- A freshly created `callGroupInner` (lines 23-27): leader token present,
`done` open, `monitors` about to be incremented by its creator; the model
folds the creator's `inner.monitors++` (line 30) into creation. -/
def freshInner : CallInner :=
  { leaderAvail := true, done := false, result := none,
    resultSet := false, monitors := 1, execs := 0 }

/-- lines 49-53: the deferred hand-back returns the token to the `leader`
channel; the ghost `execs` counts the `do()` invocation that just happened. -/
def tokenBack (x : CallInner) : CallInner :=
  { x with leaderAvail := true, execs := x.execs + 1 }

/-- line 55: `inner.result = result` after an accepting callback; ghost
fields record the acceptance and the `do()` invocation. -/
def acceptResult (x : CallInner) (v : Val) : CallInner :=
  { x with result := v, resultSet := true, execs := x.execs + 1 }

/-- One atomic step of the system.  A step whose guard does not hold leaves
the configuration unchanged (a stutter), so every list of steps denotes an
interleaving. -/
def step (c : Config) (s : Step) : Config :=
  match s with
  | .register i =>
    -- lines 18-31: under g.mu, find or create the state, increment monitors
    if i < c.numCallers ∧ (c.callers i).pc = .start then
      match c.index with
      | none =>
        { c with
          storeLen := c.storeLen + 1,
          store := Function.update c.store c.storeLen freshInner,
          index := some c.storeLen,
          callers := Function.update c.callers i
            ({ c.callers i with
                pc := .sel,
                sid := c.storeLen }) }
      | some sid =>
        { c with
          store := Function.update c.store sid
            ({ c.store sid with
                monitors := (c.store sid).monitors + 1 }),
          callers := Function.update c.callers i
            ({ c.callers i with
                pc := .sel,
                sid := sid }) }
    else c
  | .selectDone i =>
    -- lines 43-44: <-inner.done fired; return inner.result, Shared
    if i < c.numCallers ∧ (c.callers i).pc = .sel
        ∧ (c.store (c.callers i).sid).done = true then
      { c with
        callers := Function.update c.callers i
          ({ c.callers i with
              pc := .finished,
              out := ((c.store (c.callers i).sid).result, .Shared) }) }
    else c
  | .selectLeader i =>
    -- line 45: <-inner.leader fired; the token is consumed
    if i < c.numCallers ∧ (c.callers i).pc = .sel
        ∧ (c.store (c.callers i).sid).leaderAvail = true then
      { c with
        store := Function.update c.store (c.callers i).sid
          ({ c.store (c.callers i).sid with
              leaderAvail := false }),
        callers := Function.update c.callers i
          ({ c.callers i with
              pc := .exec }) }
    else c
  | .selectCancel i =>
    -- line 34: <-cancel fired; the locked re-check is a separate step
    if i < c.numCallers ∧ (c.callers i).pc = .sel
        ∧ (c.callers i).cancelFired = true then
      { c with
        callers := Function.update c.callers i
          ({ c.callers i with
              pc := .cancelCheck }) }
    else c
  | .cancelCheck i =>
    -- lines 35-42: under g.mu, compare inner against g.groups[key]
    if i < c.numCallers ∧ (c.callers i).pc = .cancelCheck then
      if c.index = some (c.callers i).sid then
        { c with
          store := Function.update c.store (c.callers i).sid
            ({ c.store (c.callers i).sid with
                monitors := (c.store (c.callers i).sid).monitors - 1 }),
          callers := Function.update c.callers i
            ({ c.callers i with
                pc := .finished,
                out := (none, .Canceled) }) }
      else
        { c with
          callers := Function.update c.callers i
            ({ c.callers i with
                pc := .finished,
                out := ((c.store (c.callers i).sid).result, .Shared) }) }
    else c
  | .exec i =>
    -- lines 48-59: run do(); on reject or panic the deferred hand-back
    -- returns the token; on accept store the result
    if i < c.numCallers ∧ (c.callers i).pc = .exec then
      if (c.callers i).beh.panics then
        { c with
          store := Function.update c.store (c.callers i).sid
            (tokenBack (c.store (c.callers i).sid)),
          callers := Function.update c.callers i
            ({ c.callers i with
                pc := .panicked }) }
      else if (c.callers i).beh.accept then
        { c with
          store := Function.update c.store (c.callers i).sid
            (acceptResult (c.store (c.callers i).sid) (c.callers i).beh.result),
          callers := Function.update c.callers i
            ({ c.callers i with
                pc := .retire }) }
      else
        { c with
          store := Function.update c.store (c.callers i).sid
            (tokenBack (c.store (c.callers i).sid)),
          callers := Function.update c.callers i
            ({ c.callers i with
                pc := .finished,
                out := (none, .Canceled) }) }
    else c
  | .retire i =>
    -- lines 61-63: under g.mu, delete(g.groups, key)
    if i < c.numCallers ∧ (c.callers i).pc = .retire then
      { c with
        index := none,
        callers := Function.update c.callers i
          ({ c.callers i with
              pc := .closeDone }) }
    else c
  | .closeDone i =>
    -- line 65: close(inner.done)
    if i < c.numCallers ∧ (c.callers i).pc = .closeDone then
      { c with
        store := Function.update c.store (c.callers i).sid
          ({ c.store (c.callers i).sid with
              done := true }),
        callers := Function.update c.callers i
          ({ c.callers i with
              pc := .classify }) }
    else c
  | .classify i =>
    -- lines 66-70: read inner.monitors, return Exclusive or Shared
    if i < c.numCallers ∧ (c.callers i).pc = .classify then
      { c with
        callers := Function.update c.callers i
          ({ c.callers i with
              pc := .finished,
              out := ((c.store (c.callers i).sid).result,
                if (c.store (c.callers i).sid).monitors > 1
                then Status.Shared else Status.Exclusive) }) }
    else c
  | .fireCancel i =>
    -- environment: the caller's cancel channel becomes ready
    if i < c.numCallers ∧ (c.callers i).canCancel = true
        ∧ (c.callers i).cancelFired = false then
      { c with
        callers := Function.update c.callers i
          ({ c.callers i with
              cancelFired := true }) }
    else c

/-- Run a list of steps. -/
def run (c : Config) (tr : List Step) : Config :=
  tr.foldl step c

/-- Initial configuration: no state created yet, `N` callers at `start` with
the given callback behaviors and cancellability. -/
def init (N : Nat) (beh : Nat → Behavior) (cc : Nat → Bool) : Config :=
  { storeLen := 0,
    store := fun _ => freshInner,
    index := none,
    numCallers := N,
    callers := fun i =>
      { pc := .start, sid := 0, beh := beh i, canCancel := cc i,
        cancelFired := false, out := (none, .Canceled) } }

/-! ### The global invariant of the `Calls.Do` machine -/

/-- Caller `i` currently holds the leader token of state `sid` (it is between
acquiring `<-inner.leader` and either handing the token back or completing
the accept path). -/
def owns (c : Config) (i sid : Nat) : Prop :=
  i < c.numCallers ∧ (c.callers i).sid = sid ∧
    ((c.callers i).pc = .exec ∨ (c.callers i).pc = .retire ∨
      (c.callers i).pc = .closeDone ∨ (c.callers i).pc = .classify)

/-- Invariant of every reachable configuration of the `Calls.Do` machine. -/
structure Inv (c : Config) : Prop where
  idxLt : ∀ sid, c.index = some sid → sid + 1 = c.storeLen
  sidLt : ∀ i, i < c.numCallers → (c.callers i).pc ≠ .start →
    (c.callers i).sid < c.storeLen
  retiredSet : ∀ sid, sid < c.storeLen → c.index ≠ some sid →
    (c.store sid).resultSet = true
  tokenFree : ∀ sid, sid < c.storeLen → (c.store sid).leaderAvail = true →
    ∀ i, ¬ owns c i sid
  ownsUniq : ∀ i j sid, owns c i sid → owns c j sid → i = j
  execOwner : ∀ i, i < c.numCallers → (c.callers i).pc = .exec →
    (c.store (c.callers i).sid).resultSet = false ∧
    (c.store (c.callers i).sid).done = false ∧
    c.index = some (c.callers i).sid ∧
    (c.store (c.callers i).sid).leaderAvail = false
  retireOwner : ∀ i, i < c.numCallers → (c.callers i).pc = .retire →
    (c.store (c.callers i).sid).resultSet = true ∧
    (c.store (c.callers i).sid).done = false ∧
    c.index = some (c.callers i).sid ∧
    (c.store (c.callers i).sid).leaderAvail = false
  closeOwner : ∀ i, i < c.numCallers → (c.callers i).pc = .closeDone →
    (c.store (c.callers i).sid).resultSet = true ∧
    (c.store (c.callers i).sid).done = false ∧
    c.index ≠ some (c.callers i).sid ∧
    (c.store (c.callers i).sid).leaderAvail = false
  classifyOwner : ∀ i, i < c.numCallers → (c.callers i).pc = .classify →
    (c.store (c.callers i).sid).resultSet = true ∧
    (c.store (c.callers i).sid).done = true ∧
    (c.store (c.callers i).sid).leaderAvail = false
  doneFacts : ∀ sid, sid < c.storeLen → (c.store sid).done = true →
    (c.store sid).resultSet = true ∧ (c.store sid).leaderAvail = false ∧
    c.index ≠ some sid
  doneWit : ∀ sid, sid < c.storeLen → (c.store sid).done = true →
    ∃ j, j < c.numCallers ∧ (c.callers j).sid = sid ∧
      ((c.callers j).pc = .classify ∨ (c.callers j).pc = .finished)
  resSetFacts : ∀ sid, sid < c.storeLen → (c.store sid).resultSet = true →
    (c.store sid).leaderAvail = false ∧
    ∃ j, j < c.numCallers ∧ (c.callers j).beh.accept = true ∧
      (c.store sid).result = (c.callers j).beh.result
  finVal : ∀ i, i < c.numCallers → (c.callers i).pc = .finished →
    (c.callers i).out.2 ≠ .Canceled →
    (c.callers i).sid < c.storeLen ∧
    (c.store (c.callers i).sid).resultSet = true ∧
    (c.callers i).out.1 = (c.store (c.callers i).sid).result
  finCanc : ∀ i, i < c.numCallers → (c.callers i).pc = .finished →
    (c.callers i).out.2 = .Canceled → (c.callers i).out.1 = none ∧
    ((c.callers i).cancelFired = true ∨ (c.callers i).beh.accept = false)
  cfImp : ∀ i, i < c.numCallers → (c.callers i).cancelFired = true →
    (c.callers i).canCancel = true
  ccPc : ∀ i, i < c.numCallers → (c.callers i).pc = .cancelCheck →
    (c.callers i).cancelFired = true
  panicPc : ∀ i, i < c.numCallers → (c.callers i).pc = .panicked →
    (c.callers i).beh.panics = true

/-! ### The all-accepting, cancel-free scenario of claim C1 -/

/-- Caller `k` is currently registered against state `sid` (it has passed the
locked prologue and has not deregistered; `inner.monitors` counts exactly
these callers). -/
def regP (sid : Nat) (k : Caller) : Prop :=
  k.sid = sid ∧ k.pc ≠ .start

instance regP_dec (sid : Nat) : DecidablePred (regP sid) := by
  intro k; unfold regP; infer_instance

/-- Number of callers registered against `sid`. -/
def regCount (c : Config) (sid : Nat) : ℕ :=
  ∑ j in Finset.range c.numCallers,
    (if regP sid (c.callers j) then 1 else 0)

/-- All callbacks accept without panicking, and no caller can be canceled:
the scenario of the single-flight claim. -/
def PlainBatch (c : Config) : Prop :=
  ∀ i, i < c.numCallers → (c.callers i).beh.accept = true ∧
    (c.callers i).beh.panics = false ∧ (c.callers i).canCancel = false

/-- Scenario invariant: monitors counts registrations, the ghost execution
count tracks acceptance, and finished statuses reflect the registration
count at acceptance. -/
structure AInv (c : Config) : Prop where
  mon : ∀ sid, sid < c.storeLen →
    (c.store sid).monitors = (regCount c sid : Int)
  execsEq : ∀ sid, sid < c.storeLen →
    (c.store sid).execs = (if (c.store sid).resultSet = true then 1 else 0)
  exclDone : ∀ i, i < c.numCallers → (c.callers i).pc = .finished →
    (c.callers i).out.2 = .Exclusive →
    (c.store (c.callers i).sid).monitors ≤ 1 ∧
    (c.store (c.callers i).sid).done = true
  sharedWit : ∀ i, i < c.numCallers → (c.callers i).pc = .finished →
    (c.callers i).out.2 = .Shared →
    ∃ j, j < c.numCallers ∧ j ≠ i ∧
      (c.callers j).sid = (c.callers i).sid ∧ (c.callers j).pc ≠ .start

/-- Callback behaviors and schedule for the concrete single-caller scenario
`Do("k", nil, func() (7, true))`. -/
def behC1 : Nat → Behavior :=
  fun _ => { result := some 7, accept := true, panics := false }

/-- The (only possible) schedule of the single caller: register, take the
leader token, run the callback, retire the key, close `done`, classify. -/
def trC1 : List Step :=
  [.register 0, .selectLeader 0, .exec 0, .retire 0, .closeDone 0,
   .classify 0]

/-- A callback that always rejects its result. -/
def behC2 : Nat → Behavior :=
  fun _ => { result := some 5, accept := false, panics := false }

/-- Schedule bringing the single caller to the point where it is about to
run its callback. -/
def trC2 : List Step := [.register 0, .selectLeader 0]

/-- Callbacks for the cancellation-race scenario: caller 0 accepts `3`. -/
def behC3 : Nat → Behavior :=
  fun i => if i = 0 then { result := some 3, accept := true, panics := false }
    else { result := none, accept := true, panics := false }

/-- Caller 1 has a cancel channel. -/
def ccC3 : Nat → Bool := fun i => i == 1

/-- Schedule: both register; caller 1's cancel fires and it takes the cancel
branch; caller 0 leads, accepts and retires the key; caller 1 then runs the
locked re-check. -/
def trC3 : List Step :=
  [.register 0, .register 1, .fireCancel 1, .selectCancel 1,
   .selectLeader 0, .exec 0, .retire 0]

/-- Schedule driving the lone rejecting caller to completion. -/
def trC10 : List Step := [.register 0, .selectLeader 0, .exec 0]

/-! ## Model of `RefCache` (`refcache.go`)

`RefCache` is embedded as a sequential state machine: each public operation
(`Get`, `Delete`, `Purge`, releasing a handle) is one Lean function on an
explicit state.  Items live in a store indexed by numeric ids (the model of
Go pointer identity: `p.items[key] != item` becomes an id comparison) and
the map `p.items` is an association list from keys to ids.

* `refs` models the atomic `refs int32`;
* `filled` models `fillCalls.Load() == nil` (the item was filled and its
  private `Calls` group was discarded, lines 199 and 213-215);
* `hasCloser` models `closer != nil`;
* `closerRuns` is a ghost counter of invocations of the user `closer`;
* `fetchCount` is a ghost counter of invocations of the user `fetch`;
* `panicked` records a call of a `nil` function value (a Go runtime panic);
* `deadlocked` records the goroutine blocking forever on `p.mu.Lock()`
  while itself still holding `p.mu.RLock()` (the function-scoped
  `defer p.mu.RUnlock()` at line 140 is only run on return, so the write
  lock at line 157 can never be acquired).
-/

structure refCacheItem where
  refs : Int
  filled : Bool
  value : Val
  hasCloser : Bool
  closerRuns : Nat
deriving DecidableEq, Repr

structure RCState where
  nextId : Nat
  items : Nat → refCacheItem
  index : List (String × Nat)
  fetchCount : Nat
  panicked : Bool
  deadlocked : Bool

/-- What one invocation of the user `fetch` returns: a value and whether a
closer accompanies it (`closer == nil` means decline). -/
structure FetchB where
  value : Val
  hasCloser : Bool
deriving DecidableEq, Repr

/-- `p.items[key]` lookup. -/
def idxGet (l : List (String × Nat)) (k : String) : Option Nat :=
  match l.find? (fun e => e.1 == k) with
  | some e => some e.2
  | none => none

/-- `delete(p.items, key)`. -/
def idxRemove (l : List (String × Nat)) (k : String) : List (String × Nat) :=
  l.filter (fun e => ¬ e.1 == k)

/-- `p.items[key] = item`. -/
def idxInsert (l : List (String × Nat)) (k : String) (id : Nat) :
    List (String × Nat) :=
  (k, id) :: idxRemove l k

/-- `refCacheItem.ref` (lines 217-219). -/
def rcRef (s : RCState) (id : Nat) : RCState :=
  { s with
    items := Function.update s.items id
      ({ s.items id with refs := (s.items id).refs + 1 }) }

/-- `refCacheItem.close` (lines 221-229): decrement; if the count reached
zero and a closer is set, run it. -/
def rcClose (s : RCState) (id : Nat) : RCState :=
  let it := s.items id
  if it.refs - 1 ≠ 0 then
    { s with
      items := Function.update s.items id ({ it with refs := it.refs - 1 }) }
  else if it.hasCloser then
    { s with
      items := Function.update s.items id
        ({ it with
            refs := it.refs - 1,
            closerRuns := it.closerRuns + 1 }) }
  else
    { s with
      items := Function.update s.items id ({ it with refs := it.refs - 1 }) }

/-- `RefCache.Delete` (lines 105-120).  Note the source calls
`item.closer()` (line 119) — the user closer directly — rather than
`item.close()`: the reference count is not decremented, and an unfilled
item (whose `closer` is `nil`) makes the call panic. -/
def rcDelete (s : RCState) (key : String) : RCState :=
  match idxGet s.index key with
  | none => s
  | some id =>
    let s1 := { s with index := idxRemove s.index key }
    if (s1.items id).hasCloser then
      { s1 with
        items := Function.update s1.items id
          ({ s1.items id with
              closerRuns := (s1.items id).closerRuns + 1 }) }
    else
      { s1 with panicked := true }

/-- The write-locked re-check of the invalidation path of `Get`
(lines 90-97): remove the key only if the index still maps it to this exact
item instance. -/
def rcInvalidate (s : RCState) (key : String) (id : Nat) : RCState × Bool :=
  if idxGet s.index key = some id then
    ({ s with index := idxRemove s.index key }, true)
  else
    (s, false)

/-- `RefCache.Get` (lines 29-100), sequentially: the loop is driven by
`fuel` (sequentially at most two iterations ever run).  The `fill` of the
item (lines 181-211) runs the private `Calls` group with a free leader
token, so it executes the closure directly: if the item is already filled
the outcome is `Shared` and the validity check runs; a declined fetch makes
`Do` return `Canceled`, upon which the deferred cleanup of `Get`
(lines 34-38) drops the caller's reference and `(nil, nil)` is returned; an
accepted fetch fills the item, the outcome is `Exclusive`, and the value
and the release handle are returned with no validity check. -/
def rcGet (fuel : Nat) (s : RCState) (key : String)
    (valid : Option (Val → Bool)) (fetch : Nat → FetchB) :
    RCState × Val × Option Nat :=
  match fuel with
  | 0 => (s, none, none)
  | fuel + 1 =>
    let look :=
      match idxGet s.index key with
      | some id => (rcRef s id, id)
      | none =>
        let id := s.nextId
        ({ s with
            nextId := id + 1,
            items := Function.update s.items id
              ({ refs := 2, filled := false, value := none,
                 hasCloser := false, closerRuns := 0 }),
            index := idxInsert s.index key id }, id)
    let s1 := look.1
    let id := look.2
    if (s1.items id).filled then
      match valid with
      | none => (s1, (s1.items id).value, some id)
      | some v =>
        if v ((s1.items id).value) then
          (s1, (s1.items id).value, some id)
        else
          match rcInvalidate s1 key id with
          | (s2, true) => rcGet fuel (rcClose s2 id) key valid fetch
          | (s2, false) => rcGet fuel s2 key valid fetch
    else
      let fb := fetch s1.fetchCount
      let s2 := { s1 with fetchCount := s1.fetchCount + 1 }
      if fb.hasCloser then
        ({ s2 with
            items := Function.update s2.items id
              ({ s2.items id with
                  filled := true,
                  value := fb.value,
                  hasCloser := true }) }, fb.value, some id)
      else
        (rcClose s2 id, none, none)

/-- `RefCache.Purge` (lines 122-165).  With a non-`nil` `keep` the source
snapshots under `p.mu.RLock()` with a function-scoped
`defer p.mu.RUnlock()`, tests `p.Valid` — not `keep`, which is never used
after the `nil` check — and, if any filled item fails `p.Valid`, blocks
forever at `p.mu.Lock()` (line 157) because the goroutine itself still
holds the read lock. -/
def rcPurge (s : RCState) (keep : Option (Val → Bool))
    (valid : Option (Val → Bool)) : RCState :=
  match keep with
  | none =>
    s.index.foldl
      (fun acc e => rcClose { acc with index := idxRemove acc.index e.1 } e.2)
      s
  | some _keep =>
    let snapshot := s.index.filter (fun e => (s.items e.2).filled)
    match snapshot with
    | [] => s
    | _ :: _ =>
      match valid with
      | none => { s with panicked := true }
      | some v =>
        let invalid := snapshot.filter (fun e => ¬ v ((s.items e.2).value))
        match invalid with
        | [] => s
        | _ :: _ => { s with deadlocked := true }

/-- A filled cached item holding `7` with a closer, referenced by the index
and by one outstanding `Get` holder. -/
def itemC4 : refCacheItem :=
  { refs := 2, filled := true, value := some 7, hasCloser := true,
    closerRuns := 0 }

/-- Cache state for the `Delete` counter-scenario of C4. -/
def sC4 : RCState :=
  { nextId := 1, items := fun _ => itemC4, index := [("k", 0)],
    fetchCount := 0, panicked := false, deadlocked := false }

/-- Item and state for the `Delete` counter-scenario of C5. -/
def itemC5 : refCacheItem :=
  { refs := 2, filled := true, value := some 9, hasCloser := true,
    closerRuns := 0 }

def sC5 : RCState :=
  { nextId := 1, items := fun _ => itemC5, index := [("k5", 0)],
    fetchCount := 0, panicked := false, deadlocked := false }

/-- A filled item holding `5`, only referenced by the index. -/
def itemC6 : refCacheItem :=
  { refs := 1, filled := true, value := some 5, hasCloser := true,
    closerRuns := 0 }

def sC6 : RCState :=
  { nextId := 1, items := fun _ => itemC6, index := [("k", 0)],
    fetchCount := 0, panicked := false, deadlocked := false }

/-- An invalidation-scenario item: filled with `4`, referenced by the index
and by one outstanding holder. -/
def itemC7 : refCacheItem :=
  { refs := 2, filled := true, value := some 4, hasCloser := true,
    closerRuns := 0 }

def sC7 : RCState :=
  { nextId := 1, items := fun _ => itemC7, index := [("k", 0)],
    fetchCount := 0, panicked := false, deadlocked := false }

/-- A `Valid` predicate that rejects the cached `4`. -/
def vC7 : Val → Bool := fun x => x == some 99

/-- A fetch that accepts, producing `99` with a closer. -/
def fC7 : Nat → FetchB := fun _ => { value := some 99, hasCloser := true }

/-! ## Model of `ErrFuncs` (`errfuncs.go`)

Each call of `start()` spawns one aggregation goroutine
(`spawnedErrFuncs.run`, lines 149-214) per batch, chained to the previous
batch's goroutine through its four signal channels, plus one wrapper
goroutine per added function (lines 100-124).

The wrapper is sequential and is embedded as a function (`taskSend`)
from the task's configuration and behavior to the error it sends on
`funcResults` and whether the monitor hook ran.

The aggregation loop is embedded as a fold over the sequence of `select`
cases it takes (`AEvent`): an own result arriving on `funcResults`, or one
of the predecessor's signals firing.  Go's `select` over closed channels
and a buffered result channel takes the ready cases in an arbitrary order,
so any sequence of available events is a possible run.  The local channel
variables that the loop nils out (`prevFirstDone` etc., lines 150 and
163/171/180/210) become the `listen*`/`pendingAll` flags: an event whose
flag is off finds its branch disabled (a `nil` channel never fires), and
the model leaves the state unchanged on such an event. -/

/-- Go `error` values other than `nil`: the `IgnoreResult` sentinel
(lines 67-71) or an ordinary error identified by a number. -/
inductive Err where
  | ignore
  | mk (n : Nat)
deriving DecidableEq, Repr

/-- A Go `error`; `none` is `nil`. -/
abbrev EErr := Option Err

/-- Per-task parameters captured by `Add` (lines 29-38): whether `Ctx`,
`Recover`, `Monitor` were set, whether the captured context is done (and
with which error), and the recovery callback. -/
structure TaskCfg where
  hasCtx : Bool
  ctxDone : Bool
  ctxErr : Err
  hasRec : Bool
  recOut : Nat → EErr
  hasMon : Bool

/-- What one task's function body does: return `result`, or panic with
value `panicVal`. -/
structure TaskB where
  panics : Bool
  panicVal : Nat
  result : EErr
deriving DecidableEq, Repr

/-- The wrapper goroutine around one task (lines 100-124): the error it
sends on `funcResults` paired with whether the monitor hook was invoked,
or `none` when nothing is ever sent because the function panicked.  A
panic always suppresses the send: without a recovery hook it escapes the
goroutine, and with one, `recover()` in the deferred function
(lines 105-110) stops the panic but the goroutine then returns — the
recovered error assigned there is discarded, and the context check, the
monitor call and the send (line 123) are all skipped.  Flat Go errors are
compared by identity, so `errors.Is(err, ctxErr)` (line 116) is
equality. -/
def taskSend (cfg : TaskCfg) (b : TaskB) : Option (EErr × Bool) :=
  if b.panics then none
  else
    let err0 := b.result
    let err1 :=
      if cfg.hasCtx ∧ err0 ≠ some Err.ignore ∧ cfg.ctxDone
          ∧ err0 = some cfg.ctxErr then
        some Err.ignore
      else err0
    some (err1, if err1 = some Err.ignore then false else cfg.hasMon)

/-- State of the aggregation loop (lines 150-184): `received` counts own
results taken from `funcResults`; `seenFirst`/`seenAnyOK`/`seenAnyNot`
and `firstResult`/`firstError` are the latches (closing a channel is
modelled by the latch being set); `listenFirst`/`listenOK`/`listenNot`
model the local variables `prevFirstDone`/`prevAnyOK`/`prevAnyNot` being
non-`nil`, `pendingAll` models `prevAllDone` being non-`nil`. -/
structure AggSt where
  received : Nat
  seenFirst : Bool
  seenAnyOK : Bool
  seenAnyNot : Bool
  firstResult : EErr
  firstError : EErr
  listenFirst : Bool
  listenOK : Bool
  listenNot : Bool
  pendingAll : Bool
deriving DecidableEq, Repr

/-- `onFirst` (lines 157-165). -/
def onFirst (val : EErr) (st : AggSt) : AggSt :=
  if st.seenFirst then st
  else { st with
          seenFirst := true,
          firstResult := val,
          listenFirst := false }

/-- `onAnyOK` (lines 166-173). -/
def onAnyOK (st : AggSt) : AggSt :=
  if st.seenAnyOK then st
  else { st with
          seenAnyOK := true,
          listenOK := false }

/-- `onAnyNot` (lines 174-182). -/
def onAnyNot (err : EErr) (st : AggSt) : AggSt :=
  if st.seenAnyNot then st
  else { st with
          seenAnyNot := true,
          firstError := err,
          listenNot := false }

/-- One `select` case the loop can take (lines 186-211). -/
inductive AEvent where
  | ownRes (r : EErr)
  | prevFirst
  | prevOK
  | prevNot
  | prevAll
deriving DecidableEq, Repr

def isOwnRes : AEvent → Bool
  | .ownRes _ => true
  | _ => false

/-- One iteration of the `select` (lines 186-211).  `pFR` and `pFE` are the
predecessor's `firstResult` and `firstError` (read on lines 199 and 208;
they are stable by the time the corresponding signal fires). -/
def aggStep (pFR pFE : EErr) (st : AggSt) (e : AEvent) : AggSt :=
  match e with
  | .ownRes r =>
    let st1 := { st with received := st.received + 1 }
    if r = some Err.ignore then st1
    else
      let st2 := onFirst r st1
      if r = none then onAnyOK st2 else onAnyNot r st2
  | .prevFirst =>
    if st.listenFirst then
      let st1 := onFirst pFR st
      if st1.firstResult = none then onAnyOK st1
      else onAnyNot st1.firstResult st1
    else st
  | .prevOK => if st.listenOK then onAnyOK st else st
  | .prevNot => if st.listenNot then onAnyNot pFE st else st
  | .prevAll =>
    if st.pendingAll then { st with pendingAll := false } else st

/-- The aggregation loop as a fold over the events it consumed. -/
def aggRun (pFR pFE : EErr) (st : AggSt) (tr : List AEvent) : AggSt :=
  tr.foldl (aggStep pFR pFE) st

/-- The loop guard `received < len(s.funcs) || prevAllDone != nil`
(line 185). -/
def loopLive (n : Nat) (st : AggSt) : Bool :=
  decide (st.received < n) || st.pendingAll

/-- `tr` is a complete run of the loop for a generation of `n` tasks:
every event is consumed while the guard holds and the guard fails at the
end, upon which `allDone` is closed (line 213). -/
def runDone (pFR pFE : EErr) (n : Nat) (st : AggSt) : List AEvent → Bool
  | [] => ! loopLive n st
  | e :: tr => loopLive n st && runDone pFR pFE n (aggStep pFR pFE st e) tr

/-- Initial loop state (lines 150-155, 184): no latches yet, and the
predecessor channels are non-`nil` exactly when there is a previous
spawn. -/
def aggInit (hasPrev : Bool) : AggSt :=
  { received := 0, seenFirst := false, seenAnyOK := false,
    seenAnyNot := false, firstResult := none, firstError := none,
    listenFirst := hasPrev, listenOK := hasPrev, listenNot := hasPrev,
    pendingAll := hasPrev }

/-- Task configuration for the C8 scenario: a done context whose error is
`Err.mk 5`, and a monitor hook installed. -/
def cfgC8 : TaskCfg :=
  { hasCtx := true, ctxDone := true, ctxErr := Err.mk 5, hasRec := false,
    recOut := fun _ => none, hasMon := true }

/-- Task behavior for the C8 scenario: returns the context's error. -/
def bC8 : TaskB :=
  { panics := false, panicVal := 0, result := some (Err.mk 5) }

/-- Event trace for the C9 amended-guarantee scenario: both of the
predecessor's latched signals are consumed, this generation's two tasks
complete (one succeeds, one fails with `Err.mk 2`), and the predecessor's
`allDone` is consumed. -/
def trC9 : List AEvent :=
  [.prevOK, .prevNot, .ownRes none, .ownRes (some (Err.mk 2)), .prevAll]

/-! ### Basic facts about steps -/

theorem upd_at {β : Sort u} (f : Nat → β) (i : Nat) (k : β) :
    Function.update f i k i = k := Function.update_same i k f

theorem upd_ne {β : Sort u} (f : Nat → β) {i j : Nat} (k : β) (h : j ≠ i) :
    Function.update f i k j = f j := Function.update_noteq h k f

/-- `numCallers` never changes. -/
theorem step_numCallers (c : Config) (s : Step) :
    (step c s).numCallers = c.numCallers := by
  cases s <;> simp only [step] <;> (repeat' split) <;> rfl

/-- A caller's callback behavior never changes. -/
theorem step_beh (c : Config) (s : Step) (j : Nat) :
    ((step c s).callers j).beh = (c.callers j).beh := by
  have hup : ∀ (f : Nat → Caller) (i : Nat) (k : Caller), k.beh = (f i).beh →
      (Function.update f i k j).beh = (f j).beh := by
    intro f i k hk
    by_cases hji : j = i
    · subst hji; rw [upd_at]; exact hk
    · rw [upd_ne _ _ hji]
  cases s <;> simp only [step] <;> split
  case register.isTrue h =>
    cases hidx : c.index <;> simp only [hidx] <;> exact hup _ _ _ rfl
  all_goals first
    | rfl
    | (exact hup _ _ _ rfl)
    | (split <;> [exact hup _ _ _ rfl; exact hup _ _ _ rfl])
    | (split <;> [exact hup _ _ _ rfl; (split <;> exact hup _ _ _ rfl)])

/-- A caller's cancellability never changes. -/
theorem step_canCancel (c : Config) (s : Step) (j : Nat) :
    ((step c s).callers j).canCancel = (c.callers j).canCancel := by
  have hup : ∀ (f : Nat → Caller) (i : Nat) (k : Caller),
      k.canCancel = (f i).canCancel →
      (Function.update f i k j).canCancel = (f j).canCancel := by
    intro f i k hk
    by_cases hji : j = i
    · subst hji; rw [upd_at]; exact hk
    · rw [upd_ne _ _ hji]
  cases s <;> simp only [step] <;> split
  case register.isTrue h =>
    cases hidx : c.index <;> simp only [hidx] <;> exact hup _ _ _ rfl
  all_goals first
    | rfl
    | (exact hup _ _ _ rfl)
    | (split <;> [exact hup _ _ _ rfl; exact hup _ _ _ rfl])
    | (split <;> [exact hup _ _ _ rfl; (split <;> exact hup _ _ _ rfl)])

/-! ### The invariant holds initially and is preserved -/

theorem inv_init (N : Nat) (beh : Nat → Behavior) (cc : Nat → Bool) :
    Inv (init N beh cc) := by
  constructor <;> intros <;> simp_all [init, owns]

/-- Projections unaffected by a monitors-only store update. -/
theorem upd_mon (st : Nat → CallInner) (s0 : Nat) (m : Int) (sid : Nat) :
    (Function.update st s0 ({ st s0 with monitors := m }) sid).leaderAvail
      = (st sid).leaderAvail ∧
    (Function.update st s0 ({ st s0 with monitors := m }) sid).done
      = (st sid).done ∧
    (Function.update st s0 ({ st s0 with monitors := m }) sid).result
      = (st sid).result ∧
    (Function.update st s0 ({ st s0 with monitors := m }) sid).resultSet
      = (st sid).resultSet ∧
    (Function.update st s0 ({ st s0 with monitors := m }) sid).execs
      = (st sid).execs := by
  by_cases hss : sid = s0
  · subst hss; rw [upd_at]
    exact ⟨rfl, rfl, rfl, rfl, rfl⟩
  · rw [upd_ne _ _ hss]
    exact ⟨rfl, rfl, rfl, rfl, rfl⟩

theorem inv_register (c : Config) (i : Nat) (h : Inv c) :
    Inv (step c (.register i)) := by
  by_cases hg : i < c.numCallers ∧ (c.callers i).pc = .start
  case neg => simp only [step, if_neg hg]; exact h
  obtain ⟨hi, hpc⟩ := hg
  cases hidx : c.index with
  | none =>
    have hnoexec : ∀ j, j < c.numCallers → (c.callers j).pc ≠ .exec := by
      intro j hj hje
      have := (h.execOwner j hj hje).2.2.1
      rw [hidx] at this; exact Option.noConfusion this
    have hnoret : ∀ j, j < c.numCallers → (c.callers j).pc ≠ .retire := by
      intro j hj hje
      have := (h.retireOwner j hj hje).2.2.1
      rw [hidx] at this; exact Option.noConfusion this
    simp only [step, if_pos (And.intro hi hpc), hidx]
    constructor <;> dsimp only
    · -- idxLt
      intro sid hsid
      simp only [Option.some.injEq] at hsid
      omega
    · -- sidLt
      intro j hj hjpc
      by_cases hji : j = i
      · subst hji; rw [upd_at]; dsimp only; omega
      · rw [upd_ne _ _ hji] at hjpc ⊢
        exact Nat.lt_succ_of_lt (h.sidLt j hj hjpc)
    · -- retiredSet
      intro sid hsid hne
      by_cases hsl : sid = c.storeLen
      · exact absurd (by rw [hsl]) hne
      · rw [upd_ne _ _ hsl]
        exact h.retiredSet sid (by omega) (by rw [hidx]; exact fun hx => Option.noConfusion hx)
    · -- tokenFree
      intro sid hsid hla j hj
      obtain ⟨hjn, hjsid, hjpc⟩ := hj
      dsimp only at hjn hjsid hjpc
      by_cases hji : j = i
      · subst hji
        rw [upd_at] at hjpc
        simp at hjpc
      · rw [upd_ne _ _ hji] at hjsid hjpc
        by_cases hsl : sid = c.storeLen
        · subst hsl
          have : (c.callers j).sid < c.storeLen := by
            apply h.sidLt j hjn
            rcases hjpc with h1 | h1 | h1 | h1 <;> rw [h1] <;> simp
          omega
        · rw [upd_ne _ _ hsl] at hla
          exact h.tokenFree sid (by omega) hla j ⟨hjn, hjsid, hjpc⟩
    · -- ownsUniq
      intro a b sid ha hb
      obtain ⟨han, hasid, hapc⟩ := ha
      obtain ⟨hbn, hbsid, hbpc⟩ := hb
      dsimp only at han hasid hapc hbn hbsid hbpc
      have hai : a ≠ i := by
        intro hx; subst hx; rw [upd_at] at hapc; simp at hapc
      have hbi : b ≠ i := by
        intro hx; subst hx; rw [upd_at] at hbpc; simp at hbpc
      rw [upd_ne _ _ hai] at hasid hapc
      rw [upd_ne _ _ hbi] at hbsid hbpc
      exact h.ownsUniq a b sid ⟨han, hasid, hapc⟩ ⟨hbn, hbsid, hbpc⟩
    · -- execOwner
      intro j hj hjpc
      by_cases hji : j = i
      · subst hji; rw [upd_at] at hjpc; exact absurd hjpc (by simp)
      · rw [upd_ne _ _ hji] at hjpc
        exact absurd hjpc (hnoexec j hj)
    · -- retireOwner
      intro j hj hjpc
      by_cases hji : j = i
      · subst hji; rw [upd_at] at hjpc; exact absurd hjpc (by simp)
      · rw [upd_ne _ _ hji] at hjpc
        exact absurd hjpc (hnoret j hj)
    · -- closeOwner
      intro j hj hjpc
      by_cases hji : j = i
      · subst hji; rw [upd_at] at hjpc; exact absurd hjpc (by simp)
      · rw [upd_ne _ _ hji] at hjpc ⊢
        obtain ⟨h1, h2, _h3, h4⟩ := h.closeOwner j hj hjpc
        have hlt : (c.callers j).sid < c.storeLen :=
          h.sidLt j hj (by rw [hjpc]; simp)
        rw [upd_ne _ _ (by omega : (c.callers j).sid ≠ c.storeLen)]
        refine ⟨h1, h2, ?_, h4⟩
        intro hx
        simp only [Option.some.injEq] at hx
        omega
    · -- classifyOwner
      intro j hj hjpc
      by_cases hji : j = i
      · subst hji; rw [upd_at] at hjpc; exact absurd hjpc (by simp)
      · rw [upd_ne _ _ hji] at hjpc ⊢
        have hlt : (c.callers j).sid < c.storeLen :=
          h.sidLt j hj (by rw [hjpc]; simp)
        rw [upd_ne _ _ (by omega : (c.callers j).sid ≠ c.storeLen)]
        exact h.classifyOwner j hj hjpc
    · -- doneFacts
      intro sid hsid hdone
      by_cases hsl : sid = c.storeLen
      · subst hsl; rw [upd_at] at hdone; exact absurd hdone (by simp [freshInner])
      · rw [upd_ne _ _ hsl] at hdone ⊢
        obtain ⟨h1, h2, _h3⟩ :=
          h.doneFacts sid (by omega) hdone
        refine ⟨h1, h2, ?_⟩
        intro hx
        simp only [Option.some.injEq] at hx
        omega
    · -- doneWit
      intro sid hsid hdone
      by_cases hsl : sid = c.storeLen
      · subst hsl; rw [upd_at] at hdone; exact absurd hdone (by simp [freshInner])
      · rw [upd_ne _ _ hsl] at hdone
        obtain ⟨j, hj, hjsid, hjpc⟩ := h.doneWit sid (by omega) hdone
        have hji : j ≠ i := by
          intro hx; subst hx
          rcases hjpc with h1 | h1 <;> rw [hpc] at h1 <;> simp at h1
        exact ⟨j, hj, by rw [upd_ne _ _ hji]; exact hjsid,
          by rw [upd_ne _ _ hji]; exact hjpc⟩
    · -- resSetFacts
      intro sid hsid hset
      by_cases hsl : sid = c.storeLen
      · subst hsl; rw [upd_at] at hset; exact absurd hset (by simp [freshInner])
      · rw [upd_ne _ _ hsl] at hset ⊢
        obtain ⟨h1, j, hj, hjacc, hjres⟩ := h.resSetFacts sid (by omega) hset
        refine ⟨h1, j, hj, ?_, ?_⟩
        · by_cases hji : j = i
          · subst hji; rw [upd_at]; exact hjacc
          · rw [upd_ne _ _ hji]; exact hjacc
        · by_cases hji : j = i
          · subst hji; rw [upd_at]; exact hjres
          · rw [upd_ne _ _ hji]; exact hjres
    · -- finVal
      intro j hj hjpc hjout
      by_cases hji : j = i
      · subst hji; rw [upd_at] at hjpc; exact absurd hjpc (by simp)
      · rw [upd_ne _ _ hji] at hjpc hjout ⊢
        obtain ⟨h1, h2, h3⟩ := h.finVal j hj hjpc hjout
        rw [upd_ne _ _ (by omega : (c.callers j).sid ≠ c.storeLen)]
        exact ⟨by omega, h2, h3⟩
    · -- finCanc
      intro j hj hjpc hjout
      by_cases hji : j = i
      · subst hji; rw [upd_at] at hjpc; exact absurd hjpc (by simp)
      · rw [upd_ne _ _ hji] at hjpc hjout ⊢
        exact h.finCanc j hj hjpc hjout
    · -- cfImp
      intro j hj hjcf
      by_cases hji : j = i
      · subst hji; rw [upd_at] at hjcf ⊢; dsimp only at hjcf ⊢
        exact h.cfImp j hi hjcf
      · rw [upd_ne _ _ hji] at hjcf ⊢; exact h.cfImp j hj hjcf
    · -- ccPc
      intro j hj hjpc
      by_cases hji : j = i
      · subst hji; rw [upd_at] at hjpc; exact absurd hjpc (by simp)
      · rw [upd_ne _ _ hji] at hjpc ⊢; exact h.ccPc j hj hjpc
    · -- panicPc
      intro j hj hjpc
      by_cases hji : j = i
      · subst hji; rw [upd_at] at hjpc; exact absurd hjpc (by simp)
      · rw [upd_ne _ _ hji] at hjpc ⊢; exact h.panicPc j hj hjpc
  | some sid0 =>
    have hs0 : sid0 < c.storeLen := by
      have := h.idxLt sid0 hidx; omega
    simp only [step, if_pos (And.intro hi hpc), hidx]
    constructor <;> dsimp only
    · -- idxLt
      intro sid hsid
      simp only [Option.some.injEq] at hsid
      subst hsid
      exact h.idxLt sid0 hidx
    · -- sidLt
      intro j hj hjpc
      by_cases hji : j = i
      · subst hji; rw [upd_at]; dsimp only; exact hs0
      · rw [upd_ne _ _ hji] at hjpc ⊢
        exact h.sidLt j hj hjpc
    · -- retiredSet
      intro sid hsid hne
      rw [← hidx] at hne
      by_cases hss : sid = sid0
      · subst hss; rw [upd_at]; dsimp only
        exact h.retiredSet sid hsid hne
      · rw [upd_ne _ _ hss]
        exact h.retiredSet sid hsid hne
    · -- tokenFree
      intro sid hsid hla j hj
      obtain ⟨hjn, hjsid, hjpc⟩ := hj
      dsimp only at hjn hjsid hjpc
      have hla' : (c.store sid).leaderAvail = true := by
        by_cases hss : sid = sid0
        · subst hss; rw [upd_at] at hla; exact hla
        · rw [upd_ne _ _ hss] at hla; exact hla
      by_cases hji : j = i
      · subst hji; rw [upd_at] at hjpc; simp at hjpc
      · rw [upd_ne _ _ hji] at hjsid hjpc
        exact h.tokenFree sid hsid hla' j ⟨hjn, hjsid, hjpc⟩
    · -- ownsUniq
      intro a b sid ha hb
      obtain ⟨han, hasid, hapc⟩ := ha
      obtain ⟨hbn, hbsid, hbpc⟩ := hb
      dsimp only at han hasid hapc hbn hbsid hbpc
      have hai : a ≠ i := by
        intro hx; subst hx; rw [upd_at] at hapc; simp at hapc
      have hbi : b ≠ i := by
        intro hx; subst hx; rw [upd_at] at hbpc; simp at hbpc
      rw [upd_ne _ _ hai] at hasid hapc
      rw [upd_ne _ _ hbi] at hbsid hbpc
      exact h.ownsUniq a b sid ⟨han, hasid, hapc⟩ ⟨hbn, hbsid, hbpc⟩
    · -- execOwner
      intro j hj hjpc
      by_cases hji : j = i
      · subst hji; rw [upd_at] at hjpc; exact absurd hjpc (by simp)
      · rw [upd_ne _ _ hji] at hjpc ⊢
        obtain ⟨h1, h2, h3, h4⟩ := h.execOwner j hj hjpc
        rw [hidx] at h3
        obtain ⟨e1, e2, _e3, e4, _e5⟩ :=
          upd_mon c.store sid0 ((c.store sid0).monitors + 1) ((c.callers j).sid)
        rw [e1, e2, e4]
        exact ⟨h1, h2, h3, h4⟩
    · -- retireOwner
      intro j hj hjpc
      by_cases hji : j = i
      · subst hji; rw [upd_at] at hjpc; exact absurd hjpc (by simp)
      · rw [upd_ne _ _ hji] at hjpc ⊢
        obtain ⟨h1, h2, h3, h4⟩ := h.retireOwner j hj hjpc
        rw [hidx] at h3
        obtain ⟨e1, e2, _e3, e4, _e5⟩ :=
          upd_mon c.store sid0 ((c.store sid0).monitors + 1) ((c.callers j).sid)
        rw [e1, e2, e4]
        exact ⟨h1, h2, h3, h4⟩
    · -- closeOwner
      intro j hj hjpc
      by_cases hji : j = i
      · subst hji; rw [upd_at] at hjpc; exact absurd hjpc (by simp)
      · rw [upd_ne _ _ hji] at hjpc ⊢
        obtain ⟨h1, h2, h3, h4⟩ := h.closeOwner j hj hjpc
        rw [hidx] at h3
        obtain ⟨e1, e2, _e3, e4, _e5⟩ :=
          upd_mon c.store sid0 ((c.store sid0).monitors + 1) ((c.callers j).sid)
        rw [e1, e2, e4]
        exact ⟨h1, h2, h3, h4⟩
    · -- classifyOwner
      intro j hj hjpc
      by_cases hji : j = i
      · subst hji; rw [upd_at] at hjpc; exact absurd hjpc (by simp)
      · rw [upd_ne _ _ hji] at hjpc ⊢
        obtain ⟨h1, h2, h3⟩ := h.classifyOwner j hj hjpc
        obtain ⟨e1, e2, _e3, e4, _e5⟩ :=
          upd_mon c.store sid0 ((c.store sid0).monitors + 1) ((c.callers j).sid)
        rw [e1, e2, e4]
        exact ⟨h1, h2, h3⟩
    · -- doneFacts
      intro sid hsid hdone
      rw [← hidx]
      by_cases hss : sid = sid0
      · subst hss; rw [upd_at] at hdone ⊢; dsimp only at hdone ⊢
        exact h.doneFacts sid hsid hdone
      · rw [upd_ne _ _ hss] at hdone ⊢
        exact h.doneFacts sid hsid hdone
    · -- doneWit
      intro sid hsid hdone
      have hdone' : (c.store sid).done = true := by
        by_cases hss : sid = sid0
        · subst hss; rw [upd_at] at hdone; exact hdone
        · rw [upd_ne _ _ hss] at hdone; exact hdone
      obtain ⟨j, hj, hjsid, hjpc⟩ := h.doneWit sid hsid hdone'
      have hji : j ≠ i := by
        intro hx; subst hx
        rcases hjpc with h1 | h1 <;> rw [hpc] at h1 <;> simp at h1
      exact ⟨j, hj, by rw [upd_ne _ _ hji]; exact hjsid,
        by rw [upd_ne _ _ hji]; exact hjpc⟩
    · -- resSetFacts
      intro sid hsid hset
      have hset' : (c.store sid).resultSet = true := by
        by_cases hss : sid = sid0
        · subst hss; rw [upd_at] at hset; exact hset
        · rw [upd_ne _ _ hss] at hset; exact hset
      obtain ⟨h1, j, hj, hjacc, hjres⟩ := h.resSetFacts sid hsid hset'
      constructor
      · by_cases hss : sid = sid0
        · subst hss; rw [upd_at]; exact h1
        · rw [upd_ne _ _ hss]; exact h1
      · refine ⟨j, hj, ?_, ?_⟩
        · by_cases hji : j = i
          · subst hji; rw [upd_at]; exact hjacc
          · rw [upd_ne _ _ hji]; exact hjacc
        · have hres : (Function.update c.store sid0
              ({ c.store sid0 with monitors := (c.store sid0).monitors + 1 }) sid).result
              = (c.store sid).result := by
            by_cases hss : sid = sid0
            · subst hss; rw [upd_at]
            · rw [upd_ne _ _ hss]
          rw [hres]
          by_cases hji : j = i
          · subst hji; rw [upd_at]; exact hjres
          · rw [upd_ne _ _ hji]; exact hjres
    · -- finVal
      intro j hj hjpc hjout
      by_cases hji : j = i
      · subst hji; rw [upd_at] at hjpc; exact absurd hjpc (by simp)
      · rw [upd_ne _ _ hji] at hjpc hjout ⊢
        obtain ⟨h1, h2, h3⟩ := h.finVal j hj hjpc hjout
        obtain ⟨_e1, _e2, e3, e4, _e5⟩ :=
          upd_mon c.store sid0 ((c.store sid0).monitors + 1) ((c.callers j).sid)
        rw [e3, e4]
        exact ⟨h1, h2, h3⟩
    · -- finCanc
      intro j hj hjpc hjout
      by_cases hji : j = i
      · subst hji; rw [upd_at] at hjpc; exact absurd hjpc (by simp)
      · rw [upd_ne _ _ hji] at hjpc hjout ⊢
        exact h.finCanc j hj hjpc hjout
    · -- cfImp
      intro j hj hjcf
      by_cases hji : j = i
      · subst hji; rw [upd_at] at hjcf ⊢; dsimp only at hjcf ⊢
        exact h.cfImp j hi hjcf
      · rw [upd_ne _ _ hji] at hjcf ⊢; exact h.cfImp j hj hjcf
    · -- ccPc
      intro j hj hjpc
      by_cases hji : j = i
      · subst hji; rw [upd_at] at hjpc; exact absurd hjpc (by simp)
      · rw [upd_ne _ _ hji] at hjpc ⊢; exact h.ccPc j hj hjpc
    · -- panicPc
      intro j hj hjpc
      by_cases hji : j = i
      · subst hji; rw [upd_at] at hjpc; exact absurd hjpc (by simp)
      · rw [upd_ne _ _ hji] at hjpc ⊢; exact h.panicPc j hj hjpc

/-- A store update that keeps a projection keeps it at every id. -/
theorem upd_keep {α : Type} (F : CallInner → α) (st : Nat → CallInner)
    (s0 : Nat) (k : CallInner) (hk : F k = F (st s0)) (sid : Nat) :
    F (Function.update st s0 k sid) = F (st sid) := by
  by_cases hss : sid = s0
  · subst hss; rw [upd_at]; exact hk
  · rw [upd_ne _ _ hss]

theorem inv_selectDone (c : Config) (i : Nat) (h : Inv c) :
    Inv (step c (.selectDone i)) := by
  by_cases hg : i < c.numCallers ∧ (c.callers i).pc = .sel
      ∧ (c.store (c.callers i).sid).done = true
  case neg => simp only [step, if_neg hg]; exact h
  obtain ⟨hi, hpc, hdn⟩ := hg
  have hslt : (c.callers i).sid < c.storeLen :=
    h.sidLt i hi (by rw [hpc]; simp)
  simp only [step, if_pos (And.intro hi (And.intro hpc hdn))]
  constructor <;> dsimp only
  · -- idxLt
    exact h.idxLt
  · -- sidLt
    intro j hj hjpc
    by_cases hji : j = i
    · subst hji; rw [upd_at]; dsimp only; exact hslt
    · rw [upd_ne _ _ hji] at hjpc ⊢
      exact h.sidLt j hj hjpc
  · -- retiredSet
    exact h.retiredSet
  · -- tokenFree
    intro sid hsid hla j hj
    obtain ⟨hjn, hjsid, hjpc⟩ := hj
    dsimp only at hjn hjsid hjpc
    by_cases hji : j = i
    · subst hji; rw [upd_at] at hjpc; simp at hjpc
    · rw [upd_ne _ _ hji] at hjsid hjpc
      exact h.tokenFree sid hsid hla j ⟨hjn, hjsid, hjpc⟩
  · -- ownsUniq
    intro a b sid ha hb
    obtain ⟨han, hasid, hapc⟩ := ha
    obtain ⟨hbn, hbsid, hbpc⟩ := hb
    dsimp only at han hasid hapc hbn hbsid hbpc
    have hai : a ≠ i := by
      intro hx; subst hx; rw [upd_at] at hapc; simp at hapc
    have hbi : b ≠ i := by
      intro hx; subst hx; rw [upd_at] at hbpc; simp at hbpc
    rw [upd_ne _ _ hai] at hasid hapc
    rw [upd_ne _ _ hbi] at hbsid hbpc
    exact h.ownsUniq a b sid ⟨han, hasid, hapc⟩ ⟨hbn, hbsid, hbpc⟩
  · -- execOwner
    intro j hj hjpc
    by_cases hji : j = i
    · subst hji; rw [upd_at] at hjpc; exact absurd hjpc (by simp)
    · rw [upd_ne _ _ hji] at hjpc ⊢; exact h.execOwner j hj hjpc
  · -- retireOwner
    intro j hj hjpc
    by_cases hji : j = i
    · subst hji; rw [upd_at] at hjpc; exact absurd hjpc (by simp)
    · rw [upd_ne _ _ hji] at hjpc ⊢; exact h.retireOwner j hj hjpc
  · -- closeOwner
    intro j hj hjpc
    by_cases hji : j = i
    · subst hji; rw [upd_at] at hjpc; exact absurd hjpc (by simp)
    · rw [upd_ne _ _ hji] at hjpc ⊢; exact h.closeOwner j hj hjpc
  · -- classifyOwner
    intro j hj hjpc
    by_cases hji : j = i
    · subst hji; rw [upd_at] at hjpc; exact absurd hjpc (by simp)
    · rw [upd_ne _ _ hji] at hjpc ⊢; exact h.classifyOwner j hj hjpc
  · -- doneFacts
    exact h.doneFacts
  · -- doneWit
    intro sid hsid hdone
    obtain ⟨j, hj, hjsid, hjpc⟩ := h.doneWit sid hsid hdone
    by_cases hji : j = i
    · subst hji
      rcases hjpc with h1 | h1 <;> rw [hpc] at h1 <;> simp at h1
    · exact ⟨j, hj, by rw [upd_ne _ _ hji]; exact hjsid,
        by rw [upd_ne _ _ hji]; exact hjpc⟩
  · -- resSetFacts
    intro sid hsid hset
    obtain ⟨h1, j, hj, hjacc, hjres⟩ := h.resSetFacts sid hsid hset
    refine ⟨h1, j, hj, ?_, ?_⟩
    · by_cases hji : j = i
      · subst hji; rw [upd_at]; exact hjacc
      · rw [upd_ne _ _ hji]; exact hjacc
    · by_cases hji : j = i
      · subst hji; rw [upd_at]; exact hjres
      · rw [upd_ne _ _ hji]; exact hjres
  · -- finVal
    intro j hj hjpc hjout
    by_cases hji : j = i
    · subst hji; rw [upd_at] at hjpc hjout ⊢; dsimp only at hjpc hjout ⊢
      exact ⟨hslt, (h.doneFacts (c.callers j).sid hslt hdn).1, rfl⟩
    · rw [upd_ne _ _ hji] at hjpc hjout ⊢
      exact h.finVal j hj hjpc hjout
  · -- finCanc
    intro j hj hjpc hjout
    by_cases hji : j = i
    · subst hji; rw [upd_at] at hjout; dsimp only at hjout
      exact absurd hjout.symm (by simp)
    · rw [upd_ne _ _ hji] at hjpc hjout ⊢
      exact h.finCanc j hj hjpc hjout
  · -- cfImp
    intro j hj hjcf
    by_cases hji : j = i
    · subst hji; rw [upd_at] at hjcf ⊢; dsimp only at hjcf ⊢
      exact h.cfImp j hi hjcf
    · rw [upd_ne _ _ hji] at hjcf ⊢; exact h.cfImp j hj hjcf
  · -- ccPc
    intro j hj hjpc
    by_cases hji : j = i
    · subst hji; rw [upd_at] at hjpc; exact absurd hjpc (by simp)
    · rw [upd_ne _ _ hji] at hjpc ⊢; exact h.ccPc j hj hjpc
  · -- panicPc
    intro j hj hjpc
    by_cases hji : j = i
    · subst hji; rw [upd_at] at hjpc; exact absurd hjpc (by simp)
    · rw [upd_ne _ _ hji] at hjpc ⊢; exact h.panicPc j hj hjpc

theorem inv_selectCancel (c : Config) (i : Nat) (h : Inv c) :
    Inv (step c (.selectCancel i)) := by
  by_cases hg : i < c.numCallers ∧ (c.callers i).pc = .sel
      ∧ (c.callers i).cancelFired = true
  case neg => simp only [step, if_neg hg]; exact h
  obtain ⟨hi, hpc, hcf⟩ := hg
  have hslt : (c.callers i).sid < c.storeLen :=
    h.sidLt i hi (by rw [hpc]; simp)
  simp only [step, if_pos (And.intro hi (And.intro hpc hcf))]
  constructor <;> dsimp only
  · -- idxLt
    exact h.idxLt
  · -- sidLt
    intro j hj hjpc
    by_cases hji : j = i
    · subst hji; rw [upd_at]; dsimp only; exact hslt
    · rw [upd_ne _ _ hji] at hjpc ⊢
      exact h.sidLt j hj hjpc
  · -- retiredSet
    exact h.retiredSet
  · -- tokenFree
    intro sid hsid hla j hj
    obtain ⟨hjn, hjsid, hjpc⟩ := hj
    dsimp only at hjn hjsid hjpc
    by_cases hji : j = i
    · subst hji; rw [upd_at] at hjpc; simp at hjpc
    · rw [upd_ne _ _ hji] at hjsid hjpc
      exact h.tokenFree sid hsid hla j ⟨hjn, hjsid, hjpc⟩
  · -- ownsUniq
    intro a b sid ha hb
    obtain ⟨han, hasid, hapc⟩ := ha
    obtain ⟨hbn, hbsid, hbpc⟩ := hb
    dsimp only at han hasid hapc hbn hbsid hbpc
    have hai : a ≠ i := by
      intro hx; subst hx; rw [upd_at] at hapc; simp at hapc
    have hbi : b ≠ i := by
      intro hx; subst hx; rw [upd_at] at hbpc; simp at hbpc
    rw [upd_ne _ _ hai] at hasid hapc
    rw [upd_ne _ _ hbi] at hbsid hbpc
    exact h.ownsUniq a b sid ⟨han, hasid, hapc⟩ ⟨hbn, hbsid, hbpc⟩
  · -- execOwner
    intro j hj hjpc
    by_cases hji : j = i
    · subst hji; rw [upd_at] at hjpc; exact absurd hjpc (by simp)
    · rw [upd_ne _ _ hji] at hjpc ⊢; exact h.execOwner j hj hjpc
  · -- retireOwner
    intro j hj hjpc
    by_cases hji : j = i
    · subst hji; rw [upd_at] at hjpc; exact absurd hjpc (by simp)
    · rw [upd_ne _ _ hji] at hjpc ⊢; exact h.retireOwner j hj hjpc
  · -- closeOwner
    intro j hj hjpc
    by_cases hji : j = i
    · subst hji; rw [upd_at] at hjpc; exact absurd hjpc (by simp)
    · rw [upd_ne _ _ hji] at hjpc ⊢; exact h.closeOwner j hj hjpc
  · -- classifyOwner
    intro j hj hjpc
    by_cases hji : j = i
    · subst hji; rw [upd_at] at hjpc; exact absurd hjpc (by simp)
    · rw [upd_ne _ _ hji] at hjpc ⊢; exact h.classifyOwner j hj hjpc
  · -- doneFacts
    exact h.doneFacts
  · -- doneWit
    intro sid hsid hdone
    obtain ⟨j, hj, hjsid, hjpc⟩ := h.doneWit sid hsid hdone
    by_cases hji : j = i
    · subst hji
      rcases hjpc with h1 | h1 <;> rw [hpc] at h1 <;> simp at h1
    · exact ⟨j, hj, by rw [upd_ne _ _ hji]; exact hjsid,
        by rw [upd_ne _ _ hji]; exact hjpc⟩
  · -- resSetFacts
    intro sid hsid hset
    obtain ⟨h1, j, hj, hjacc, hjres⟩ := h.resSetFacts sid hsid hset
    refine ⟨h1, j, hj, ?_, ?_⟩
    · by_cases hji : j = i
      · subst hji; rw [upd_at]; exact hjacc
      · rw [upd_ne _ _ hji]; exact hjacc
    · by_cases hji : j = i
      · subst hji; rw [upd_at]; exact hjres
      · rw [upd_ne _ _ hji]; exact hjres
  · -- finVal
    intro j hj hjpc hjout
    by_cases hji : j = i
    · subst hji; rw [upd_at] at hjpc; exact absurd hjpc (by simp)
    · rw [upd_ne _ _ hji] at hjpc hjout ⊢
      exact h.finVal j hj hjpc hjout
  · -- finCanc
    intro j hj hjpc hjout
    by_cases hji : j = i
    · subst hji; rw [upd_at] at hjpc; exact absurd hjpc (by simp)
    · rw [upd_ne _ _ hji] at hjpc hjout ⊢
      exact h.finCanc j hj hjpc hjout
  · -- cfImp
    intro j hj hjcf
    by_cases hji : j = i
    · subst hji; rw [upd_at] at hjcf ⊢; dsimp only at hjcf ⊢
      exact h.cfImp j hi hjcf
    · rw [upd_ne _ _ hji] at hjcf ⊢; exact h.cfImp j hj hjcf
  · -- ccPc
    intro j hj hjpc
    by_cases hji : j = i
    · subst hji; rw [upd_at]; dsimp only; exact hcf
    · rw [upd_ne _ _ hji] at hjpc ⊢; exact h.ccPc j hj hjpc
  · -- panicPc
    intro j hj hjpc
    by_cases hji : j = i
    · subst hji; rw [upd_at] at hjpc; exact absurd hjpc (by simp)
    · rw [upd_ne _ _ hji] at hjpc ⊢; exact h.panicPc j hj hjpc

theorem inv_selectLeader (c : Config) (i : Nat) (h : Inv c) :
    Inv (step c (.selectLeader i)) := by
  by_cases hg : i < c.numCallers ∧ (c.callers i).pc = .sel
      ∧ (c.store (c.callers i).sid).leaderAvail = true
  case neg => simp only [step, if_neg hg]; exact h
  obtain ⟨hi, hpc, hla⟩ := hg
  have hslt : (c.callers i).sid < c.storeLen :=
    h.sidLt i hi (by rw [hpc]; simp)
  have hrs : (c.store (c.callers i).sid).resultSet = false := by
    cases hx : (c.store (c.callers i).sid).resultSet
    · rfl
    · have := (h.resSetFacts _ hslt hx).1
      rw [this] at hla; exact absurd hla (by simp)
  have hdf : (c.store (c.callers i).sid).done = false := by
    cases hx : (c.store (c.callers i).sid).done
    · rfl
    · have := (h.doneFacts _ hslt hx).2.1
      rw [this] at hla; exact absurd hla (by simp)
  have hcur : c.index = some (c.callers i).sid := by
    by_contra hx
    have := h.retiredSet _ hslt hx
    rw [this] at hrs; exact absurd hrs (by simp)
  have hnoown : ∀ j, ¬ owns c j (c.callers i).sid :=
    h.tokenFree _ hslt hla
  simp only [step, if_pos (And.intro hi (And.intro hpc hla))]
  constructor <;> dsimp only
  · -- idxLt
    exact h.idxLt
  · -- sidLt
    intro j hj hjpc
    by_cases hji : j = i
    · subst hji; rw [upd_at]; dsimp only; exact hslt
    · rw [upd_ne _ _ hji] at hjpc ⊢
      exact h.sidLt j hj hjpc
  · -- retiredSet
    intro sid hsid hne
    rw [upd_keep CallInner.resultSet c.store (c.callers i).sid ({ c.store (c.callers i).sid with leaderAvail := false }) rfl sid]
    exact h.retiredSet sid hsid hne
  · -- tokenFree
    intro sid hsid hla' j hj
    obtain ⟨hjn, hjsid, hjpc⟩ := hj
    dsimp only at hjn hjsid hjpc
    by_cases hss : sid = (c.callers i).sid
    · subst hss; rw [upd_at] at hla'; exact absurd hla' (by simp)
    · rw [upd_ne _ _ hss] at hla'
      by_cases hji : j = i
      · subst hji; rw [upd_at] at hjsid; dsimp only at hjsid
        exact hss hjsid.symm
      · rw [upd_ne _ _ hji] at hjsid hjpc
        exact h.tokenFree sid hsid hla' j ⟨hjn, hjsid, hjpc⟩
  · -- ownsUniq
    intro a b sid ha hb
    obtain ⟨han, hasid, hapc⟩ := ha
    obtain ⟨hbn, hbsid, hbpc⟩ := hb
    dsimp only at han hasid hapc hbn hbsid hbpc
    by_cases hai : a = i <;> by_cases hbi : b = i
    · rw [hai, hbi]
    · subst hai
      rw [upd_at] at hasid; dsimp only at hasid
      rw [upd_ne _ _ hbi] at hbsid hbpc
      subst hasid
      exact absurd ⟨hbn, hbsid, hbpc⟩ (hnoown b)
    · subst hbi
      rw [upd_at] at hbsid; dsimp only at hbsid
      rw [upd_ne _ _ hai] at hasid hapc
      subst hbsid
      exact absurd ⟨han, hasid, hapc⟩ (hnoown a)
    · rw [upd_ne _ _ hai] at hasid hapc
      rw [upd_ne _ _ hbi] at hbsid hbpc
      exact h.ownsUniq a b sid ⟨han, hasid, hapc⟩ ⟨hbn, hbsid, hbpc⟩
  · -- execOwner
    intro j hj hjpc
    by_cases hji : j = i
    · subst hji; rw [upd_at]; dsimp only
      rw [upd_keep CallInner.resultSet c.store (c.callers j).sid ({ c.store (c.callers j).sid with leaderAvail := false }) rfl,
        upd_keep CallInner.done c.store (c.callers j).sid ({ c.store (c.callers j).sid with leaderAvail := false }) rfl, upd_at]
      exact ⟨hrs, hdf, hcur, rfl⟩
    · rw [upd_ne _ _ hji] at hjpc ⊢
      obtain ⟨h1, h2, h3, h4⟩ := h.execOwner j hj hjpc
      have hne : (c.callers j).sid ≠ (c.callers i).sid := by
        intro hx; rw [hx] at h4; rw [h4] at hla; exact absurd hla (by simp)
      rw [upd_ne _ _ hne]
      exact ⟨h1, h2, h3, h4⟩
  · -- retireOwner
    intro j hj hjpc
    by_cases hji : j = i
    · subst hji; rw [upd_at] at hjpc; exact absurd hjpc (by simp)
    · rw [upd_ne _ _ hji] at hjpc ⊢
      obtain ⟨h1, h2, h3, h4⟩ := h.retireOwner j hj hjpc
      have hne : (c.callers j).sid ≠ (c.callers i).sid := by
        intro hx; rw [hx] at h4; rw [h4] at hla; exact absurd hla (by simp)
      rw [upd_ne _ _ hne]
      exact ⟨h1, h2, h3, h4⟩
  · -- closeOwner
    intro j hj hjpc
    by_cases hji : j = i
    · subst hji; rw [upd_at] at hjpc; exact absurd hjpc (by simp)
    · rw [upd_ne _ _ hji] at hjpc ⊢
      obtain ⟨h1, h2, h3, h4⟩ := h.closeOwner j hj hjpc
      have hne : (c.callers j).sid ≠ (c.callers i).sid := by
        intro hx; rw [hx] at h4; rw [h4] at hla; exact absurd hla (by simp)
      rw [upd_ne _ _ hne]
      exact ⟨h1, h2, h3, h4⟩
  · -- classifyOwner
    intro j hj hjpc
    by_cases hji : j = i
    · subst hji; rw [upd_at] at hjpc; exact absurd hjpc (by simp)
    · rw [upd_ne _ _ hji] at hjpc ⊢
      obtain ⟨h1, h2, h3⟩ := h.classifyOwner j hj hjpc
      have hne : (c.callers j).sid ≠ (c.callers i).sid := by
        intro hx; rw [hx] at h3; rw [h3] at hla; exact absurd hla (by simp)
      rw [upd_ne _ _ hne]
      exact ⟨h1, h2, h3⟩
  · -- doneFacts
    intro sid hsid hdone
    rw [upd_keep CallInner.done c.store (c.callers i).sid ({ c.store (c.callers i).sid with leaderAvail := false }) rfl sid] at hdone
    obtain ⟨h1, h2, h3⟩ := h.doneFacts sid hsid hdone
    have hss : sid ≠ (c.callers i).sid := by
      intro hx; rw [hx] at hdone; rw [hdone] at hdf
      exact absurd hdf (by simp)
    rw [upd_ne _ _ hss]
    exact ⟨h1, h2, h3⟩
  · -- doneWit
    intro sid hsid hdone
    rw [upd_keep CallInner.done c.store (c.callers i).sid ({ c.store (c.callers i).sid with leaderAvail := false }) rfl sid] at hdone
    obtain ⟨j, hj, hjsid, hjpc⟩ := h.doneWit sid hsid hdone
    have hji : j ≠ i := by
      intro hx; subst hx
      rcases hjpc with h1 | h1 <;> rw [hpc] at h1 <;> simp at h1
    exact ⟨j, hj, by rw [upd_ne _ _ hji]; exact hjsid,
      by rw [upd_ne _ _ hji]; exact hjpc⟩
  · -- resSetFacts
    intro sid hsid hset
    rw [upd_keep CallInner.resultSet c.store (c.callers i).sid ({ c.store (c.callers i).sid with leaderAvail := false }) rfl sid] at hset
    obtain ⟨h1, j, hj, hjacc, hjres⟩ := h.resSetFacts sid hsid hset
    have hss : sid ≠ (c.callers i).sid := by
      intro hx; rw [hx] at h1; rw [h1] at hla; exact absurd hla (by simp)
    constructor
    · rw [upd_ne _ _ hss]; exact h1
    · refine ⟨j, hj, ?_, ?_⟩
      · by_cases hji : j = i
        · subst hji; rw [upd_at]; exact hjacc
        · rw [upd_ne _ _ hji]; exact hjacc
      · rw [upd_keep CallInner.result c.store (c.callers i).sid ({ c.store (c.callers i).sid with leaderAvail := false }) rfl sid]
        by_cases hji : j = i
        · subst hji; rw [upd_at]; exact hjres
        · rw [upd_ne _ _ hji]; exact hjres
  · -- finVal
    intro j hj hjpc hjout
    by_cases hji : j = i
    · subst hji; rw [upd_at] at hjpc; exact absurd hjpc (by simp)
    · rw [upd_ne _ _ hji] at hjpc hjout ⊢
      obtain ⟨h1, h2, h3⟩ := h.finVal j hj hjpc hjout
      rw [upd_keep CallInner.resultSet c.store (c.callers i).sid ({ c.store (c.callers i).sid with leaderAvail := false }) rfl,
        upd_keep CallInner.result c.store (c.callers i).sid ({ c.store (c.callers i).sid with leaderAvail := false }) rfl]
      exact ⟨h1, h2, h3⟩
  · -- finCanc
    intro j hj hjpc hjout
    by_cases hji : j = i
    · subst hji; rw [upd_at] at hjpc; exact absurd hjpc (by simp)
    · rw [upd_ne _ _ hji] at hjpc hjout ⊢
      exact h.finCanc j hj hjpc hjout
  · -- cfImp
    intro j hj hjcf
    by_cases hji : j = i
    · subst hji; rw [upd_at] at hjcf ⊢; dsimp only at hjcf ⊢
      exact h.cfImp j hi hjcf
    · rw [upd_ne _ _ hji] at hjcf ⊢; exact h.cfImp j hj hjcf
  · -- ccPc
    intro j hj hjpc
    by_cases hji : j = i
    · subst hji; rw [upd_at] at hjpc; exact absurd hjpc (by simp)
    · rw [upd_ne _ _ hji] at hjpc ⊢; exact h.ccPc j hj hjpc
  · -- panicPc
    intro j hj hjpc
    by_cases hji : j = i
    · subst hji; rw [upd_at] at hjpc; exact absurd hjpc (by simp)
    · rw [upd_ne _ _ hji] at hjpc ⊢; exact h.panicPc j hj hjpc

theorem inv_cancelCheck (c : Config) (i : Nat) (h : Inv c) :
    Inv (step c (.cancelCheck i)) := by
  by_cases hg : i < c.numCallers ∧ (c.callers i).pc = .cancelCheck
  case neg => simp only [step, if_neg hg]; exact h
  obtain ⟨hi, hpc⟩ := hg
  have hslt : (c.callers i).sid < c.storeLen :=
    h.sidLt i hi (by rw [hpc]; simp)
  by_cases hix : c.index = some (c.callers i).sid
  · -- the caller is still registered against the current state: deregister
    simp only [step, if_pos (And.intro hi hpc), if_pos hix]
    constructor <;> dsimp only
    · -- idxLt
      exact h.idxLt
    · -- sidLt
      intro j hj hjpc
      by_cases hji : j = i
      · subst hji; rw [upd_at]; dsimp only; exact hslt
      · rw [upd_ne _ _ hji] at hjpc ⊢
        exact h.sidLt j hj hjpc
    · -- retiredSet
      intro sid hsid hne
      rw [(upd_mon c.store (c.callers i).sid
        ((c.store (c.callers i).sid).monitors - 1) sid).2.2.2.1]
      exact h.retiredSet sid hsid hne
    · -- tokenFree
      intro sid hsid hla j hj
      obtain ⟨hjn, hjsid, hjpc⟩ := hj
      dsimp only at hjn hjsid hjpc
      rw [(upd_mon c.store (c.callers i).sid
        ((c.store (c.callers i).sid).monitors - 1) sid).1] at hla
      by_cases hji : j = i
      · subst hji; rw [upd_at] at hjpc; simp at hjpc
      · rw [upd_ne _ _ hji] at hjsid hjpc
        exact h.tokenFree sid hsid hla j ⟨hjn, hjsid, hjpc⟩
    · -- ownsUniq
      intro a b sid ha hb
      obtain ⟨han, hasid, hapc⟩ := ha
      obtain ⟨hbn, hbsid, hbpc⟩ := hb
      dsimp only at han hasid hapc hbn hbsid hbpc
      have hai : a ≠ i := by
        intro hx; subst hx; rw [upd_at] at hapc; simp at hapc
      have hbi : b ≠ i := by
        intro hx; subst hx; rw [upd_at] at hbpc; simp at hbpc
      rw [upd_ne _ _ hai] at hasid hapc
      rw [upd_ne _ _ hbi] at hbsid hbpc
      exact h.ownsUniq a b sid ⟨han, hasid, hapc⟩ ⟨hbn, hbsid, hbpc⟩
    · -- execOwner
      intro j hj hjpc
      by_cases hji : j = i
      · subst hji; rw [upd_at] at hjpc; exact absurd hjpc (by simp)
      · rw [upd_ne _ _ hji] at hjpc ⊢
        obtain ⟨h1, h2, h3, h4⟩ := h.execOwner j hj hjpc
        obtain ⟨e1, e2, _e3, e4, _e5⟩ := upd_mon c.store (c.callers i).sid
          ((c.store (c.callers i).sid).monitors - 1) ((c.callers j).sid)
        rw [e1, e2, e4]
        exact ⟨h1, h2, h3, h4⟩
    · -- retireOwner
      intro j hj hjpc
      by_cases hji : j = i
      · subst hji; rw [upd_at] at hjpc; exact absurd hjpc (by simp)
      · rw [upd_ne _ _ hji] at hjpc ⊢
        obtain ⟨h1, h2, h3, h4⟩ := h.retireOwner j hj hjpc
        obtain ⟨e1, e2, _e3, e4, _e5⟩ := upd_mon c.store (c.callers i).sid
          ((c.store (c.callers i).sid).monitors - 1) ((c.callers j).sid)
        rw [e1, e2, e4]
        exact ⟨h1, h2, h3, h4⟩
    · -- closeOwner
      intro j hj hjpc
      by_cases hji : j = i
      · subst hji; rw [upd_at] at hjpc; exact absurd hjpc (by simp)
      · rw [upd_ne _ _ hji] at hjpc ⊢
        obtain ⟨h1, h2, h3, h4⟩ := h.closeOwner j hj hjpc
        obtain ⟨e1, e2, _e3, e4, _e5⟩ := upd_mon c.store (c.callers i).sid
          ((c.store (c.callers i).sid).monitors - 1) ((c.callers j).sid)
        rw [e1, e2, e4]
        exact ⟨h1, h2, h3, h4⟩
    · -- classifyOwner
      intro j hj hjpc
      by_cases hji : j = i
      · subst hji; rw [upd_at] at hjpc; exact absurd hjpc (by simp)
      · rw [upd_ne _ _ hji] at hjpc ⊢
        obtain ⟨h1, h2, h3⟩ := h.classifyOwner j hj hjpc
        obtain ⟨e1, e2, _e3, e4, _e5⟩ := upd_mon c.store (c.callers i).sid
          ((c.store (c.callers i).sid).monitors - 1) ((c.callers j).sid)
        rw [e1, e2, e4]
        exact ⟨h1, h2, h3⟩
    · -- doneFacts
      intro sid hsid hdone
      obtain ⟨e1, e2, _e3, e4, _e5⟩ := upd_mon c.store (c.callers i).sid
        ((c.store (c.callers i).sid).monitors - 1) sid
      rw [e2] at hdone
      rw [e1, e4]
      exact h.doneFacts sid hsid hdone
    · -- doneWit
      intro sid hsid hdone
      rw [(upd_mon c.store (c.callers i).sid
        ((c.store (c.callers i).sid).monitors - 1) sid).2.1] at hdone
      obtain ⟨j, hj, hjsid, hjpc⟩ := h.doneWit sid hsid hdone
      have hji : j ≠ i := by
        intro hx; subst hx
        rcases hjpc with h1 | h1 <;> rw [hpc] at h1 <;> simp at h1
      exact ⟨j, hj, by rw [upd_ne _ _ hji]; exact hjsid,
        by rw [upd_ne _ _ hji]; exact hjpc⟩
    · -- resSetFacts
      intro sid hsid hset
      obtain ⟨e1, _e2, e3, e4, _e5⟩ := upd_mon c.store (c.callers i).sid
        ((c.store (c.callers i).sid).monitors - 1) sid
      rw [e4] at hset
      obtain ⟨h1, j, hj, hjacc, hjres⟩ := h.resSetFacts sid hsid hset
      rw [e1, e3]
      refine ⟨h1, j, hj, ?_, ?_⟩
      · by_cases hji : j = i
        · subst hji; rw [upd_at]; exact hjacc
        · rw [upd_ne _ _ hji]; exact hjacc
      · by_cases hji : j = i
        · subst hji; rw [upd_at]; exact hjres
        · rw [upd_ne _ _ hji]; exact hjres
    · -- finVal
      intro j hj hjpc hjout
      by_cases hji : j = i
      · subst hji; rw [upd_at] at hjout; dsimp only at hjout
        exact absurd rfl hjout
      · rw [upd_ne _ _ hji] at hjpc hjout ⊢
        obtain ⟨h1, h2, h3⟩ := h.finVal j hj hjpc hjout
        obtain ⟨_e1, _e2, e3, e4, _e5⟩ := upd_mon c.store (c.callers i).sid
          ((c.store (c.callers i).sid).monitors - 1) ((c.callers j).sid)
        rw [e3, e4]
        exact ⟨h1, h2, h3⟩
    · -- finCanc
      intro j hj hjpc hjout
      by_cases hji : j = i
      · subst hji; rw [upd_at]; dsimp only
        exact ⟨rfl, Or.inl (h.ccPc j hi hpc)⟩
      · rw [upd_ne _ _ hji] at hjpc hjout ⊢
        exact h.finCanc j hj hjpc hjout
    · -- cfImp
      intro j hj hjcf
      by_cases hji : j = i
      · subst hji; rw [upd_at] at hjcf ⊢; dsimp only at hjcf ⊢
        exact h.cfImp j hi hjcf
      · rw [upd_ne _ _ hji] at hjcf ⊢; exact h.cfImp j hj hjcf
    · -- ccPc
      intro j hj hjpc
      by_cases hji : j = i
      · subst hji; rw [upd_at] at hjpc; exact absurd hjpc (by simp)
      · rw [upd_ne _ _ hji] at hjpc ⊢; exact h.ccPc j hj hjpc
    · -- panicPc
      intro j hj hjpc
      by_cases hji : j = i
      · subst hji; rw [upd_at] at hjpc; exact absurd hjpc (by simp)
      · rw [upd_ne _ _ hji] at hjpc ⊢; exact h.panicPc j hj hjpc
  · -- the state was retired while the caller waited: adopt the result
    simp only [step, if_pos (And.intro hi hpc), if_neg hix]
    have hset : (c.store (c.callers i).sid).resultSet = true :=
      h.retiredSet _ hslt hix
    constructor <;> dsimp only
    · -- idxLt
      exact h.idxLt
    · -- sidLt
      intro j hj hjpc
      by_cases hji : j = i
      · subst hji; rw [upd_at]; dsimp only; exact hslt
      · rw [upd_ne _ _ hji] at hjpc ⊢
        exact h.sidLt j hj hjpc
    · -- retiredSet
      exact h.retiredSet
    · -- tokenFree
      intro sid hsid hla j hj
      obtain ⟨hjn, hjsid, hjpc⟩ := hj
      dsimp only at hjn hjsid hjpc
      by_cases hji : j = i
      · subst hji; rw [upd_at] at hjpc; simp at hjpc
      · rw [upd_ne _ _ hji] at hjsid hjpc
        exact h.tokenFree sid hsid hla j ⟨hjn, hjsid, hjpc⟩
    · -- ownsUniq
      intro a b sid ha hb
      obtain ⟨han, hasid, hapc⟩ := ha
      obtain ⟨hbn, hbsid, hbpc⟩ := hb
      dsimp only at han hasid hapc hbn hbsid hbpc
      have hai : a ≠ i := by
        intro hx; subst hx; rw [upd_at] at hapc; simp at hapc
      have hbi : b ≠ i := by
        intro hx; subst hx; rw [upd_at] at hbpc; simp at hbpc
      rw [upd_ne _ _ hai] at hasid hapc
      rw [upd_ne _ _ hbi] at hbsid hbpc
      exact h.ownsUniq a b sid ⟨han, hasid, hapc⟩ ⟨hbn, hbsid, hbpc⟩
    · -- execOwner
      intro j hj hjpc
      by_cases hji : j = i
      · subst hji; rw [upd_at] at hjpc; exact absurd hjpc (by simp)
      · rw [upd_ne _ _ hji] at hjpc ⊢; exact h.execOwner j hj hjpc
    · -- retireOwner
      intro j hj hjpc
      by_cases hji : j = i
      · subst hji; rw [upd_at] at hjpc; exact absurd hjpc (by simp)
      · rw [upd_ne _ _ hji] at hjpc ⊢; exact h.retireOwner j hj hjpc
    · -- closeOwner
      intro j hj hjpc
      by_cases hji : j = i
      · subst hji; rw [upd_at] at hjpc; exact absurd hjpc (by simp)
      · rw [upd_ne _ _ hji] at hjpc ⊢; exact h.closeOwner j hj hjpc
    · -- classifyOwner
      intro j hj hjpc
      by_cases hji : j = i
      · subst hji; rw [upd_at] at hjpc; exact absurd hjpc (by simp)
      · rw [upd_ne _ _ hji] at hjpc ⊢; exact h.classifyOwner j hj hjpc
    · -- doneFacts
      exact h.doneFacts
    · -- doneWit
      intro sid hsid hdone
      obtain ⟨j, hj, hjsid, hjpc⟩ := h.doneWit sid hsid hdone
      by_cases hji : j = i
      · subst hji
        rcases hjpc with h1 | h1 <;> rw [hpc] at h1 <;> simp at h1
      · exact ⟨j, hj, by rw [upd_ne _ _ hji]; exact hjsid,
          by rw [upd_ne _ _ hji]; exact hjpc⟩
    · -- resSetFacts
      intro sid hsid hset'
      obtain ⟨h1, j, hj, hjacc, hjres⟩ := h.resSetFacts sid hsid hset'
      refine ⟨h1, j, hj, ?_, ?_⟩
      · by_cases hji : j = i
        · subst hji; rw [upd_at]; exact hjacc
        · rw [upd_ne _ _ hji]; exact hjacc
      · by_cases hji : j = i
        · subst hji; rw [upd_at]; exact hjres
        · rw [upd_ne _ _ hji]; exact hjres
    · -- finVal
      intro j hj hjpc hjout
      by_cases hji : j = i
      · subst hji; rw [upd_at] at hjpc hjout ⊢; dsimp only at hjpc hjout ⊢
        exact ⟨hslt, hset, rfl⟩
      · rw [upd_ne _ _ hji] at hjpc hjout ⊢
        exact h.finVal j hj hjpc hjout
    · -- finCanc
      intro j hj hjpc hjout
      by_cases hji : j = i
      · subst hji; rw [upd_at] at hjout; dsimp only at hjout
        exact absurd hjout.symm (by simp)
      · rw [upd_ne _ _ hji] at hjpc hjout ⊢
        exact h.finCanc j hj hjpc hjout
    · -- cfImp
      intro j hj hjcf
      by_cases hji : j = i
      · subst hji; rw [upd_at] at hjcf ⊢; dsimp only at hjcf ⊢
        exact h.cfImp j hi hjcf
      · rw [upd_ne _ _ hji] at hjcf ⊢; exact h.cfImp j hj hjcf
    · -- ccPc
      intro j hj hjpc
      by_cases hji : j = i
      · subst hji; rw [upd_at] at hjpc; exact absurd hjpc (by simp)
      · rw [upd_ne _ _ hji] at hjpc ⊢; exact h.ccPc j hj hjpc
    · -- panicPc
      intro j hj hjpc
      by_cases hji : j = i
      · subst hji; rw [upd_at] at hjpc; exact absurd hjpc (by simp)
      · rw [upd_ne _ _ hji] at hjpc ⊢; exact h.panicPc j hj hjpc

theorem inv_exec (c : Config) (i : Nat) (h : Inv c) :
    Inv (step c (.exec i)) := by
  by_cases hg : i < c.numCallers ∧ (c.callers i).pc = .exec
  case neg => simp only [step, if_neg hg]; exact h
  obtain ⟨hi, hpc⟩ := hg
  have hslt : (c.callers i).sid < c.storeLen :=
    h.sidLt i hi (by rw [hpc]; simp)
  obtain ⟨hrs, hdf, hcur, hlaf⟩ := h.execOwner i hi hpc
  have howni : owns c i (c.callers i).sid := ⟨hi, rfl, Or.inl hpc⟩
  have hnoothers : ∀ j, j ≠ i → ¬ owns c j (c.callers i).sid := by
    intro j hji hj
    exact hji (h.ownsUniq j i (c.callers i).sid hj howni)
  simp only [step, if_pos (And.intro hi hpc)]
  by_cases hp : (c.callers i).beh.panics = true
  · -- the callback panics: the deferred hand-back restores the token
    rw [if_pos hp]
    constructor <;> dsimp only
    · -- idxLt
      exact h.idxLt
    · -- sidLt
      intro j hj hjpc
      by_cases hji : j = i
      · subst hji; rw [upd_at]; dsimp only; exact hslt
      · rw [upd_ne _ _ hji] at hjpc ⊢
        exact h.sidLt j hj hjpc
    · -- retiredSet
      intro sid hsid hne
      rw [upd_keep CallInner.resultSet c.store (c.callers i).sid
        (tokenBack (c.store (c.callers i).sid)) rfl sid]
      exact h.retiredSet sid hsid hne
    · -- tokenFree
      intro sid hsid hla j hj
      obtain ⟨hjn, hjsid, hjpc⟩ := hj
      dsimp only at hjn hjsid hjpc
      by_cases hji : j = i
      · subst hji; rw [upd_at] at hjpc; simp at hjpc
      · rw [upd_ne _ _ hji] at hjsid hjpc
        by_cases hss : sid = (c.callers i).sid
        · subst hss
          exact hnoothers j hji ⟨hjn, hjsid, hjpc⟩
        · rw [upd_ne _ _ hss] at hla
          exact h.tokenFree sid hsid hla j ⟨hjn, hjsid, hjpc⟩
    · -- ownsUniq
      intro a b sid ha hb
      obtain ⟨han, hasid, hapc⟩ := ha
      obtain ⟨hbn, hbsid, hbpc⟩ := hb
      dsimp only at han hasid hapc hbn hbsid hbpc
      have hai : a ≠ i := by
        intro hx; subst hx; rw [upd_at] at hapc; simp at hapc
      have hbi : b ≠ i := by
        intro hx; subst hx; rw [upd_at] at hbpc; simp at hbpc
      rw [upd_ne _ _ hai] at hasid hapc
      rw [upd_ne _ _ hbi] at hbsid hbpc
      exact h.ownsUniq a b sid ⟨han, hasid, hapc⟩ ⟨hbn, hbsid, hbpc⟩
    · -- execOwner
      intro j hj hjpc
      by_cases hji : j = i
      · subst hji; rw [upd_at] at hjpc; exact absurd hjpc (by simp)
      · rw [upd_ne _ _ hji] at hjpc
        obtain ⟨_h1, _h2, h3, _h4⟩ := h.execOwner j hj hjpc
        rw [hcur] at h3
        simp only [Option.some.injEq] at h3
        exact absurd ⟨hj, h3.symm, Or.inl hjpc⟩ (hnoothers j hji)
    · -- retireOwner
      intro j hj hjpc
      by_cases hji : j = i
      · subst hji; rw [upd_at] at hjpc; exact absurd hjpc (by simp)
      · rw [upd_ne _ _ hji] at hjpc
        obtain ⟨_h1, _h2, h3, _h4⟩ := h.retireOwner j hj hjpc
        rw [hcur] at h3
        simp only [Option.some.injEq] at h3
        exact absurd ⟨hj, h3.symm, Or.inr (Or.inl hjpc)⟩ (hnoothers j hji)
    · -- closeOwner
      intro j hj hjpc
      by_cases hji : j = i
      · subst hji; rw [upd_at] at hjpc; exact absurd hjpc (by simp)
      · rw [upd_ne _ _ hji] at hjpc ⊢
        obtain ⟨h1, h2, h3, h4⟩ := h.closeOwner j hj hjpc
        have hss : (c.callers j).sid ≠ (c.callers i).sid := by
          intro hx
          exact hnoothers j hji ⟨hj, hx, Or.inr (Or.inr (Or.inl hjpc))⟩
        rw [upd_ne _ _ hss]
        exact ⟨h1, h2, h3, h4⟩
    · -- classifyOwner
      intro j hj hjpc
      by_cases hji : j = i
      · subst hji; rw [upd_at] at hjpc; exact absurd hjpc (by simp)
      · rw [upd_ne _ _ hji] at hjpc ⊢
        obtain ⟨h1, h2, h3⟩ := h.classifyOwner j hj hjpc
        have hss : (c.callers j).sid ≠ (c.callers i).sid := by
          intro hx
          exact hnoothers j hji ⟨hj, hx, Or.inr (Or.inr (Or.inr hjpc))⟩
        rw [upd_ne _ _ hss]
        exact ⟨h1, h2, h3⟩
    · -- doneFacts
      intro sid hsid hdone
      rw [upd_keep CallInner.done c.store (c.callers i).sid
        (tokenBack (c.store (c.callers i).sid)) rfl sid] at hdone
      obtain ⟨h1, h2, h3⟩ := h.doneFacts sid hsid hdone
      have hss : sid ≠ (c.callers i).sid := by
        intro hx; rw [hx] at hdone; rw [hdone] at hdf
        exact absurd hdf (by simp)
      rw [upd_ne _ _ hss]
      exact ⟨h1, h2, h3⟩
    · -- doneWit
      intro sid hsid hdone
      rw [upd_keep CallInner.done c.store (c.callers i).sid
        (tokenBack (c.store (c.callers i).sid)) rfl sid] at hdone
      obtain ⟨j, hj, hjsid, hjpc⟩ := h.doneWit sid hsid hdone
      have hji : j ≠ i := by
        intro hx; subst hx
        rcases hjpc with h1 | h1 <;> rw [hpc] at h1 <;> simp at h1
      exact ⟨j, hj, by rw [upd_ne _ _ hji]; exact hjsid,
        by rw [upd_ne _ _ hji]; exact hjpc⟩
    · -- resSetFacts
      intro sid hsid hset
      rw [upd_keep CallInner.resultSet c.store (c.callers i).sid
        (tokenBack (c.store (c.callers i).sid)) rfl sid] at hset
      obtain ⟨h1, j, hj, hjacc, hjres⟩ := h.resSetFacts sid hsid hset
      have hss : sid ≠ (c.callers i).sid := by
        intro hx; rw [hx] at hset; rw [hset] at hrs
        exact absurd hrs (by simp)
      constructor
      · rw [upd_ne _ _ hss]; exact h1
      · refine ⟨j, hj, ?_, ?_⟩
        · by_cases hji : j = i
          · subst hji; rw [upd_at]; exact hjacc
          · rw [upd_ne _ _ hji]; exact hjacc
        · rw [upd_keep CallInner.result c.store (c.callers i).sid
            (tokenBack (c.store (c.callers i).sid)) rfl sid]
          by_cases hji : j = i
          · subst hji; rw [upd_at]; exact hjres
          · rw [upd_ne _ _ hji]; exact hjres
    · -- finVal
      intro j hj hjpc hjout
      by_cases hji : j = i
      · subst hji; rw [upd_at] at hjpc; exact absurd hjpc (by simp)
      · rw [upd_ne _ _ hji] at hjpc hjout ⊢
        obtain ⟨h1, h2, h3⟩ := h.finVal j hj hjpc hjout
        rw [upd_keep CallInner.resultSet c.store (c.callers i).sid
            (tokenBack (c.store (c.callers i).sid)) rfl,
          upd_keep CallInner.result c.store (c.callers i).sid
            (tokenBack (c.store (c.callers i).sid)) rfl]
        exact ⟨h1, h2, h3⟩
    · -- finCanc
      intro j hj hjpc hjout
      by_cases hji : j = i
      · subst hji; rw [upd_at] at hjpc; exact absurd hjpc (by simp)
      · rw [upd_ne _ _ hji] at hjpc hjout ⊢
        exact h.finCanc j hj hjpc hjout
    · -- cfImp
      intro j hj hjcf
      by_cases hji : j = i
      · subst hji; rw [upd_at] at hjcf ⊢; dsimp only at hjcf ⊢
        exact h.cfImp j hi hjcf
      · rw [upd_ne _ _ hji] at hjcf ⊢; exact h.cfImp j hj hjcf
    · -- ccPc
      intro j hj hjpc
      by_cases hji : j = i
      · subst hji; rw [upd_at] at hjpc; exact absurd hjpc (by simp)
      · rw [upd_ne _ _ hji] at hjpc ⊢; exact h.ccPc j hj hjpc
    · -- panicPc
      intro j hj hjpc
      by_cases hji : j = i
      · subst hji; rw [upd_at]; dsimp only; exact hp
      · rw [upd_ne _ _ hji] at hjpc ⊢; exact h.panicPc j hj hjpc
  · rw [if_neg hp]
    by_cases hac : (c.callers i).beh.accept = true
    · -- the callback accepts: store the result
      rw [if_pos hac]
      constructor <;> dsimp only
      · -- idxLt
        exact h.idxLt
      · -- sidLt
        intro j hj hjpc
        by_cases hji : j = i
        · subst hji; rw [upd_at]; dsimp only; exact hslt
        · rw [upd_ne _ _ hji] at hjpc ⊢
          exact h.sidLt j hj hjpc
      · -- retiredSet
        intro sid hsid hne
        by_cases hss : sid = (c.callers i).sid
        · subst hss; exact absurd hcur hne
        · rw [upd_ne _ _ hss]
          exact h.retiredSet sid hsid hne
      · -- tokenFree
        intro sid hsid hla j hj
        obtain ⟨hjn, hjsid, hjpc⟩ := hj
        dsimp only at hjn hjsid hjpc
        by_cases hss : sid = (c.callers i).sid
        · subst hss; rw [upd_at] at hla; dsimp only [acceptResult] at hla
          rw [hlaf] at hla; exact absurd hla (by simp)
        · rw [upd_ne _ _ hss] at hla
          by_cases hji : j = i
          · subst hji; rw [upd_at] at hjsid; dsimp only at hjsid
            exact hss hjsid.symm
          · rw [upd_ne _ _ hji] at hjsid hjpc
            exact h.tokenFree sid hsid hla j ⟨hjn, hjsid, hjpc⟩
      · -- ownsUniq
        intro a b sid ha hb
        obtain ⟨han, hasid, hapc⟩ := ha
        obtain ⟨hbn, hbsid, hbpc⟩ := hb
        dsimp only at han hasid hapc hbn hbsid hbpc
        by_cases hai : a = i <;> by_cases hbi : b = i
        · rw [hai, hbi]
        · subst hai
          rw [upd_at] at hasid; dsimp only at hasid
          rw [upd_ne _ _ hbi] at hbsid hbpc
          subst hasid
          exact absurd ⟨hbn, hbsid, hbpc⟩ (hnoothers b hbi)
        · subst hbi
          rw [upd_at] at hbsid; dsimp only at hbsid
          rw [upd_ne _ _ hai] at hasid hapc
          subst hbsid
          exact absurd ⟨han, hasid, hapc⟩ (hnoothers a hai)
        · rw [upd_ne _ _ hai] at hasid hapc
          rw [upd_ne _ _ hbi] at hbsid hbpc
          exact h.ownsUniq a b sid ⟨han, hasid, hapc⟩ ⟨hbn, hbsid, hbpc⟩
      · -- execOwner
        intro j hj hjpc
        by_cases hji : j = i
        · subst hji; rw [upd_at] at hjpc; exact absurd hjpc (by simp)
        · rw [upd_ne _ _ hji] at hjpc
          obtain ⟨_h1, _h2, h3, _h4⟩ := h.execOwner j hj hjpc
          rw [hcur] at h3
          simp only [Option.some.injEq] at h3
          exact absurd ⟨hj, h3.symm, Or.inl hjpc⟩ (hnoothers j hji)
      · -- retireOwner
        intro j hj hjpc
        by_cases hji : j = i
        · subst hji; rw [upd_at]; dsimp only
          rw [upd_at]; dsimp only [acceptResult]
          exact ⟨rfl, hdf, hcur, hlaf⟩
        · rw [upd_ne _ _ hji] at hjpc
          obtain ⟨_h1, _h2, h3, _h4⟩ := h.retireOwner j hj hjpc
          rw [hcur] at h3
          simp only [Option.some.injEq] at h3
          exact absurd ⟨hj, h3.symm, Or.inr (Or.inl hjpc)⟩ (hnoothers j hji)
      · -- closeOwner
        intro j hj hjpc
        by_cases hji : j = i
        · subst hji; rw [upd_at] at hjpc; exact absurd hjpc (by simp)
        · rw [upd_ne _ _ hji] at hjpc ⊢
          obtain ⟨h1, h2, h3, h4⟩ := h.closeOwner j hj hjpc
          have hss : (c.callers j).sid ≠ (c.callers i).sid := by
            intro hx
            exact hnoothers j hji ⟨hj, hx, Or.inr (Or.inr (Or.inl hjpc))⟩
          rw [upd_ne _ _ hss]
          exact ⟨h1, h2, h3, h4⟩
      · -- classifyOwner
        intro j hj hjpc
        by_cases hji : j = i
        · subst hji; rw [upd_at] at hjpc; exact absurd hjpc (by simp)
        · rw [upd_ne _ _ hji] at hjpc ⊢
          obtain ⟨h1, h2, h3⟩ := h.classifyOwner j hj hjpc
          have hss : (c.callers j).sid ≠ (c.callers i).sid := by
            intro hx
            exact hnoothers j hji ⟨hj, hx, Or.inr (Or.inr (Or.inr hjpc))⟩
          rw [upd_ne _ _ hss]
          exact ⟨h1, h2, h3⟩
      · -- doneFacts
        intro sid hsid hdone
        rw [upd_keep CallInner.done c.store (c.callers i).sid
          (acceptResult (c.store (c.callers i).sid) (c.callers i).beh.result)
          rfl sid] at hdone
        obtain ⟨h1, h2, h3⟩ := h.doneFacts sid hsid hdone
        have hss : sid ≠ (c.callers i).sid := by
          intro hx; rw [hx] at hdone; rw [hdone] at hdf
          exact absurd hdf (by simp)
        rw [upd_ne _ _ hss]
        exact ⟨h1, h2, h3⟩
      · -- doneWit
        intro sid hsid hdone
        rw [upd_keep CallInner.done c.store (c.callers i).sid
          (acceptResult (c.store (c.callers i).sid) (c.callers i).beh.result)
          rfl sid] at hdone
        obtain ⟨j, hj, hjsid, hjpc⟩ := h.doneWit sid hsid hdone
        have hji : j ≠ i := by
          intro hx; subst hx
          rcases hjpc with h1 | h1 <;> rw [hpc] at h1 <;> simp at h1
        exact ⟨j, hj, by rw [upd_ne _ _ hji]; exact hjsid,
          by rw [upd_ne _ _ hji]; exact hjpc⟩
      · -- resSetFacts
        intro sid hsid hset
        by_cases hss : sid = (c.callers i).sid
        · subst hss
          rw [upd_at]; dsimp only [acceptResult]
          refine ⟨hlaf, i, hi, ?_, ?_⟩
          · rw [upd_at]; exact hac
          · rw [upd_at]
        · rw [upd_ne _ _ hss] at hset ⊢
          obtain ⟨h1, j, hj, hjacc, hjres⟩ := h.resSetFacts sid hsid hset
          refine ⟨h1, j, hj, ?_, ?_⟩
          · by_cases hji : j = i
            · subst hji; rw [upd_at]; exact hjacc
            · rw [upd_ne _ _ hji]; exact hjacc
          · by_cases hji : j = i
            · subst hji; rw [upd_at]; exact hjres
            · rw [upd_ne _ _ hji]; exact hjres
      · -- finVal
        intro j hj hjpc hjout
        by_cases hji : j = i
        · subst hji; rw [upd_at] at hjpc; exact absurd hjpc (by simp)
        · rw [upd_ne _ _ hji] at hjpc hjout ⊢
          obtain ⟨h1, h2, h3⟩ := h.finVal j hj hjpc hjout
          have hss : (c.callers j).sid ≠ (c.callers i).sid := by
            intro hx; rw [hx] at h2; rw [h2] at hrs
            exact absurd hrs (by simp)
          rw [upd_ne _ _ hss]
          exact ⟨h1, h2, h3⟩
      · -- finCanc
        intro j hj hjpc hjout
        by_cases hji : j = i
        · subst hji; rw [upd_at] at hjpc; exact absurd hjpc (by simp)
        · rw [upd_ne _ _ hji] at hjpc hjout ⊢
          exact h.finCanc j hj hjpc hjout
      · -- cfImp
        intro j hj hjcf
        by_cases hji : j = i
        · subst hji; rw [upd_at] at hjcf ⊢; dsimp only at hjcf ⊢
          exact h.cfImp j hi hjcf
        · rw [upd_ne _ _ hji] at hjcf ⊢; exact h.cfImp j hj hjcf
      · -- ccPc
        intro j hj hjpc
        by_cases hji : j = i
        · subst hji; rw [upd_at] at hjpc; exact absurd hjpc (by simp)
        · rw [upd_ne _ _ hji] at hjpc ⊢; exact h.ccPc j hj hjpc
      · -- panicPc
        intro j hj hjpc
        by_cases hji : j = i
        · subst hji; rw [upd_at] at hjpc; exact absurd hjpc (by simp)
        · rw [upd_ne _ _ hji] at hjpc ⊢; exact h.panicPc j hj hjpc
    · -- the callback rejects: hand the token back and return Canceled
      rw [if_neg hac]
      constructor <;> dsimp only
      · -- idxLt
        exact h.idxLt
      · -- sidLt
        intro j hj hjpc
        by_cases hji : j = i
        · subst hji; rw [upd_at]; dsimp only; exact hslt
        · rw [upd_ne _ _ hji] at hjpc ⊢
          exact h.sidLt j hj hjpc
      · -- retiredSet
        intro sid hsid hne
        rw [upd_keep CallInner.resultSet c.store (c.callers i).sid
            (tokenBack (c.store (c.callers i).sid)) rfl sid]
        exact h.retiredSet sid hsid hne
      · -- tokenFree
        intro sid hsid hla j hj
        obtain ⟨hjn, hjsid, hjpc⟩ := hj
        dsimp only at hjn hjsid hjpc
        by_cases hji : j = i
        · subst hji; rw [upd_at] at hjpc; simp at hjpc
        · rw [upd_ne _ _ hji] at hjsid hjpc
          by_cases hss : sid = (c.callers i).sid
          · subst hss
            exact hnoothers j hji ⟨hjn, hjsid, hjpc⟩
          · rw [upd_ne _ _ hss] at hla
            exact h.tokenFree sid hsid hla j ⟨hjn, hjsid, hjpc⟩
      · -- ownsUniq
        intro a b sid ha hb
        obtain ⟨han, hasid, hapc⟩ := ha
        obtain ⟨hbn, hbsid, hbpc⟩ := hb
        dsimp only at han hasid hapc hbn hbsid hbpc
        have hai : a ≠ i := by
          intro hx; subst hx; rw [upd_at] at hapc; simp at hapc
        have hbi : b ≠ i := by
          intro hx; subst hx; rw [upd_at] at hbpc; simp at hbpc
        rw [upd_ne _ _ hai] at hasid hapc
        rw [upd_ne _ _ hbi] at hbsid hbpc
        exact h.ownsUniq a b sid ⟨han, hasid, hapc⟩ ⟨hbn, hbsid, hbpc⟩
      · -- execOwner
        intro j hj hjpc
        by_cases hji : j = i
        · subst hji; rw [upd_at] at hjpc; exact absurd hjpc (by simp)
        · rw [upd_ne _ _ hji] at hjpc
          obtain ⟨_h1, _h2, h3, _h4⟩ := h.execOwner j hj hjpc
          rw [hcur] at h3
          simp only [Option.some.injEq] at h3
          exact absurd ⟨hj, h3.symm, Or.inl hjpc⟩ (hnoothers j hji)
      · -- retireOwner
        intro j hj hjpc
        by_cases hji : j = i
        · subst hji; rw [upd_at] at hjpc; exact absurd hjpc (by simp)
        · rw [upd_ne _ _ hji] at hjpc
          obtain ⟨_h1, _h2, h3, _h4⟩ := h.retireOwner j hj hjpc
          rw [hcur] at h3
          simp only [Option.some.injEq] at h3
          exact absurd ⟨hj, h3.symm, Or.inr (Or.inl hjpc)⟩ (hnoothers j hji)
      · -- closeOwner
        intro j hj hjpc
        by_cases hji : j = i
        · subst hji; rw [upd_at] at hjpc; exact absurd hjpc (by simp)
        · rw [upd_ne _ _ hji] at hjpc ⊢
          obtain ⟨h1, h2, h3, h4⟩ := h.closeOwner j hj hjpc
          have hss : (c.callers j).sid ≠ (c.callers i).sid := by
            intro hx
            exact hnoothers j hji ⟨hj, hx, Or.inr (Or.inr (Or.inl hjpc))⟩
          rw [upd_ne _ _ hss]
          exact ⟨h1, h2, h3, h4⟩
      · -- classifyOwner
        intro j hj hjpc
        by_cases hji : j = i
        · subst hji; rw [upd_at] at hjpc; exact absurd hjpc (by simp)
        · rw [upd_ne _ _ hji] at hjpc ⊢
          obtain ⟨h1, h2, h3⟩ := h.classifyOwner j hj hjpc
          have hss : (c.callers j).sid ≠ (c.callers i).sid := by
            intro hx
            exact hnoothers j hji ⟨hj, hx, Or.inr (Or.inr (Or.inr hjpc))⟩
          rw [upd_ne _ _ hss]
          exact ⟨h1, h2, h3⟩
      · -- doneFacts
        intro sid hsid hdone
        rw [upd_keep CallInner.done c.store (c.callers i).sid
          (tokenBack (c.store (c.callers i).sid)) rfl sid] at hdone
        obtain ⟨h1, h2, h3⟩ := h.doneFacts sid hsid hdone
        have hss : sid ≠ (c.callers i).sid := by
          intro hx; rw [hx] at hdone; rw [hdone] at hdf
          exact absurd hdf (by simp)
        rw [upd_ne _ _ hss]
        exact ⟨h1, h2, h3⟩
      · -- doneWit
        intro sid hsid hdone
        rw [upd_keep CallInner.done c.store (c.callers i).sid
          (tokenBack (c.store (c.callers i).sid)) rfl sid] at hdone
        obtain ⟨j, hj, hjsid, hjpc⟩ := h.doneWit sid hsid hdone
        have hji : j ≠ i := by
          intro hx; subst hx
          rcases hjpc with h1 | h1 <;> rw [hpc] at h1 <;> simp at h1
        exact ⟨j, hj, by rw [upd_ne _ _ hji]; exact hjsid,
          by rw [upd_ne _ _ hji]; exact hjpc⟩
      · -- resSetFacts
        intro sid hsid hset
        rw [upd_keep CallInner.resultSet c.store (c.callers i).sid
            (tokenBack (c.store (c.callers i).sid)) rfl sid] at hset
        obtain ⟨h1, j, hj, hjacc, hjres⟩ := h.resSetFacts sid hsid hset
        have hss : sid ≠ (c.callers i).sid := by
          intro hx; rw [hx] at hset; rw [hset] at hrs
          exact absurd hrs (by simp)
        constructor
        · rw [upd_ne _ _ hss]; exact h1
        · refine ⟨j, hj, ?_, ?_⟩
          · by_cases hji : j = i
            · subst hji; rw [upd_at]; exact hjacc
            · rw [upd_ne _ _ hji]; exact hjacc
          · rw [upd_keep CallInner.result c.store (c.callers i).sid
              (tokenBack (c.store (c.callers i).sid)) rfl sid]
            by_cases hji : j = i
            · subst hji; rw [upd_at]; exact hjres
            · rw [upd_ne _ _ hji]; exact hjres
      · -- finVal
        intro j hj hjpc hjout
        by_cases hji : j = i
        · subst hji; rw [upd_at] at hjout; dsimp only at hjout
          exact absurd rfl hjout
        · rw [upd_ne _ _ hji] at hjpc hjout ⊢
          obtain ⟨h1, h2, h3⟩ := h.finVal j hj hjpc hjout
          rw [upd_keep CallInner.resultSet c.store (c.callers i).sid
              (tokenBack (c.store (c.callers i).sid)) rfl,
            upd_keep CallInner.result c.store (c.callers i).sid
              (tokenBack (c.store (c.callers i).sid)) rfl]
          exact ⟨h1, h2, h3⟩
      · -- finCanc
        intro j hj hjpc hjout
        by_cases hji : j = i
        · subst hji; rw [upd_at]; dsimp only
          refine ⟨rfl, Or.inr ?_⟩
          cases hx : (c.callers j).beh.accept
          · rfl
          · exact absurd hx hac
        · rw [upd_ne _ _ hji] at hjpc hjout ⊢
          exact h.finCanc j hj hjpc hjout
      · -- cfImp
        intro j hj hjcf
        by_cases hji : j = i
        · subst hji; rw [upd_at] at hjcf ⊢; dsimp only at hjcf ⊢
          exact h.cfImp j hi hjcf
        · rw [upd_ne _ _ hji] at hjcf ⊢; exact h.cfImp j hj hjcf
      · -- ccPc
        intro j hj hjpc
        by_cases hji : j = i
        · subst hji; rw [upd_at] at hjpc; exact absurd hjpc (by simp)
        · rw [upd_ne _ _ hji] at hjpc ⊢; exact h.ccPc j hj hjpc
      · -- panicPc
        intro j hj hjpc
        by_cases hji : j = i
        · subst hji; rw [upd_at] at hjpc; exact absurd hjpc (by simp)
        · rw [upd_ne _ _ hji] at hjpc ⊢; exact h.panicPc j hj hjpc

theorem inv_retire (c : Config) (i : Nat) (h : Inv c) :
    Inv (step c (.retire i)) := by
  by_cases hg : i < c.numCallers ∧ (c.callers i).pc = .retire
  case neg => simp only [step, if_neg hg]; exact h
  obtain ⟨hi, hpc⟩ := hg
  have hslt : (c.callers i).sid < c.storeLen :=
    h.sidLt i hi (by rw [hpc]; simp)
  obtain ⟨hrs, hdf, hcur, hlaf⟩ := h.retireOwner i hi hpc
  have howni : owns c i (c.callers i).sid := ⟨hi, rfl, Or.inr (Or.inl hpc)⟩
  have hnoothers : ∀ j, j ≠ i → ¬ owns c j (c.callers i).sid := by
    intro j hji hj
    exact hji (h.ownsUniq j i (c.callers i).sid hj howni)
  simp only [step, if_pos (And.intro hi hpc)]
  constructor <;> dsimp only
  · -- idxLt
    intro sid hsid
    exact absurd hsid (by simp)
  · -- sidLt
    intro j hj hjpc
    by_cases hji : j = i
    · subst hji; rw [upd_at]; dsimp only; exact hslt
    · rw [upd_ne _ _ hji] at hjpc ⊢
      exact h.sidLt j hj hjpc
  · -- retiredSet
    intro sid hsid _hne
    by_cases hss : sid = (c.callers i).sid
    · subst hss; exact hrs
    · refine h.retiredSet sid hsid ?_
      rw [hcur]
      intro hx
      simp only [Option.some.injEq] at hx
      exact hss hx.symm
  · -- tokenFree
    intro sid hsid hla j hj
    obtain ⟨hjn, hjsid, hjpc⟩ := hj
    dsimp only at hjn hjsid hjpc
    by_cases hji : j = i
    · subst hji
      rw [upd_at] at hjsid; dsimp only at hjsid
      subst hjsid
      rw [hla] at hlaf; exact absurd hlaf (by simp)
    · rw [upd_ne _ _ hji] at hjsid hjpc
      exact h.tokenFree sid hsid hla j ⟨hjn, hjsid, hjpc⟩
  · -- ownsUniq
    intro a b sid ha hb
    obtain ⟨han, hasid, hapc⟩ := ha
    obtain ⟨hbn, hbsid, hbpc⟩ := hb
    dsimp only at han hasid hapc hbn hbsid hbpc
    have hmap : ∀ x, x < c.numCallers →
        (Function.update c.callers i
          ({ c.callers i with pc := .closeDone }) x).sid = sid →
        ((Function.update c.callers i ({ c.callers i with pc := .closeDone }) x).pc = .exec ∨
         (Function.update c.callers i ({ c.callers i with pc := .closeDone }) x).pc = .retire ∨
         (Function.update c.callers i ({ c.callers i with pc := .closeDone }) x).pc = .closeDone ∨
         (Function.update c.callers i ({ c.callers i with pc := .closeDone }) x).pc = .classify) →
        owns c x sid := by
      intro x hx hxsid hxpc
      by_cases hxi : x = i
      · subst hxi
        rw [upd_at] at hxsid; dsimp only at hxsid
        exact ⟨hx, hxsid, Or.inr (Or.inl hpc)⟩
      · rw [upd_ne _ _ hxi] at hxsid hxpc
        exact ⟨hx, hxsid, hxpc⟩
    exact h.ownsUniq a b sid (hmap a han hasid hapc) (hmap b hbn hbsid hbpc)
  · -- execOwner
    intro j hj hjpc
    by_cases hji : j = i
    · subst hji; rw [upd_at] at hjpc; exact absurd hjpc (by simp)
    · rw [upd_ne _ _ hji] at hjpc
      obtain ⟨_h1, _h2, h3, _h4⟩ := h.execOwner j hj hjpc
      rw [hcur] at h3
      simp only [Option.some.injEq] at h3
      exact absurd ⟨hj, h3.symm, Or.inl hjpc⟩ (hnoothers j hji)
  · -- retireOwner
    intro j hj hjpc
    by_cases hji : j = i
    · subst hji; rw [upd_at] at hjpc; exact absurd hjpc (by simp)
    · rw [upd_ne _ _ hji] at hjpc
      obtain ⟨_h1, _h2, h3, _h4⟩ := h.retireOwner j hj hjpc
      rw [hcur] at h3
      simp only [Option.some.injEq] at h3
      exact absurd ⟨hj, h3.symm, Or.inr (Or.inl hjpc)⟩ (hnoothers j hji)
  · -- closeOwner
    intro j hj hjpc
    by_cases hji : j = i
    · subst hji; rw [upd_at]; dsimp only
      exact ⟨hrs, hdf, by simp, hlaf⟩
    · rw [upd_ne _ _ hji] at hjpc ⊢
      obtain ⟨h1, h2, _h3, h4⟩ := h.closeOwner j hj hjpc
      exact ⟨h1, h2, by simp, h4⟩
  · -- classifyOwner
    intro j hj hjpc
    by_cases hji : j = i
    · subst hji; rw [upd_at] at hjpc; exact absurd hjpc (by simp)
    · rw [upd_ne _ _ hji] at hjpc ⊢; exact h.classifyOwner j hj hjpc
  · -- doneFacts
    intro sid hsid hdone
    obtain ⟨h1, h2, _h3⟩ := h.doneFacts sid hsid hdone
    exact ⟨h1, h2, by simp⟩
  · -- doneWit
    intro sid hsid hdone
    obtain ⟨j, hj, hjsid, hjpc⟩ := h.doneWit sid hsid hdone
    have hji : j ≠ i := by
      intro hx; subst hx
      rcases hjpc with h1 | h1 <;> rw [hpc] at h1 <;> simp at h1
    exact ⟨j, hj, by rw [upd_ne _ _ hji]; exact hjsid,
      by rw [upd_ne _ _ hji]; exact hjpc⟩
  · -- resSetFacts
    intro sid hsid hset
    obtain ⟨h1, j, hj, hjacc, hjres⟩ := h.resSetFacts sid hsid hset
    refine ⟨h1, j, hj, ?_, ?_⟩
    · by_cases hji : j = i
      · subst hji; rw [upd_at]; exact hjacc
      · rw [upd_ne _ _ hji]; exact hjacc
    · by_cases hji : j = i
      · subst hji; rw [upd_at]; exact hjres
      · rw [upd_ne _ _ hji]; exact hjres
  · -- finVal
    intro j hj hjpc hjout
    by_cases hji : j = i
    · subst hji; rw [upd_at] at hjpc; exact absurd hjpc (by simp)
    · rw [upd_ne _ _ hji] at hjpc hjout ⊢
      exact h.finVal j hj hjpc hjout
  · -- finCanc
    intro j hj hjpc hjout
    by_cases hji : j = i
    · subst hji; rw [upd_at] at hjpc; exact absurd hjpc (by simp)
    · rw [upd_ne _ _ hji] at hjpc hjout ⊢
      exact h.finCanc j hj hjpc hjout
  · -- cfImp
    intro j hj hjcf
    by_cases hji : j = i
    · subst hji; rw [upd_at] at hjcf ⊢; dsimp only at hjcf ⊢
      exact h.cfImp j hi hjcf
    · rw [upd_ne _ _ hji] at hjcf ⊢; exact h.cfImp j hj hjcf
  · -- ccPc
    intro j hj hjpc
    by_cases hji : j = i
    · subst hji; rw [upd_at] at hjpc; exact absurd hjpc (by simp)
    · rw [upd_ne _ _ hji] at hjpc ⊢; exact h.ccPc j hj hjpc
  · -- panicPc
    intro j hj hjpc
    by_cases hji : j = i
    · subst hji; rw [upd_at] at hjpc; exact absurd hjpc (by simp)
    · rw [upd_ne _ _ hji] at hjpc ⊢; exact h.panicPc j hj hjpc

theorem inv_closeDone (c : Config) (i : Nat) (h : Inv c) :
    Inv (step c (.closeDone i)) := by
  by_cases hg : i < c.numCallers ∧ (c.callers i).pc = .closeDone
  case neg => simp only [step, if_neg hg]; exact h
  obtain ⟨hi, hpc⟩ := hg
  have hslt : (c.callers i).sid < c.storeLen :=
    h.sidLt i hi (by rw [hpc]; simp)
  obtain ⟨hrs, hdf, hnix, hlaf⟩ := h.closeOwner i hi hpc
  have howni : owns c i (c.callers i).sid :=
    ⟨hi, rfl, Or.inr (Or.inr (Or.inl hpc))⟩
  have hnoothers : ∀ j, j ≠ i → ¬ owns c j (c.callers i).sid := by
    intro j hji hj
    exact hji (h.ownsUniq j i (c.callers i).sid hj howni)
  simp only [step, if_pos (And.intro hi hpc)]
  constructor <;> dsimp only
  · -- idxLt
    exact h.idxLt
  · -- sidLt
    intro j hj hjpc
    by_cases hji : j = i
    · subst hji; rw [upd_at]; dsimp only; exact hslt
    · rw [upd_ne _ _ hji] at hjpc ⊢
      exact h.sidLt j hj hjpc
  · -- retiredSet
    intro sid hsid hne
    rw [upd_keep CallInner.resultSet c.store (c.callers i).sid
      ({ c.store (c.callers i).sid with done := true }) rfl sid]
    exact h.retiredSet sid hsid hne
  · -- tokenFree
    intro sid hsid hla j hj
    obtain ⟨hjn, hjsid, hjpc⟩ := hj
    dsimp only at hjn hjsid hjpc
    rw [upd_keep CallInner.leaderAvail c.store (c.callers i).sid
      ({ c.store (c.callers i).sid with done := true }) rfl sid] at hla
    by_cases hji : j = i
    · subst hji
      rw [upd_at] at hjsid; dsimp only at hjsid
      subst hjsid
      rw [hla] at hlaf; exact absurd hlaf (by simp)
    · rw [upd_ne _ _ hji] at hjsid hjpc
      exact h.tokenFree sid hsid hla j ⟨hjn, hjsid, hjpc⟩
  · -- ownsUniq
    intro a b sid ha hb
    obtain ⟨han, hasid, hapc⟩ := ha
    obtain ⟨hbn, hbsid, hbpc⟩ := hb
    dsimp only at han hasid hapc hbn hbsid hbpc
    have hmap : ∀ x, x < c.numCallers →
        (Function.update c.callers i
          ({ c.callers i with pc := .classify }) x).sid = sid →
        ((Function.update c.callers i ({ c.callers i with pc := .classify }) x).pc = .exec ∨
         (Function.update c.callers i ({ c.callers i with pc := .classify }) x).pc = .retire ∨
         (Function.update c.callers i ({ c.callers i with pc := .classify }) x).pc = .closeDone ∨
         (Function.update c.callers i ({ c.callers i with pc := .classify }) x).pc = .classify) →
        owns c x sid := by
      intro x hx hxsid hxpc
      by_cases hxi : x = i
      · subst hxi
        rw [upd_at] at hxsid; dsimp only at hxsid
        exact ⟨hx, hxsid, Or.inr (Or.inr (Or.inl hpc))⟩
      · rw [upd_ne _ _ hxi] at hxsid hxpc
        exact ⟨hx, hxsid, hxpc⟩
    exact h.ownsUniq a b sid (hmap a han hasid hapc) (hmap b hbn hbsid hbpc)
  · -- execOwner
    intro j hj hjpc
    by_cases hji : j = i
    · subst hji; rw [upd_at] at hjpc; exact absurd hjpc (by simp)
    · rw [upd_ne _ _ hji] at hjpc ⊢
      obtain ⟨h1, h2, h3, h4⟩ := h.execOwner j hj hjpc
      have hss : (c.callers j).sid ≠ (c.callers i).sid := by
        intro hx
        exact hnoothers j hji ⟨hj, hx, Or.inl hjpc⟩
      rw [upd_ne _ _ hss]
      exact ⟨h1, h2, h3, h4⟩
  · -- retireOwner
    intro j hj hjpc
    by_cases hji : j = i
    · subst hji; rw [upd_at] at hjpc; exact absurd hjpc (by simp)
    · rw [upd_ne _ _ hji] at hjpc ⊢
      obtain ⟨h1, h2, h3, h4⟩ := h.retireOwner j hj hjpc
      have hss : (c.callers j).sid ≠ (c.callers i).sid := by
        intro hx
        exact hnoothers j hji ⟨hj, hx, Or.inr (Or.inl hjpc)⟩
      rw [upd_ne _ _ hss]
      exact ⟨h1, h2, h3, h4⟩
  · -- closeOwner
    intro j hj hjpc
    by_cases hji : j = i
    · subst hji; rw [upd_at] at hjpc; exact absurd hjpc (by simp)
    · rw [upd_ne _ _ hji] at hjpc ⊢
      obtain ⟨h1, h2, h3, h4⟩ := h.closeOwner j hj hjpc
      have hss : (c.callers j).sid ≠ (c.callers i).sid := by
        intro hx
        exact hnoothers j hji ⟨hj, hx, Or.inr (Or.inr (Or.inl hjpc))⟩
      rw [upd_ne _ _ hss]
      exact ⟨h1, h2, h3, h4⟩
  · -- classifyOwner
    intro j hj hjpc
    by_cases hji : j = i
    · subst hji; rw [upd_at]; dsimp only
      rw [upd_at]; dsimp only
      exact ⟨hrs, rfl, hlaf⟩
    · rw [upd_ne _ _ hji] at hjpc ⊢
      obtain ⟨h1, h2, h3⟩ := h.classifyOwner j hj hjpc
      have hss : (c.callers j).sid ≠ (c.callers i).sid := by
        intro hx
        exact hnoothers j hji ⟨hj, hx, Or.inr (Or.inr (Or.inr hjpc))⟩
      rw [upd_ne _ _ hss]
      exact ⟨h1, h2, h3⟩
  · -- doneFacts
    intro sid hsid hdone
    by_cases hss : sid = (c.callers i).sid
    · subst hss
      rw [upd_at]; dsimp only
      exact ⟨hrs, hlaf, hnix⟩
    · rw [upd_ne _ _ hss] at hdone ⊢
      exact h.doneFacts sid hsid hdone
  · -- doneWit
    intro sid hsid hdone
    by_cases hss : sid = (c.callers i).sid
    · subst hss
      refine ⟨i, hi, ?_, ?_⟩
      · rw [upd_at]
      · rw [upd_at]; exact Or.inl rfl
    · rw [upd_ne _ _ hss] at hdone
      obtain ⟨j, hj, hjsid, hjpc⟩ := h.doneWit sid hsid hdone
      have hji : j ≠ i := by
        intro hx; subst hx
        rcases hjpc with h1 | h1 <;> rw [hpc] at h1 <;> simp at h1
      exact ⟨j, hj, by rw [upd_ne _ _ hji]; exact hjsid,
        by rw [upd_ne _ _ hji]; exact hjpc⟩
  · -- resSetFacts
    intro sid hsid hset
    rw [upd_keep CallInner.resultSet c.store (c.callers i).sid
      ({ c.store (c.callers i).sid with done := true }) rfl sid] at hset
    obtain ⟨h1, j, hj, hjacc, hjres⟩ := h.resSetFacts sid hsid hset
    constructor
    · rw [upd_keep CallInner.leaderAvail c.store (c.callers i).sid
        ({ c.store (c.callers i).sid with done := true }) rfl sid]
      exact h1
    · refine ⟨j, hj, ?_, ?_⟩
      · by_cases hji : j = i
        · subst hji; rw [upd_at]; exact hjacc
        · rw [upd_ne _ _ hji]; exact hjacc
      · rw [upd_keep CallInner.result c.store (c.callers i).sid
          ({ c.store (c.callers i).sid with done := true }) rfl sid]
        by_cases hji : j = i
        · subst hji; rw [upd_at]; exact hjres
        · rw [upd_ne _ _ hji]; exact hjres
  · -- finVal
    intro j hj hjpc hjout
    by_cases hji : j = i
    · subst hji; rw [upd_at] at hjpc; exact absurd hjpc (by simp)
    · rw [upd_ne _ _ hji] at hjpc hjout ⊢
      obtain ⟨h1, h2, h3⟩ := h.finVal j hj hjpc hjout
      rw [upd_keep CallInner.resultSet c.store (c.callers i).sid
        ({ c.store (c.callers i).sid with done := true }) rfl,
        upd_keep CallInner.result c.store (c.callers i).sid
        ({ c.store (c.callers i).sid with done := true }) rfl]
      exact ⟨h1, h2, h3⟩
  · -- finCanc
    intro j hj hjpc hjout
    by_cases hji : j = i
    · subst hji; rw [upd_at] at hjpc; exact absurd hjpc (by simp)
    · rw [upd_ne _ _ hji] at hjpc hjout ⊢
      exact h.finCanc j hj hjpc hjout
  · -- cfImp
    intro j hj hjcf
    by_cases hji : j = i
    · subst hji; rw [upd_at] at hjcf ⊢; dsimp only at hjcf ⊢
      exact h.cfImp j hi hjcf
    · rw [upd_ne _ _ hji] at hjcf ⊢; exact h.cfImp j hj hjcf
  · -- ccPc
    intro j hj hjpc
    by_cases hji : j = i
    · subst hji; rw [upd_at] at hjpc; exact absurd hjpc (by simp)
    · rw [upd_ne _ _ hji] at hjpc ⊢; exact h.ccPc j hj hjpc
  · -- panicPc
    intro j hj hjpc
    by_cases hji : j = i
    · subst hji; rw [upd_at] at hjpc; exact absurd hjpc (by simp)
    · rw [upd_ne _ _ hji] at hjpc ⊢; exact h.panicPc j hj hjpc

theorem inv_classify (c : Config) (i : Nat) (h : Inv c) :
    Inv (step c (.classify i)) := by
  by_cases hg : i < c.numCallers ∧ (c.callers i).pc = .classify
  case neg => simp only [step, if_neg hg]; exact h
  obtain ⟨hi, hpc⟩ := hg
  have hslt : (c.callers i).sid < c.storeLen :=
    h.sidLt i hi (by rw [hpc]; simp)
  obtain ⟨hrs, hdone, hlaf⟩ := h.classifyOwner i hi hpc
  simp only [step, if_pos (And.intro hi hpc)]
  constructor <;> dsimp only
  · -- idxLt
    exact h.idxLt
  · -- sidLt
    intro j hj hjpc
    by_cases hji : j = i
    · subst hji; rw [upd_at]; dsimp only; exact hslt
    · rw [upd_ne _ _ hji] at hjpc ⊢
      exact h.sidLt j hj hjpc
  · -- retiredSet
    exact h.retiredSet
  · -- tokenFree
    intro sid hsid hla j hj
    obtain ⟨hjn, hjsid, hjpc⟩ := hj
    dsimp only at hjn hjsid hjpc
    by_cases hji : j = i
    · subst hji; rw [upd_at] at hjpc; simp at hjpc
    · rw [upd_ne _ _ hji] at hjsid hjpc
      exact h.tokenFree sid hsid hla j ⟨hjn, hjsid, hjpc⟩
  · -- ownsUniq
    intro a b sid ha hb
    obtain ⟨han, hasid, hapc⟩ := ha
    obtain ⟨hbn, hbsid, hbpc⟩ := hb
    dsimp only at han hasid hapc hbn hbsid hbpc
    have hai : a ≠ i := by
      intro hx; subst hx; rw [upd_at] at hapc; simp at hapc
    have hbi : b ≠ i := by
      intro hx; subst hx; rw [upd_at] at hbpc; simp at hbpc
    rw [upd_ne _ _ hai] at hasid hapc
    rw [upd_ne _ _ hbi] at hbsid hbpc
    exact h.ownsUniq a b sid ⟨han, hasid, hapc⟩ ⟨hbn, hbsid, hbpc⟩
  · -- execOwner
    intro j hj hjpc
    by_cases hji : j = i
    · subst hji; rw [upd_at] at hjpc; exact absurd hjpc (by simp)
    · rw [upd_ne _ _ hji] at hjpc ⊢; exact h.execOwner j hj hjpc
  · -- retireOwner
    intro j hj hjpc
    by_cases hji : j = i
    · subst hji; rw [upd_at] at hjpc; exact absurd hjpc (by simp)
    · rw [upd_ne _ _ hji] at hjpc ⊢; exact h.retireOwner j hj hjpc
  · -- closeOwner
    intro j hj hjpc
    by_cases hji : j = i
    · subst hji; rw [upd_at] at hjpc; exact absurd hjpc (by simp)
    · rw [upd_ne _ _ hji] at hjpc ⊢; exact h.closeOwner j hj hjpc
  · -- classifyOwner
    intro j hj hjpc
    by_cases hji : j = i
    · subst hji; rw [upd_at] at hjpc; exact absurd hjpc (by simp)
    · rw [upd_ne _ _ hji] at hjpc ⊢; exact h.classifyOwner j hj hjpc
  · -- doneFacts
    exact h.doneFacts
  · -- doneWit
    intro sid hsid hdone
    obtain ⟨j, hj, hjsid, hjpc⟩ := h.doneWit sid hsid hdone
    by_cases hji : j = i
    · subst hji
      refine ⟨j, hj, ?_, ?_⟩
      · rw [upd_at]; exact hjsid
      · rw [upd_at]; exact Or.inr rfl
    · exact ⟨j, hj, by rw [upd_ne _ _ hji]; exact hjsid,
        by rw [upd_ne _ _ hji]; exact hjpc⟩
  · -- resSetFacts
    intro sid hsid hset
    obtain ⟨h1, j, hj, hjacc, hjres⟩ := h.resSetFacts sid hsid hset
    refine ⟨h1, j, hj, ?_, ?_⟩
    · by_cases hji : j = i
      · subst hji; rw [upd_at]; exact hjacc
      · rw [upd_ne _ _ hji]; exact hjacc
    · by_cases hji : j = i
      · subst hji; rw [upd_at]; exact hjres
      · rw [upd_ne _ _ hji]; exact hjres
  · -- finVal
    intro j hj hjpc hjout
    by_cases hji : j = i
    · subst hji; rw [upd_at]; dsimp only
      exact ⟨hslt, hrs, rfl⟩
    · rw [upd_ne _ _ hji] at hjpc hjout ⊢
      exact h.finVal j hj hjpc hjout
  · -- finCanc
    intro j hj hjpc hjout
    by_cases hji : j = i
    · subst hji; rw [upd_at] at hjout; dsimp only at hjout
      by_cases hm : (c.store (c.callers j).sid).monitors > 1
      · rw [if_pos hm] at hjout; exact absurd hjout.symm (by simp)
      · rw [if_neg hm] at hjout; exact absurd hjout.symm (by simp)
    · rw [upd_ne _ _ hji] at hjpc hjout ⊢
      exact h.finCanc j hj hjpc hjout
  · -- cfImp
    intro j hj hjcf
    by_cases hji : j = i
    · subst hji; rw [upd_at] at hjcf ⊢; dsimp only at hjcf ⊢
      exact h.cfImp j hi hjcf
    · rw [upd_ne _ _ hji] at hjcf ⊢; exact h.cfImp j hj hjcf
  · -- ccPc
    intro j hj hjpc
    by_cases hji : j = i
    · subst hji; rw [upd_at] at hjpc; exact absurd hjpc (by simp)
    · rw [upd_ne _ _ hji] at hjpc ⊢; exact h.ccPc j hj hjpc
  · -- panicPc
    intro j hj hjpc
    by_cases hji : j = i
    · subst hji; rw [upd_at] at hjpc; exact absurd hjpc (by simp)
    · rw [upd_ne _ _ hji] at hjpc ⊢; exact h.panicPc j hj hjpc

theorem inv_fireCancel (c : Config) (i : Nat) (h : Inv c) :
    Inv (step c (.fireCancel i)) := by
  by_cases hg : i < c.numCallers ∧ (c.callers i).canCancel = true
      ∧ (c.callers i).cancelFired = false
  case neg => simp only [step, if_neg hg]; exact h
  obtain ⟨hi, hcc, _hncf⟩ := hg
  simp only [step, if_pos (And.intro hi (And.intro hcc _hncf))]
  constructor <;> dsimp only
  · -- idxLt
    exact h.idxLt
  · -- sidLt
    intro j hj hjpc
    by_cases hji : j = i
    · subst hji; rw [upd_at] at hjpc ⊢; dsimp only at hjpc ⊢
      exact h.sidLt j hi hjpc
    · rw [upd_ne _ _ hji] at hjpc ⊢
      exact h.sidLt j hj hjpc
  · -- retiredSet
    exact h.retiredSet
  · -- tokenFree
    intro sid hsid hla j hj
    obtain ⟨hjn, hjsid, hjpc⟩ := hj
    dsimp only at hjn hjsid hjpc
    by_cases hji : j = i
    · subst hji
      rw [upd_at] at hjsid hjpc; dsimp only at hjsid hjpc
      exact h.tokenFree sid hsid hla j ⟨hjn, hjsid, hjpc⟩
    · rw [upd_ne _ _ hji] at hjsid hjpc
      exact h.tokenFree sid hsid hla j ⟨hjn, hjsid, hjpc⟩
  · -- ownsUniq
    intro a b sid ha hb
    obtain ⟨han, hasid, hapc⟩ := ha
    obtain ⟨hbn, hbsid, hbpc⟩ := hb
    dsimp only at han hasid hapc hbn hbsid hbpc
    have hmap : ∀ x, x < c.numCallers →
        (Function.update c.callers i
          ({ c.callers i with cancelFired := true }) x).sid = sid →
        ((Function.update c.callers i ({ c.callers i with cancelFired := true }) x).pc = .exec ∨
         (Function.update c.callers i ({ c.callers i with cancelFired := true }) x).pc = .retire ∨
         (Function.update c.callers i ({ c.callers i with cancelFired := true }) x).pc = .closeDone ∨
         (Function.update c.callers i ({ c.callers i with cancelFired := true }) x).pc = .classify) →
        owns c x sid := by
      intro x hx hxsid hxpc
      by_cases hxi : x = i
      · subst hxi
        rw [upd_at] at hxsid hxpc; dsimp only at hxsid hxpc
        exact ⟨hx, hxsid, hxpc⟩
      · rw [upd_ne _ _ hxi] at hxsid hxpc
        exact ⟨hx, hxsid, hxpc⟩
    exact h.ownsUniq a b sid (hmap a han hasid hapc) (hmap b hbn hbsid hbpc)
  · -- execOwner
    intro j hj hjpc
    by_cases hji : j = i
    · subst hji; rw [upd_at] at hjpc ⊢; dsimp only at hjpc ⊢
      exact h.execOwner j hi hjpc
    · rw [upd_ne _ _ hji] at hjpc ⊢; exact h.execOwner j hj hjpc
  · -- retireOwner
    intro j hj hjpc
    by_cases hji : j = i
    · subst hji; rw [upd_at] at hjpc ⊢; dsimp only at hjpc ⊢
      exact h.retireOwner j hi hjpc
    · rw [upd_ne _ _ hji] at hjpc ⊢; exact h.retireOwner j hj hjpc
  · -- closeOwner
    intro j hj hjpc
    by_cases hji : j = i
    · subst hji; rw [upd_at] at hjpc ⊢; dsimp only at hjpc ⊢
      exact h.closeOwner j hi hjpc
    · rw [upd_ne _ _ hji] at hjpc ⊢; exact h.closeOwner j hj hjpc
  · -- classifyOwner
    intro j hj hjpc
    by_cases hji : j = i
    · subst hji; rw [upd_at] at hjpc ⊢; dsimp only at hjpc ⊢
      exact h.classifyOwner j hi hjpc
    · rw [upd_ne _ _ hji] at hjpc ⊢; exact h.classifyOwner j hj hjpc
  · -- doneFacts
    exact h.doneFacts
  · -- doneWit
    intro sid hsid hdone
    obtain ⟨j, hj, hjsid, hjpc⟩ := h.doneWit sid hsid hdone
    by_cases hji : j = i
    · subst hji
      refine ⟨j, hj, ?_, ?_⟩
      · rw [upd_at]; exact hjsid
      · rw [upd_at]; exact hjpc
    · exact ⟨j, hj, by rw [upd_ne _ _ hji]; exact hjsid,
        by rw [upd_ne _ _ hji]; exact hjpc⟩
  · -- resSetFacts
    intro sid hsid hset
    obtain ⟨h1, j, hj, hjacc, hjres⟩ := h.resSetFacts sid hsid hset
    refine ⟨h1, j, hj, ?_, ?_⟩
    · by_cases hji : j = i
      · subst hji; rw [upd_at]; exact hjacc
      · rw [upd_ne _ _ hji]; exact hjacc
    · by_cases hji : j = i
      · subst hji; rw [upd_at]; exact hjres
      · rw [upd_ne _ _ hji]; exact hjres
  · -- finVal
    intro j hj hjpc hjout
    by_cases hji : j = i
    · subst hji; rw [upd_at] at hjpc hjout ⊢; dsimp only at hjpc hjout ⊢
      exact h.finVal j hi hjpc hjout
    · rw [upd_ne _ _ hji] at hjpc hjout ⊢
      exact h.finVal j hj hjpc hjout
  · -- finCanc
    intro j hj hjpc hjout
    by_cases hji : j = i
    · subst hji; rw [upd_at] at hjpc hjout ⊢; dsimp only at hjpc hjout ⊢
      obtain ⟨h1, _h2⟩ := h.finCanc j hi hjpc hjout
      exact ⟨h1, Or.inl rfl⟩
    · rw [upd_ne _ _ hji] at hjpc hjout ⊢
      exact h.finCanc j hj hjpc hjout
  · -- cfImp
    intro j hj hjcf
    by_cases hji : j = i
    · subst hji; rw [upd_at]; dsimp only; exact hcc
    · rw [upd_ne _ _ hji] at hjcf ⊢; exact h.cfImp j hj hjcf
  · -- ccPc
    intro j hj hjpc
    by_cases hji : j = i
    · subst hji; rw [upd_at]
    · rw [upd_ne _ _ hji] at hjpc ⊢; exact h.ccPc j hj hjpc
  · -- panicPc
    intro j hj hjpc
    by_cases hji : j = i
    · subst hji; rw [upd_at] at hjpc ⊢; dsimp only at hjpc ⊢
      exact h.panicPc j hi hjpc
    · rw [upd_ne _ _ hji] at hjpc ⊢; exact h.panicPc j hj hjpc

/-- The invariant is preserved by every step. -/
theorem inv_step (c : Config) (s : Step) (h : Inv c) : Inv (step c s) := by
  cases s with
  | register i => exact inv_register c i h
  | selectDone i => exact inv_selectDone c i h
  | selectLeader i => exact inv_selectLeader c i h
  | selectCancel i => exact inv_selectCancel c i h
  | cancelCheck i => exact inv_cancelCheck c i h
  | exec i => exact inv_exec c i h
  | retire i => exact inv_retire c i h
  | closeDone i => exact inv_closeDone c i h
  | classify i => exact inv_classify c i h
  | fireCancel i => exact inv_fireCancel c i h

/-- The invariant holds along every run. -/
theorem inv_run (c : Config) (tr : List Step) (h : Inv c) : Inv (run c tr) := by
  induction tr generalizing c with
  | nil => exact h
  | cons s tr ih => exact ih (step c s) (inv_step c s h)

theorem plain_step (c : Config) (s : Step) (hp : PlainBatch c) :
    PlainBatch (step c s) := by
  intro i hi
  rw [step_numCallers] at hi
  rw [step_beh c s i, step_canCancel c s i]
  exact hp i hi

theorem plain_run (c : Config) (tr : List Step) (hp : PlainBatch c) :
    PlainBatch (run c tr) := by
  induction tr generalizing c with
  | nil => exact hp
  | cons s tr ih => exact ih (step c s) (plain_step c s hp)

theorem plain_noCancelFired (c : Config) (h : Inv c) (hp : PlainBatch c) :
    ∀ i, i < c.numCallers → (c.callers i).cancelFired = false := by
  intro i hi
  cases hx : (c.callers i).cancelFired
  · rfl
  · have := h.cfImp i hi hx
    rw [(hp i hi).2.2] at this
    exact absurd this (by simp)

theorem plain_noCancelCheck (c : Config) (h : Inv c) (hp : PlainBatch c) :
    ∀ i, i < c.numCallers → (c.callers i).pc ≠ .cancelCheck := by
  intro i hi hx
  have := h.ccPc i hi hx
  rw [plain_noCancelFired c h hp i hi] at this
  exact absurd this (by simp)

/-- Moving one summand: the sum over an updated caller family differs from
the original sum exactly by the status change at the updated index. -/
theorem sum_ite_update (f : Nat → Caller) (n i : Nat) (hi : i < n) (k : Caller)
    (P : Caller → Prop) [DecidablePred P] :
    (∑ j in Finset.range n, if P (Function.update f i k j) then 1 else 0)
        + (if P (f i) then 1 else 0)
      = (∑ j in Finset.range n, if P (f j) then 1 else 0)
        + (if P k then 1 else 0) := by
  have hmem : i ∈ Finset.range n := Finset.mem_range.mpr hi
  have hfun : (fun j => if P (Function.update f i k j) then (1:ℕ) else 0)
      = Function.update (fun j => if P (f j) then 1 else 0) i
          (if P k then 1 else 0) := by
    funext j
    by_cases hji : j = i
    · subst hji; rw [upd_at, upd_at]
    · rw [upd_ne _ _ hji, upd_ne _ _ hji]
  rw [hfun, Finset.sum_update_of_mem hmem,
    Finset.sum_eq_sum_diff_singleton_add hmem
      (fun j => if P (f j) then (1:ℕ) else 0)]
  omega

/-- A count of at least two registered callers yields a registered caller
different from any given one. -/
theorem exists_other (f : Nat → Caller) (n : Nat) (P : Caller → Prop)
    [DecidablePred P] (i : Nat) (hi : i < n) (hPi : P (f i))
    (h2 : 2 ≤ ∑ j in Finset.range n, if P (f j) then 1 else 0) :
    ∃ j, j < n ∧ j ≠ i ∧ P (f j) := by
  by_contra hno
  push_neg at hno
  have hsum : (∑ j in Finset.range n, if P (f j) then 1 else 0)
      = (if P (f i) then 1 else 0) := by
    apply Finset.sum_eq_single_of_mem i (Finset.mem_range.mpr hi)
    intro b hb hbi
    have := hno b (Finset.mem_range.mp hb) hbi
    simp [this]
  rw [hsum, if_pos hPi] at h2
  omega

theorem ainv_init (N : Nat) (beh : Nat → Behavior) (cc : Nat → Bool) :
    AInv (init N beh cc) := by
  constructor <;> intros <;> simp_all [init]

/-- A caller update that moves neither into nor out of registration, and
keeps the state id, does not change any registration count. -/
theorem regCount_upd_congr (c : Config) (i : Nat) (hi : i < c.numCallers)
    (k : Caller) (hsid : k.sid = (c.callers i).sid)
    (hpc : k.pc = .start ↔ (c.callers i).pc = .start) (sid : Nat) :
    (∑ j in Finset.range c.numCallers,
      if regP sid (Function.update c.callers i k j) then 1 else 0)
      = regCount c sid := by
  have hiff : regP sid k ↔ regP sid (c.callers i) := by
    unfold regP
    rw [hsid]
    constructor
    · rintro ⟨h1, h2⟩; exact ⟨h1, fun hx => h2 (hpc.mpr hx)⟩
    · rintro ⟨h1, h2⟩; exact ⟨h1, fun hx => h2 (hpc.mp hx)⟩
  have heq := sum_ite_update c.callers c.numCallers i hi k (regP sid)
  rw [if_congr hiff rfl rfl] at heq
  unfold regCount
  omega

theorem ainv_step (c : Config) (s : Step) (h : Inv c) (hp : PlainBatch c)
    (ha : AInv c) : AInv (step c s) := by
  cases s with
  | selectCancel i =>
    have hng : ¬ (i < c.numCallers ∧ (c.callers i).pc = .sel
        ∧ (c.callers i).cancelFired = true) := by
      rintro ⟨hi, _, hcf⟩
      rw [plain_noCancelFired c h hp i hi] at hcf
      exact absurd hcf (by simp)
    simp only [step, if_neg hng]; exact ha
  | cancelCheck i =>
    have hng : ¬ (i < c.numCallers ∧ (c.callers i).pc = .cancelCheck) := by
      rintro ⟨hi, hpc⟩
      exact plain_noCancelCheck c h hp i hi hpc
    simp only [step, if_neg hng]; exact ha
  | fireCancel i =>
    have hng : ¬ (i < c.numCallers ∧ (c.callers i).canCancel = true
        ∧ (c.callers i).cancelFired = false) := by
      rintro ⟨hi, hcc, _⟩
      rw [(hp i hi).2.2] at hcc
      exact absurd hcc (by simp)
    simp only [step, if_neg hng]; exact ha
  | register i =>
    by_cases hg : i < c.numCallers ∧ (c.callers i).pc = .start
    case neg => simp only [step, if_neg hg]; exact ha
    obtain ⟨hi, hpc⟩ := hg
    cases hidx : c.index with
    | none =>
      simp only [step, if_pos (And.intro hi hpc), hidx]
      constructor <;> dsimp only
      · -- mon
        intro sid hsid
        by_cases hsl : sid = c.storeLen
        · rw [hsl, upd_at]
          simp only [freshInner]
          norm_cast
          unfold regCount
          dsimp only
          symm
          trans (∑ j in Finset.range c.numCallers,
            if j = i then (1:ℕ) else 0)
          · apply Finset.sum_congr rfl
            intro j hjm
            have hj := Finset.mem_range.mp hjm
            by_cases hji : j = i
            · subst hji; rw [upd_at]; simp [regP]
            · rw [upd_ne _ _ hji, if_neg hji]
              by_cases hpcs : (c.callers j).pc = .start
              · simp [regP, hpcs]
              · have hlt := h.sidLt j hj hpcs
                have hne : (c.callers j).sid ≠ c.storeLen := by omega
                simp [regP, hne]
          · simp [Finset.sum_ite_eq', Finset.mem_range, hi]
        · rw [upd_ne _ _ hsl]
          have hlt : sid < c.storeLen := by omega
          rw [ha.mon sid hlt]
          norm_cast
          unfold regCount
          dsimp only
          apply Finset.sum_congr rfl
          intro j hjm
          by_cases hji : j = i
          · subst hji; rw [upd_at]
            have hne : c.storeLen ≠ sid := fun hx => hsl hx.symm
            simp [regP, hpc, hne]
          · rw [upd_ne _ _ hji]
      · -- execsEq
        intro sid hsid
        by_cases hsl : sid = c.storeLen
        · subst hsl; rw [upd_at]; simp [freshInner]
        · rw [upd_ne _ _ hsl]
          exact ha.execsEq sid (by omega)
      · -- exclDone
        intro k hk hkpc hkex
        by_cases hki : k = i
        · subst hki; rw [upd_at] at hkpc; exact absurd hkpc (by simp)
        · rw [upd_ne _ _ hki] at hkpc hkex ⊢
          have hlt : (c.callers k).sid < c.storeLen :=
            h.sidLt k hk (by rw [hkpc]; simp)
          rw [upd_ne _ _ (by omega : (c.callers k).sid ≠ c.storeLen)]
          exact ha.exclDone k hk hkpc hkex
      · -- sharedWit
        intro k hk hkpc hkex
        by_cases hki : k = i
        · subst hki; rw [upd_at] at hkpc; exact absurd hkpc (by simp)
        · rw [upd_ne _ _ hki] at hkpc hkex ⊢
          obtain ⟨j, hj, hjk, hjsid, hjpc⟩ := ha.sharedWit k hk hkpc hkex
          have hji : j ≠ i := by
            intro hx; subst hx; exact hjpc hpc
          exact ⟨j, hj, hjk, by rw [upd_ne _ _ hji]; exact hjsid,
            by rw [upd_ne _ _ hji]; exact hjpc⟩
    | some sid0 =>
      have hs0 : sid0 < c.storeLen := by
        have := h.idxLt sid0 hidx; omega
      simp only [step, if_pos (And.intro hi hpc), hidx]
      constructor <;> dsimp only
      · -- mon
        intro sid hsid
        by_cases hsl : sid = sid0
        · rw [hsl, upd_at]; dsimp only
          unfold regCount
          dsimp only
          rw [ha.mon sid0 hs0]
          norm_cast
          symm
          trans (∑ j in Finset.range c.numCallers,
            ((if regP sid0 (c.callers j) then (1:ℕ) else 0)
              + (if j = i then 1 else 0)))
          · apply Finset.sum_congr rfl
            intro j hjm
            by_cases hji : j = i
            · subst hji; rw [upd_at]; simp [regP, hpc]
            · rw [upd_ne _ _ hji]; simp [hji]
          · rw [Finset.sum_add_distrib]
            unfold regCount
            simp [Finset.sum_ite_eq', Finset.mem_range, hi]
        · rw [upd_ne _ _ hsl]
          rw [ha.mon sid hsid]
          norm_cast
          unfold regCount
          dsimp only
          apply Finset.sum_congr rfl
          intro j hjm
          by_cases hji : j = i
          · subst hji; rw [upd_at]
            have hne : sid0 ≠ sid := fun hx => hsl hx.symm
            simp [regP, hpc, hne]
          · rw [upd_ne _ _ hji]
      · -- execsEq
        intro sid hsid
        obtain ⟨_e1, _e2, _e3, e4, e5⟩ :=
          upd_mon c.store sid0 ((c.store sid0).monitors + 1) sid
        rw [e4, e5]
        exact ha.execsEq sid hsid
      · -- exclDone
        intro k hk hkpc hkex
        by_cases hki : k = i
        · subst hki; rw [upd_at] at hkpc; exact absurd hkpc (by simp)
        · rw [upd_ne _ _ hki] at hkpc hkex ⊢
          obtain ⟨hm, hd⟩ := ha.exclDone k hk hkpc hkex
          have hlt : (c.callers k).sid < c.storeLen :=
            h.sidLt k hk (by rw [hkpc]; simp)
          have hks : (c.callers k).sid ≠ sid0 := by
            intro hx
            have := (h.doneFacts (c.callers k).sid hlt hd).2.2
            rw [hx] at this
            exact this hidx
          rw [upd_ne _ _ hks]
          exact ⟨hm, hd⟩
      · -- sharedWit
        intro k hk hkpc hkex
        by_cases hki : k = i
        · subst hki; rw [upd_at] at hkpc; exact absurd hkpc (by simp)
        · rw [upd_ne _ _ hki] at hkpc hkex ⊢
          obtain ⟨j, hj, hjk, hjsid, hjpc⟩ := ha.sharedWit k hk hkpc hkex
          have hji : j ≠ i := by
            intro hx; subst hx; exact hjpc hpc
          exact ⟨j, hj, hjk, by rw [upd_ne _ _ hji]; exact hjsid,
            by rw [upd_ne _ _ hji]; exact hjpc⟩
  | selectDone i =>
    by_cases hg : i < c.numCallers ∧ (c.callers i).pc = .sel
        ∧ (c.store (c.callers i).sid).done = true
    case neg => simp only [step, if_neg hg]; exact ha
    obtain ⟨hi, hpc, hdn⟩ := hg
    have hslt : (c.callers i).sid < c.storeLen :=
      h.sidLt i hi (by rw [hpc]; simp)
    simp only [step, if_pos (And.intro hi (And.intro hpc hdn))]
    constructor <;> dsimp only
    · -- mon
      intro sid hsid
      rw [ha.mon sid hsid]
      norm_cast
      unfold regCount
      dsimp only
      apply Finset.sum_congr rfl
      intro j hjm
      by_cases hji : j = i
      · subst hji; rw [upd_at]; simp [regP, hpc]
      · rw [upd_ne _ _ hji]
    · -- execsEq
      exact ha.execsEq
    · -- exclDone
      intro k hk hkpc hkex
      by_cases hki : k = i
      · subst hki; rw [upd_at] at hkex; dsimp only at hkex
        exact absurd hkex.symm (by simp)
      · rw [upd_ne _ _ hki] at hkpc hkex ⊢
        exact ha.exclDone k hk hkpc hkex
    · -- sharedWit
      intro k hk hkpc hkex
      by_cases hki : k = i
      · subst hki
        obtain ⟨j, hj, hjsid, hjpc⟩ := h.doneWit _ hslt hdn
        have hji : j ≠ k := by
          intro hx; subst hx
          rcases hjpc with h1 | h1 <;> rw [hpc] at h1 <;> simp at h1
        refine ⟨j, hj, hji, ?_, ?_⟩
        · rw [upd_ne _ _ hji, upd_at]; exact hjsid
        · rw [upd_ne _ _ hji]
          rcases hjpc with h1 | h1 <;> rw [h1] <;> simp
      · rw [upd_ne _ _ hki] at hkpc hkex ⊢
        obtain ⟨j, hj, hjk, hjsid, hjpc⟩ := ha.sharedWit k hk hkpc hkex
        by_cases hji : j = i
        · subst hji
          refine ⟨j, hj, hjk, ?_, ?_⟩
          · rw [upd_at]; exact hjsid
          · rw [upd_at]; simp
        · exact ⟨j, hj, hjk, by rw [upd_ne _ _ hji]; exact hjsid,
            by rw [upd_ne _ _ hji]; exact hjpc⟩
  | selectLeader i =>
    by_cases hg : i < c.numCallers ∧ (c.callers i).pc = .sel
        ∧ (c.store (c.callers i).sid).leaderAvail = true
    case neg => simp only [step, if_neg hg]; exact ha
    obtain ⟨hi, hpc, hla⟩ := hg
    simp only [step, if_pos (And.intro hi (And.intro hpc hla))]
    constructor <;> dsimp only
    · -- mon
      intro sid hsid
      rw [upd_keep CallInner.monitors c.store (c.callers i).sid
          ({ c.store (c.callers i).sid with leaderAvail := false }) rfl sid,
        ha.mon sid hsid]
      norm_cast
      unfold regCount
      dsimp only
      apply Finset.sum_congr rfl
      intro j hjm
      by_cases hji : j = i
      · subst hji; rw [upd_at]; simp [regP, hpc]
      · rw [upd_ne _ _ hji]
    · -- execsEq
      intro sid hsid
      rw [upd_keep CallInner.execs c.store (c.callers i).sid
          ({ c.store (c.callers i).sid with leaderAvail := false }) rfl sid,
        upd_keep CallInner.resultSet c.store (c.callers i).sid
          ({ c.store (c.callers i).sid with leaderAvail := false }) rfl sid]
      exact ha.execsEq sid hsid
    · -- exclDone
      intro k hk hkpc hkex
      by_cases hki : k = i
      · subst hki; rw [upd_at] at hkpc; exact absurd hkpc (by simp)
      · rw [upd_ne _ _ hki] at hkpc hkex ⊢
        rw [upd_keep CallInner.monitors c.store (c.callers i).sid
            ({ c.store (c.callers i).sid with leaderAvail := false }) rfl,
          upd_keep CallInner.done c.store (c.callers i).sid
            ({ c.store (c.callers i).sid with leaderAvail := false }) rfl]
        exact ha.exclDone k hk hkpc hkex
    · -- sharedWit
      intro k hk hkpc hkex
      by_cases hki : k = i
      · subst hki; rw [upd_at] at hkpc; exact absurd hkpc (by simp)
      · rw [upd_ne _ _ hki] at hkpc hkex ⊢
        obtain ⟨j, hj, hjk, hjsid, hjpc⟩ := ha.sharedWit k hk hkpc hkex
        by_cases hji : j = i
        · subst hji
          refine ⟨j, hj, hjk, ?_, ?_⟩
          · rw [upd_at]; exact hjsid
          · rw [upd_at]; simp
        · exact ⟨j, hj, hjk, by rw [upd_ne _ _ hji]; exact hjsid,
            by rw [upd_ne _ _ hji]; exact hjpc⟩
  | exec i =>
    by_cases hg : i < c.numCallers ∧ (c.callers i).pc = .exec
    case neg => simp only [step, if_neg hg]; exact ha
    obtain ⟨hi, hpc⟩ := hg
    obtain ⟨hacc, hpan, _⟩ := hp i hi
    obtain ⟨hrs, _hdf, _hcur, _hlaf⟩ := h.execOwner i hi hpc
    have hslt : (c.callers i).sid < c.storeLen :=
      h.sidLt i hi (by rw [hpc]; simp)
    simp only [step, if_pos (And.intro hi hpc)]
    rw [if_neg (by rw [hpan]; simp), if_pos hacc]
    constructor <;> dsimp only
    · -- mon
      intro sid hsid
      rw [upd_keep CallInner.monitors c.store (c.callers i).sid
          (acceptResult (c.store (c.callers i).sid) (c.callers i).beh.result)
          rfl sid,
        ha.mon sid hsid]
      norm_cast
      unfold regCount
      dsimp only
      apply Finset.sum_congr rfl
      intro j hjm
      by_cases hji : j = i
      · subst hji; rw [upd_at]; simp [regP, hpc]
      · rw [upd_ne _ _ hji]
    · -- execsEq
      intro sid hsid
      by_cases hss : sid = (c.callers i).sid
      · rw [hss, upd_at]; dsimp only [acceptResult]
        have hE := ha.execsEq sid hsid
        rw [hss, hrs] at hE
        simp at hE
        rw [hE]
        simp
      · rw [upd_ne _ _ hss]
        exact ha.execsEq sid hsid
    · -- exclDone
      intro k hk hkpc hkex
      by_cases hki : k = i
      · subst hki; rw [upd_at] at hkpc; exact absurd hkpc (by simp)
      · rw [upd_ne _ _ hki] at hkpc hkex ⊢
        rw [upd_keep CallInner.monitors c.store (c.callers i).sid
            (acceptResult (c.store (c.callers i).sid) (c.callers i).beh.result)
            rfl,
          upd_keep CallInner.done c.store (c.callers i).sid
            (acceptResult (c.store (c.callers i).sid) (c.callers i).beh.result)
            rfl]
        exact ha.exclDone k hk hkpc hkex
    · -- sharedWit
      intro k hk hkpc hkex
      by_cases hki : k = i
      · subst hki; rw [upd_at] at hkpc; exact absurd hkpc (by simp)
      · rw [upd_ne _ _ hki] at hkpc hkex ⊢
        obtain ⟨j, hj, hjk, hjsid, hjpc⟩ := ha.sharedWit k hk hkpc hkex
        by_cases hji : j = i
        · subst hji
          refine ⟨j, hj, hjk, ?_, ?_⟩
          · rw [upd_at]; exact hjsid
          · rw [upd_at]; simp
        · exact ⟨j, hj, hjk, by rw [upd_ne _ _ hji]; exact hjsid,
            by rw [upd_ne _ _ hji]; exact hjpc⟩
  | retire i =>
    by_cases hg : i < c.numCallers ∧ (c.callers i).pc = .retire
    case neg => simp only [step, if_neg hg]; exact ha
    obtain ⟨hi, hpc⟩ := hg
    simp only [step, if_pos (And.intro hi hpc)]
    constructor <;> dsimp only
    · -- mon
      intro sid hsid
      rw [ha.mon sid hsid]
      norm_cast
      unfold regCount
      dsimp only
      apply Finset.sum_congr rfl
      intro j hjm
      by_cases hji : j = i
      · subst hji; rw [upd_at]; simp [regP, hpc]
      · rw [upd_ne _ _ hji]
    · -- execsEq
      exact ha.execsEq
    · -- exclDone
      intro k hk hkpc hkex
      by_cases hki : k = i
      · subst hki; rw [upd_at] at hkpc; exact absurd hkpc (by simp)
      · rw [upd_ne _ _ hki] at hkpc hkex ⊢
        exact ha.exclDone k hk hkpc hkex
    · -- sharedWit
      intro k hk hkpc hkex
      by_cases hki : k = i
      · subst hki; rw [upd_at] at hkpc; exact absurd hkpc (by simp)
      · rw [upd_ne _ _ hki] at hkpc hkex ⊢
        obtain ⟨j, hj, hjk, hjsid, hjpc⟩ := ha.sharedWit k hk hkpc hkex
        by_cases hji : j = i
        · subst hji
          refine ⟨j, hj, hjk, ?_, ?_⟩
          · rw [upd_at]; exact hjsid
          · rw [upd_at]; simp
        · exact ⟨j, hj, hjk, by rw [upd_ne _ _ hji]; exact hjsid,
            by rw [upd_ne _ _ hji]; exact hjpc⟩
  | closeDone i =>
    by_cases hg : i < c.numCallers ∧ (c.callers i).pc = .closeDone
    case neg => simp only [step, if_neg hg]; exact ha
    obtain ⟨hi, hpc⟩ := hg
    simp only [step, if_pos (And.intro hi hpc)]
    constructor <;> dsimp only
    · -- mon
      intro sid hsid
      rw [upd_keep CallInner.monitors c.store (c.callers i).sid
          ({ c.store (c.callers i).sid with done := true }) rfl sid,
        ha.mon sid hsid]
      norm_cast
      unfold regCount
      dsimp only
      apply Finset.sum_congr rfl
      intro j hjm
      by_cases hji : j = i
      · subst hji; rw [upd_at]; simp [regP, hpc]
      · rw [upd_ne _ _ hji]
    · -- execsEq
      intro sid hsid
      rw [upd_keep CallInner.execs c.store (c.callers i).sid
          ({ c.store (c.callers i).sid with done := true }) rfl sid,
        upd_keep CallInner.resultSet c.store (c.callers i).sid
          ({ c.store (c.callers i).sid with done := true }) rfl sid]
      exact ha.execsEq sid hsid
    · -- exclDone
      intro k hk hkpc hkex
      by_cases hki : k = i
      · subst hki; rw [upd_at] at hkpc; exact absurd hkpc (by simp)
      · rw [upd_ne _ _ hki] at hkpc hkex ⊢
        obtain ⟨hm, hd⟩ := ha.exclDone k hk hkpc hkex
        rw [upd_keep CallInner.monitors c.store (c.callers i).sid
            ({ c.store (c.callers i).sid with done := true }) rfl]
        refine ⟨hm, ?_⟩
        by_cases hss : (c.callers k).sid = (c.callers i).sid
        · rw [hss, upd_at]
        · rw [upd_ne _ _ hss]; exact hd
    · -- sharedWit
      intro k hk hkpc hkex
      by_cases hki : k = i
      · subst hki; rw [upd_at] at hkpc; exact absurd hkpc (by simp)
      · rw [upd_ne _ _ hki] at hkpc hkex ⊢
        obtain ⟨j, hj, hjk, hjsid, hjpc⟩ := ha.sharedWit k hk hkpc hkex
        by_cases hji : j = i
        · subst hji
          refine ⟨j, hj, hjk, ?_, ?_⟩
          · rw [upd_at]; exact hjsid
          · rw [upd_at]; simp
        · exact ⟨j, hj, hjk, by rw [upd_ne _ _ hji]; exact hjsid,
            by rw [upd_ne _ _ hji]; exact hjpc⟩
  | classify i =>
    by_cases hg : i < c.numCallers ∧ (c.callers i).pc = .classify
    case neg => simp only [step, if_neg hg]; exact ha
    obtain ⟨hi, hpc⟩ := hg
    have hslt : (c.callers i).sid < c.storeLen :=
      h.sidLt i hi (by rw [hpc]; simp)
    obtain ⟨_hrs, hdone, _hlaf⟩ := h.classifyOwner i hi hpc
    simp only [step, if_pos (And.intro hi hpc)]
    constructor <;> dsimp only
    · -- mon
      intro sid hsid
      rw [ha.mon sid hsid]
      norm_cast
      unfold regCount
      dsimp only
      apply Finset.sum_congr rfl
      intro j hjm
      by_cases hji : j = i
      · subst hji; rw [upd_at]; simp [regP, hpc]
      · rw [upd_ne _ _ hji]
    · -- execsEq
      exact ha.execsEq
    · -- exclDone
      intro k hk hkpc hkex
      by_cases hki : k = i
      · subst hki
        rw [upd_at] at hkex ⊢; dsimp only at hkex ⊢
        by_cases hm : (c.store (c.callers k).sid).monitors > 1
        · rw [if_pos hm] at hkex; exact absurd hkex.symm (by simp)
        · exact ⟨by omega, hdone⟩
      · rw [upd_ne _ _ hki] at hkpc hkex ⊢
        exact ha.exclDone k hk hkpc hkex
    · -- sharedWit
      intro k hk hkpc hkex
      by_cases hki : k = i
      · subst hki
        rw [upd_at] at hkex; dsimp only at hkex
        by_cases hm : (c.store (c.callers k).sid).monitors > 1
        · have hmon := ha.mon (c.callers k).sid hslt
          have hge : 2 ≤ regCount c (c.callers k).sid := by omega
          have hPk : regP (c.callers k).sid (c.callers k) := by
            unfold regP
            exact ⟨rfl, by rw [hpc]; simp⟩
          obtain ⟨j, hj, hjk, hPj⟩ := exists_other c.callers c.numCallers
            (regP (c.callers k).sid) k hk hPk hge
          refine ⟨j, hj, hjk, ?_, ?_⟩
          · rw [upd_ne _ _ hjk, upd_at]; exact hPj.1
          · rw [upd_ne _ _ hjk]; exact hPj.2
        · rw [if_neg hm] at hkex; exact absurd hkex.symm (by simp)
      · rw [upd_ne _ _ hki] at hkpc hkex ⊢
        obtain ⟨j, hj, hjk, hjsid, hjpc⟩ := ha.sharedWit k hk hkpc hkex
        by_cases hji : j = i
        · subst hji
          refine ⟨j, hj, hjk, ?_, ?_⟩
          · rw [upd_at]; exact hjsid
          · rw [upd_at]; simp
        · exact ⟨j, hj, hjk, by rw [upd_ne _ _ hji]; exact hjsid,
            by rw [upd_ne _ _ hji]; exact hjpc⟩

theorem ainv_run (c : Config) (tr : List Step) (h : Inv c) (hp : PlainBatch c)
    (ha : AInv c) : AInv (run c tr) := by
  induction tr generalizing c with
  | nil => exact ha
  | cons s tr ih =>
    exact ih (step c s) (inv_step c s h) (plain_step c s hp)
      (ainv_step c s h hp ha)

theorem run_numCallers (c : Config) (tr : List Step) :
    (run c tr).numCallers = c.numCallers := by
  induction tr generalizing c with
  | nil => rfl
  | cons s tr ih => rw [run, List.foldl_cons, ← run, ih, step_numCallers]

theorem run_beh (c : Config) (tr : List Step) (j : Nat) :
    ((run c tr).callers j).beh = ((c.callers j)).beh := by
  induction tr generalizing c with
  | nil => rfl
  | cons s tr ih => rw [run, List.foldl_cons, ← run, ih, step_beh]

theorem run_canCancel (c : Config) (tr : List Step) (j : Nat) :
    ((run c tr).callers j).canCancel = ((c.callers j)).canCancel := by
  induction tr generalizing c with
  | nil => rfl
  | cons s tr ih => rw [run, List.foldl_cons, ← run, ih, step_canCancel]

/-! ### The claims about `Calls.Do` -/

/-- C1.  Single execution per key: in any interleaving of `N` concurrent
`Do` invocations for one key, all with `nil` cancel channels and accepting
callbacks, in which all callers have returned and only one call state was
ever created (all `N` calls joined the same group): the callback body ran
exactly once, the accepted value is some caller's callback value, every
caller received that same value, a lone caller (`N = 1`) receives status
`Exclusive`, and with `N ≥ 2` every caller receives status `Shared`. -/
theorem calls_do_single_flight (N : Nat) (beh : Nat → Behavior)
    (tr : List Step) (hN : 1 ≤ N)
    (hacc : ∀ i, i < N → (beh i).accept = true ∧ (beh i).panics = false)
    (hfin : ∀ i, i < N →
      ((run (init N beh (fun _ => false)) tr).callers i).pc = .finished)
    (hone : (run (init N beh (fun _ => false)) tr).storeLen = 1) :
    ((run (init N beh (fun _ => false)) tr).store 0).execs = 1 ∧
    (∃ j, j < N ∧ (beh j).accept = true ∧
      ((run (init N beh (fun _ => false)) tr).store 0).result
        = (beh j).result) ∧
    (∀ i, i < N → ((run (init N beh (fun _ => false)) tr).callers i).out.1
      = ((run (init N beh (fun _ => false)) tr).store 0).result) ∧
    (N = 1 → ((run (init N beh (fun _ => false)) tr).callers 0).out
      = ((beh 0).result, .Exclusive)) ∧
    (2 ≤ N → ∀ i, i < N →
      ((run (init N beh (fun _ => false)) tr).callers i).out.2
        = .Shared) := by
  set c0 := init N beh (fun _ => false) with hc0
  set f := run c0 tr with hfdef
  have hPb0 : PlainBatch c0 := by
    intro i hi
    exact ⟨(hacc i hi).1, (hacc i hi).2, rfl⟩
  have hInv : Inv f := inv_run c0 tr (inv_init N beh (fun _ => false))
  have hPb : PlainBatch f := plain_run c0 tr hPb0
  have hA : AInv f := ainv_run c0 tr (inv_init N beh (fun _ => false)) hPb0
    (ainv_init N beh (fun _ => false))
  have hnum : f.numCallers = N := run_numCallers c0 tr
  have hbeh : ∀ j, (f.callers j).beh = beh j := fun j => run_beh c0 tr j
  have hcc : ∀ j, (f.callers j).canCancel = false :=
    fun j => run_canCancel c0 tr j
  have hsid0 : ∀ i, i < N → (f.callers i).sid = 0 := by
    intro i hi
    have := hInv.sidLt i (by rw [hnum]; exact hi)
      (by rw [hfin i hi]; simp)
    omega
  have hnc : ∀ i, i < N → (f.callers i).out.2 ≠ .Canceled := by
    intro i hi hx
    obtain ⟨_, hor⟩ := hInv.finCanc i (by rw [hnum]; exact hi) (hfin i hi) hx
    rcases hor with hcf | hna
    · have := hInv.cfImp i (by rw [hnum]; exact hi) hcf
      rw [hcc i] at this
      exact absurd this (by simp)
    · rw [hbeh i] at hna
      rw [(hacc i hi).1] at hna
      exact absurd hna (by simp)
  have hone' : (0 : Nat) < f.storeLen := by omega
  have hrs0 : (f.store 0).resultSet = true := by
    obtain ⟨_, h2, _⟩ := hInv.finVal 0 (by rw [hnum]; omega)
      (hfin 0 (by omega)) (hnc 0 (by omega))
    rw [hsid0 0 (by omega)] at h2
    exact h2
  have hval : ∀ i, i < N → (f.callers i).out.1 = (f.store 0).result := by
    intro i hi
    obtain ⟨_, _, h3⟩ := hInv.finVal i (by rw [hnum]; exact hi)
      (hfin i hi) (hnc i hi)
    rw [hsid0 i hi] at h3
    exact h3
  have hreg : regCount f 0 = N := by
    unfold regCount
    rw [hnum]
    rw [Finset.sum_congr rfl (g := fun _ => (1:ℕ)) (fun j hjm => by
      have hj := Finset.mem_range.mp hjm
      rw [if_pos ⟨hsid0 j hj, by rw [hfin j hj]; simp⟩])]
    simp
  have hmon : (f.store 0).monitors = (N : Int) := by
    rw [hA.mon 0 hone', hreg]
  refine ⟨?_, ?_, hval, ?_, ?_⟩
  · rw [hA.execsEq 0 hone', hrs0]
    simp
  · obtain ⟨_, j, hj, hjacc, hjres⟩ := hInv.resSetFacts 0 hone' hrs0
    rw [hnum] at hj
    rw [hbeh j] at hjacc hjres
    exact ⟨j, hj, hjacc, hjres⟩
  · intro hN1
    have hst : (f.callers 0).out.2 = Status.Exclusive := by
      cases hx : (f.callers 0).out.2 with
      | Canceled => exact absurd hx (hnc 0 (by omega))
      | Exclusive => rfl
      | Shared =>
        obtain ⟨j, hj, hj0, _, _⟩ :=
          hA.sharedWit 0 (by rw [hnum]; omega) (hfin 0 (by omega)) hx
        rw [hnum, hN1] at hj
        omega
    have hv := hval 0 (by omega)
    obtain ⟨_, j, hj, _hjacc, hjres⟩ := hInv.resSetFacts 0 hone' hrs0
    rw [hnum, hN1] at hj
    have hj0 : j = 0 := by omega
    subst hj0
    rw [hbeh 0] at hjres
    rw [Prod.ext_iff]
    refine ⟨?_, hst⟩
    rw [hv, hjres]
  · intro hN2 i hi
    cases hx : (f.callers i).out.2 with
    | Canceled => exact absurd hx (hnc i hi)
    | Shared => rfl
    | Exclusive =>
      obtain ⟨hm, _⟩ := hA.exclDone i (by rw [hnum]; exact hi)
        (hfin i hi) hx
      rw [hsid0 i hi, hmon] at hm
      have : (2 : Int) ≤ (N : Int) := by exact_mod_cast hN2
      omega

/-- Witness for C1: the concrete scenario `Do("k", nil, func() (7, true))`
returns `(7, Exclusive)`. -/
theorem calls_do_single_flight_witness :
    (1 ≤ 1 ∧ (∀ i, i < 1 → (behC1 i).accept = true ∧ (behC1 i).panics = false)
      ∧ (∀ i, i < 1 →
          ((run (init 1 behC1 (fun _ => false)) trC1).callers i).pc
            = .finished)
      ∧ (run (init 1 behC1 (fun _ => false)) trC1).storeLen = 1) ∧
    ((run (init 1 behC1 (fun _ => false)) trC1).callers 0).out
      = (some 7, .Exclusive) := by
  refine ⟨⟨le_refl 1, by decide, by decide, by decide⟩, ?_⟩
  have h := calls_do_single_flight 1 behC1 trC1 (le_refl 1)
    (by decide) (by decide) (by decide)
  exact h.2.2.2.1 rfl

/-- C3.  The cancellation branch of `Do` (lines 35-42): when a waiter whose
cancel fired re-checks the index under the lock, then (stale case) if the
index no longer maps the key to its call state, that state has completed
(its result was accepted by some accepting callback) and the waiter returns
the stored result with status `Shared`, leaving the store untouched;
(current case) otherwise the waiter decrements `monitors` and returns
`Canceled` with no value. -/
theorem calls_do_cancel_recheck (N : Nat) (beh : Nat → Behavior)
    (cc : Nat → Bool) (tr : List Step) (i : Nat) (hi : i < N)
    (hpc : ((run (init N beh cc) tr).callers i).pc = .cancelCheck) :
    ((run (init N beh cc) tr).index
        ≠ some (((run (init N beh cc) tr).callers i).sid) →
      ((step (run (init N beh cc) tr) (.cancelCheck i)).callers i).out
        = (((run (init N beh cc) tr).store
            (((run (init N beh cc) tr).callers i).sid)).result, .Shared) ∧
      ((step (run (init N beh cc) tr) (.cancelCheck i)).callers i).pc
        = .finished ∧
      ((run (init N beh cc) tr).store
        (((run (init N beh cc) tr).callers i).sid)).resultSet = true ∧
      (∃ j, j < N ∧ (beh j).accept = true ∧
        ((run (init N beh cc) tr).store
          (((run (init N beh cc) tr).callers i).sid)).result
          = (beh j).result) ∧
      (step (run (init N beh cc) tr) (.cancelCheck i)).store
        = (run (init N beh cc) tr).store) ∧
    ((run (init N beh cc) tr).index
        = some (((run (init N beh cc) tr).callers i).sid) →
      ((step (run (init N beh cc) tr) (.cancelCheck i)).callers i).out
        = (none, .Canceled) ∧
      ((step (run (init N beh cc) tr) (.cancelCheck i)).callers i).pc
        = .finished ∧
      ((step (run (init N beh cc) tr) (.cancelCheck i)).store
          (((run (init N beh cc) tr).callers i).sid)).monitors
        = ((run (init N beh cc) tr).store
            (((run (init N beh cc) tr).callers i).sid)).monitors - 1) := by
  set f := run (init N beh cc) tr with hfdef
  have hInv : Inv f := inv_run _ tr (inv_init N beh cc)
  have hnum : f.numCallers = N := run_numCallers _ tr
  have hi' : i < f.numCallers := by rw [hnum]; exact hi
  have hslt : (f.callers i).sid < f.storeLen :=
    hInv.sidLt i hi' (by rw [hpc]; simp)
  constructor
  · intro hix
    have hset : (f.store (f.callers i).sid).resultSet = true :=
      hInv.retiredSet _ hslt hix
    obtain ⟨_, j, hj, hjacc, hjres⟩ := hInv.resSetFacts _ hslt hset
    simp only [step, if_pos (And.intro hi' hpc), if_neg hix]
    refine ⟨?_, ?_, hset, ?_, trivial⟩
    · rw [upd_at]
    · rw [upd_at]
    · rw [hnum] at hj
      rw [run_beh _ tr j] at hjacc hjres
      simp only [init] at hjacc hjres
      exact ⟨j, hj, hjacc, hjres⟩
  · intro hix
    simp only [step, if_pos (And.intro hi' hpc), if_pos hix]
    refine ⟨?_, ?_, ?_⟩
    · rw [upd_at]
    · rw [upd_at]
    · rw [upd_at]

/-- C2.  Rejection and panic of the leading callback (lines 48-59): a
rejecting leader does not retire the key (the index still maps it to the
same state), hands the token back, itself returns `Canceled` with no value,
and stores nothing; a panicking leader hands the token back and propagates
the panic (it terminates in the `panicked` state, not with a `Canceled`
return); a rejected payload is never delivered: every non-`Canceled` value
any caller ever receives is the callback value of some accepting caller, so
if every callback rejects, every caller that returned got `(nil,
Canceled)`. -/
theorem calls_do_reject_keeps_group (N : Nat) (beh : Nat → Behavior)
    (cc : Nat → Bool) (tr : List Step) (i : Nat) (hi : i < N) :
    ((((run (init N beh cc) tr).callers i).pc = .exec →
      (beh i).accept = false → (beh i).panics = false →
      (step (run (init N beh cc) tr) (.exec i)).index
        = some (((run (init N beh cc) tr).callers i).sid) ∧
      ((step (run (init N beh cc) tr) (.exec i)).store
        (((run (init N beh cc) tr).callers i).sid)).leaderAvail = true ∧
      ((step (run (init N beh cc) tr) (.exec i)).callers i).out
        = (none, .Canceled) ∧
      ((step (run (init N beh cc) tr) (.exec i)).callers i).pc
        = .finished ∧
      ((step (run (init N beh cc) tr) (.exec i)).store
        (((run (init N beh cc) tr).callers i).sid)).resultSet = false)) ∧
    ((((run (init N beh cc) tr).callers i).pc = .exec →
      (beh i).panics = true →
      (step (run (init N beh cc) tr) (.exec i)).index
        = some (((run (init N beh cc) tr).callers i).sid) ∧
      ((step (run (init N beh cc) tr) (.exec i)).store
        (((run (init N beh cc) tr).callers i).sid)).leaderAvail = true ∧
      ((step (run (init N beh cc) tr) (.exec i)).callers i).pc
        = .panicked)) ∧
    (∀ k, k < N → ((run (init N beh cc) tr).callers k).pc = .finished →
      ((run (init N beh cc) tr).callers k).out.2 ≠ .Canceled →
      ∃ j, j < N ∧ (beh j).accept = true ∧
        ((run (init N beh cc) tr).callers k).out.1 = (beh j).result) ∧
    ((∀ j, j < N → (beh j).accept = false) →
      ∀ k, k < N → ((run (init N beh cc) tr).callers k).pc = .finished →
      ((run (init N beh cc) tr).callers k).out = (none, .Canceled)) := by
  set f := run (init N beh cc) tr with hfdef
  have hInv : Inv f := inv_run _ tr (inv_init N beh cc)
  have hnum : f.numCallers = N := run_numCallers _ tr
  have hi' : i < f.numCallers := by rw [hnum]; exact hi
  have hdeliver : ∀ k, k < N → (f.callers k).pc = .finished →
      (f.callers k).out.2 ≠ .Canceled →
      ∃ j, j < N ∧ (beh j).accept = true ∧
        (f.callers k).out.1 = (beh j).result := by
    intro k hk hkpc hkout
    obtain ⟨hs1, hs2, hs3⟩ := hInv.finVal k (by rw [hnum]; exact hk) hkpc hkout
    obtain ⟨_, j, hj, hjacc, hjres⟩ := hInv.resSetFacts _ hs1 hs2
    rw [hnum] at hj
    rw [run_beh _ tr j] at hjacc hjres
    simp only [init] at hjacc hjres
    exact ⟨j, hj, hjacc, by rw [hs3, hjres]⟩
  refine ⟨?_, ?_, hdeliver, ?_⟩
  · intro hpc hna hnp
    have hbeh : (f.callers i).beh = beh i := run_beh _ tr i
    obtain ⟨hrs, _, hcur, _⟩ := hInv.execOwner i hi' hpc
    simp only [step, if_pos (And.intro hi' hpc)]
    rw [if_neg (by rw [hbeh, hnp]; simp), if_neg (by rw [hbeh, hna]; simp)]
    dsimp only
    refine ⟨hcur, ?_, ?_, ?_, ?_⟩
    · rw [upd_at]; dsimp only [tokenBack]
    · rw [upd_at]
    · rw [upd_at]
    · rw [upd_at]; dsimp only [tokenBack]; exact hrs
  · intro hpc hp
    have hbeh : (f.callers i).beh = beh i := run_beh _ tr i
    obtain ⟨_, _, hcur, _⟩ := hInv.execOwner i hi' hpc
    simp only [step, if_pos (And.intro hi' hpc)]
    rw [if_pos (by rw [hbeh]; exact hp)]
    dsimp only
    refine ⟨hcur, ?_, ?_⟩
    · rw [upd_at]; dsimp only [tokenBack]
    · rw [upd_at]
  · intro hall k hk hkpc
    cases hx : (f.callers k).out.2 with
    | Canceled =>
      obtain ⟨h1, _⟩ := hInv.finCanc k (by rw [hnum]; exact hk) hkpc hx
      rw [Prod.ext_iff]
      exact ⟨h1, hx⟩
    | Exclusive =>
      obtain ⟨j, hj, hjacc, _⟩ := hdeliver k hk hkpc (by rw [hx]; simp)
      rw [hall j hj] at hjacc
      exact absurd hjacc (by simp)
    | Shared =>
      obtain ⟨j, hj, hjacc, _⟩ := hdeliver k hk hkpc (by rw [hx]; simp)
      rw [hall j hj] at hjacc
      exact absurd hjacc (by simp)

/-- C10.  A `nil` cancel channel is safe: a caller whose cancel signal can
never fire (the model of a `nil` channel, which never becomes ready) is
never in the cancellation branch of the `select`, and if it returned
`Canceled` then its own callback declined its result. -/
theorem calls_do_nil_cancel (N : Nat) (beh : Nat → Behavior)
    (cc : Nat → Bool) (tr : List Step) (i : Nat) (hi : i < N)
    (hnc : cc i = false) :
    ((run (init N beh cc) tr).callers i).pc ≠ .cancelCheck ∧
    (((run (init N beh cc) tr).callers i).pc = .finished →
      ((run (init N beh cc) tr).callers i).out.2 = .Canceled →
      (beh i).accept = false) := by
  set f := run (init N beh cc) tr with hfdef
  have hInv : Inv f := inv_run _ tr (inv_init N beh cc)
  have hnum : f.numCallers = N := run_numCallers _ tr
  have hi' : i < f.numCallers := by rw [hnum]; exact hi
  have hccf : (f.callers i).canCancel = false := by
    rw [run_canCancel _ tr i]
    exact hnc
  have hnofire : (f.callers i).cancelFired = false := by
    cases hx : (f.callers i).cancelFired
    · rfl
    · have := hInv.cfImp i hi' hx
      rw [hccf] at this
      exact absurd this (by simp)
  constructor
  · intro hx
    have := hInv.ccPc i hi' hx
    rw [hnofire] at this
    exact absurd this (by simp)
  · intro hpc hcanc
    obtain ⟨_, hor⟩ := hInv.finCanc i hi' hpc hcanc
    rcases hor with hcf | hna
    · rw [hnofire] at hcf
      exact absurd hcf (by simp)
    · rw [run_beh _ tr i] at hna
      simp only [init] at hna
      exact hna

/-- Witness for C2: a lone rejecting caller leaves the key in the index,
puts the token back and returns `(nil, Canceled)`. -/
theorem calls_do_reject_keeps_group_witness :
    (0 < 1 ∧ ((run (init 1 behC2 (fun _ => false)) trC2).callers 0).pc = .exec
      ∧ (behC2 0).accept = false ∧ (behC2 0).panics = false) ∧
    ((step (run (init 1 behC2 (fun _ => false)) trC2) (.exec 0)).index
        = some (((run (init 1 behC2 (fun _ => false)) trC2).callers 0).sid) ∧
      ((step (run (init 1 behC2 (fun _ => false)) trC2) (.exec 0)).store
        (((run (init 1 behC2 (fun _ => false)) trC2).callers 0).sid)).leaderAvail
        = true ∧
      ((step (run (init 1 behC2 (fun _ => false)) trC2) (.exec 0)).callers 0).out
        = (none, .Canceled)) := by
  refine ⟨⟨by decide, by decide, by decide, by decide⟩, ?_⟩
  have h := calls_do_reject_keeps_group 1 behC2 (fun _ => false) trC2 0
    (by decide)
  obtain ⟨h1, h2, h3, _, _⟩ := h.1 (by decide) (by decide) (by decide)
  exact ⟨h1, h2, h3⟩

/-- Witness for C3: the canceled waiter, finding the key retired, adopts
the completed result `(3, Shared)`. -/
theorem calls_do_cancel_recheck_witness :
    (1 < 2 ∧ ((run (init 2 behC3 ccC3) trC3).callers 1).pc = .cancelCheck
      ∧ (run (init 2 behC3 ccC3) trC3).index
          ≠ some (((run (init 2 behC3 ccC3) trC3).callers 1).sid)) ∧
    ((step (run (init 2 behC3 ccC3) trC3) (.cancelCheck 1)).callers 1).out
      = (some 3, .Shared) := by
  refine ⟨⟨by decide, by decide, by decide⟩, ?_⟩
  have h := calls_do_cancel_recheck 2 behC3 ccC3 trC3 1 (by decide) (by decide)
  obtain ⟨hout, _, _, _, _⟩ := h.1 (by decide)
  rw [hout]
  decide

/-- Witness for C10: a caller with a `nil` cancel channel never sits in the
cancellation branch, and its `Canceled` outcome implies its own callback
declined. -/
theorem calls_do_nil_cancel_witness :
    (0 < 1 ∧ (fun _ : Nat => false) 0 = false) ∧
    (((run (init 1 behC2 (fun _ => false)) trC10).callers 0).pc
        ≠ .cancelCheck ∧
      (((run (init 1 behC2 (fun _ => false)) trC10).callers 0).pc = .finished →
        ((run (init 1 behC2 (fun _ => false)) trC10).callers 0).out.2
          = .Canceled →
        (behC2 0).accept = false)) := by
  refine ⟨⟨by decide, rfl⟩, ?_⟩
  exact calls_do_nil_cancel 1 behC2 (fun _ => false) trC10 0 (by decide) rfl

/-! ### The claims about `RefCache` -/

/-- C4 (failing-input evaluation).  `Delete` invokes the releaser directly
(`item.closer()`, line 119) without touching the reference count: with one
holder outstanding, after `Delete("k")` the closer has run once while
`refs` is still `2` — there was no `1 → 0` transition — and after the
holder's release `refs` is stuck at `1`, so the `1 → 0` transition never
happens at all, yet the releaser has run. -/
theorem refCache_delete_closer_not_refcounted :
    ((rcDelete sC4 "k").items 0).closerRuns = 1 ∧
    ((rcDelete sC4 "k").items 0).refs = 2 ∧
    ((rcClose (rcDelete sC4 "k") 0).items 0).refs = 1 ∧
    ((rcClose (rcDelete sC4 "k") 0).items 0).closerRuns = 1 := by
  refine ⟨?_, ?_, ?_, ?_⟩ <;> rfl

/-- C5 (failing-input evaluation).  `Delete` does remove the key from the
index and is a no-op on an absent key, but it does not merely drop the
index's reference: it runs the releaser immediately (`item.closer()`,
line 119), before the remaining holder has released, and it leaves the
index's reference count undropped, so the remaining holder's release
leaves `refs = 1` forever. -/
theorem refCache_delete_runs_closer_early :
    (rcDelete sC5 "missing") = sC5 ∧
    (rcDelete sC5 "k5").index = [] ∧
    ((rcDelete sC5 "k5").items 0).closerRuns = 1 ∧
    ((rcClose (rcDelete sC5 "k5") 0).items 0).refs = 1 ∧
    ((rcClose (rcDelete sC5 "k5") 0).items 0).closerRuns = 1 := by
  refine ⟨?_, ?_, ?_, ?_, ?_⟩ <;> rfl

/-- C6 (failing-input evaluation).  `Purge(keep)` never evaluates `keep`:
the snapshot loop tests `p.Valid` (line 146).  With `keep ≡ false` (purge
everything) and `Valid ≡ true`, nothing is removed and the state is
returned unchanged; and whenever some filled item does fail `p.Valid`, the
goroutine still holds the read lock (function-scoped `defer`, line 140)
when it requests the write lock (line 157), so it deadlocks and no removal
ever happens either. -/
theorem refCache_purge_ignores_keep :
    rcPurge sC6 (some (fun _ => false)) (some (fun _ => true)) = sC6 ∧
    (rcPurge sC6 (some (fun _ => false)) (some (fun _ => true))).index
      = [("k", 0)] ∧
    ((rcPurge sC6 (some (fun _ => false)) (some (fun _ => true))).items
      0).closerRuns = 0 ∧
    (rcPurge sC6 (some (fun _ => true)) (some (fun _ => false))).deadlocked
      = true := by
  refine ⟨?_, ?_, ?_, ?_⟩ <;> rfl

theorem idxGet_remove (l : List (String × Nat)) (k : String) :
    idxGet (idxRemove l k) k = none := by
  induction l with
  | nil => rfl
  | cons e t ih =>
    by_cases he : (e.1 == k) = true
    · have hdrop : idxRemove (e :: t) k = idxRemove t k := by
        unfold idxRemove
        rw [List.filter_cons, if_neg (by simp [he])]
      rw [hdrop]; exact ih
    · have hkeep : idxRemove (e :: t) k = e :: idxRemove t k := by
        unfold idxRemove
        rw [List.filter_cons, if_pos (by simp [he])]
      rw [hkeep]
      unfold idxGet
      rw [List.find?_cons_of_neg _ (by simp [he])]
      exact ih

theorem idxGet_insert (l : List (String × Nat)) (k : String) (id : Nat) :
    idxGet (idxInsert l k id) k = some id := by
  unfold idxGet idxInsert
  rw [List.find?_cons_of_pos _ (by simp)]

/-- C7: invalidation replaces, not mutates.  For a key whose filled cached
value the `Valid` predicate rejects (and with another holder outstanding,
`1 ≤ refs`): the write-locked re-check removes the key only when the index
still maps it to this exact instance (`rcInvalidate` is a no-op on any
other id); the observing `Get` then restarts, performs exactly one fresh
fetch (`fetchCount` grows by one), installs a brand-new item under the key
(the fresh id `s.nextId`) and returns the fetched value with the new
handle, while the old item keeps its value, its closer has not run, and
its reference count is unchanged net of the call (the index's dropped
reference was the caller's own transient one), so holders of the old value
still see it until they release. -/
theorem refCache_get_invalidation (s : RCState) (key : String) (id : Nat)
    (v : Val → Bool) (fetch : Nat → FetchB)
    (hidx : idxGet s.index key = some id)
    (hfil : (s.items id).filled = true)
    (hbad : v ((s.items id).value) = false)
    (hacc : (fetch s.fetchCount).hasCloser = true)
    (hrefs : 1 ≤ (s.items id).refs)
    (hfresh : id ≠ s.nextId) :
    (∀ j, idxGet s.index key ≠ some j → rcInvalidate s key j = (s, false)) ∧
    (rcGet 2 s key (some v) fetch).1.fetchCount = s.fetchCount + 1 ∧
    idxGet (rcGet 2 s key (some v) fetch).1.index key = some s.nextId ∧
    ((rcGet 2 s key (some v) fetch).1.items id).value = (s.items id).value ∧
    ((rcGet 2 s key (some v) fetch).1.items id).closerRuns
      = (s.items id).closerRuns ∧
    ((rcGet 2 s key (some v) fetch).1.items id).refs = (s.items id).refs ∧
    (rcGet 2 s key (some v) fetch).2.1 = (fetch s.fetchCount).value ∧
    (rcGet 2 s key (some v) fetch).2.2 = some s.nextId := by
  have hguard : ∀ j, idxGet s.index key ≠ some j →
      rcInvalidate s key j = (s, false) := by
    intro j hj
    unfold rcInvalidate
    rw [if_neg hj]
  refine ⟨hguard, ?_⟩
  simp only [rcGet, hidx]
  have h1 : ((rcRef s id).items id).filled = true := by
    unfold rcRef; dsimp only; rw [upd_at]; exact hfil
  have h2 : ((rcRef s id).items id).value = (s.items id).value := by
    unfold rcRef; dsimp only; rw [upd_at]
  rw [if_pos h1]
  rw [if_neg (by rw [h2, hbad]; simp)]
  have h3 : rcInvalidate (rcRef s id) key id
      = ({ rcRef s id with index := idxRemove (rcRef s id).index key },
          true) := by
    unfold rcInvalidate
    rw [if_pos (by exact hidx)]
  rw [h3]
  dsimp only
  set s2 := { rcRef s id with index := idxRemove (rcRef s id).index key }
    with hs2
  have hrefs2 : (s2.items id).refs = (s.items id).refs + 1 := by
    rw [hs2]
    show ((rcRef s id).items id).refs = _
    unfold rcRef; dsimp only; rw [upd_at]
  have h4 : rcClose s2 id = { s2 with
      items := Function.update s2.items id
        ({ s2.items id with refs := (s2.items id).refs - 1 }) } := by
    unfold rcClose
    rw [if_pos (by rw [hrefs2]; omega)]
  rw [h4]
  set s3 := { s2 with
      items := Function.update s2.items id
        ({ s2.items id with refs := (s2.items id).refs - 1 }) } with hs3
  have hmiss : idxGet s3.index key = none := idxGet_remove s.index key
  rw [hmiss]
  have hnew : ((Function.update s3.items s3.nextId
      ({ refs := 2, filled := false, value := none,
         hasCloser := false, closerRuns := 0 })) s3.nextId).filled
      = false := by
    rw [upd_at]
  rw [if_neg (by rw [hnew]; simp)]
  rw [if_pos (by exact hacc)]
  dsimp only
  have hfresh3 : id ≠ s3.nextId := hfresh
  refine ⟨rfl, ?_, ?_, ?_, ?_, ?_, rfl⟩
  · exact idxGet_insert s3.index key s3.nextId
  · rw [upd_ne _ _ hfresh3, upd_ne _ _ hfresh3, upd_at]
    show ((rcRef s id).items id).value = _
    unfold rcRef; dsimp only; rw [upd_at]
  · rw [upd_ne _ _ hfresh3, upd_ne _ _ hfresh3, upd_at]
    show ((rcRef s id).items id).closerRuns = _
    unfold rcRef; dsimp only; rw [upd_at]
  · rw [upd_ne _ _ hfresh3, upd_ne _ _ hfresh3, upd_at]
    dsimp only
    rw [hrefs2]
    omega
  · rfl

/-- C7 applied to the concrete invalidation scenario: the cached `4` fails
`vC7`; one `Get` performs one fresh fetch of `99`, installs it under the
fresh id `1`, returns `(some 99, handle 1)`, and the old item `0` still
holds `4` with its closer unrun and its reference count intact. -/
theorem refCache_get_invalidation_witness :
    (idxGet sC7.index "k" = some 0 ∧ (sC7.items 0).filled = true ∧
     vC7 ((sC7.items 0).value) = false ∧ (fC7 sC7.fetchCount).hasCloser = true ∧
     1 ≤ (sC7.items 0).refs ∧ (0 : Nat) ≠ sC7.nextId) ∧
    ((∀ j, idxGet sC7.index "k" ≠ some j →
        rcInvalidate sC7 "k" j = (sC7, false)) ∧
     (rcGet 2 sC7 "k" (some vC7) fC7).1.fetchCount = sC7.fetchCount + 1 ∧
     idxGet (rcGet 2 sC7 "k" (some vC7) fC7).1.index "k" = some sC7.nextId ∧
     ((rcGet 2 sC7 "k" (some vC7) fC7).1.items 0).value = (sC7.items 0).value ∧
     ((rcGet 2 sC7 "k" (some vC7) fC7).1.items 0).closerRuns
       = (sC7.items 0).closerRuns ∧
     ((rcGet 2 sC7 "k" (some vC7) fC7).1.items 0).refs = (sC7.items 0).refs ∧
     (rcGet 2 sC7 "k" (some vC7) fC7).2.1 = (fC7 sC7.fetchCount).value ∧
     (rcGet 2 sC7 "k" (some vC7) fC7).2.2 = some sC7.nextId) :=
  ⟨⟨by decide, rfl, by decide, rfl, by decide, by decide⟩,
   refCache_get_invalidation sC7 "k" 0 vC7 fC7 (by decide) rfl (by decide)
     rfl (by decide) (by decide)⟩

/-! ### Facts about the `ErrFuncs` aggregation loop, and its claims -/

theorem onFirst_keep {α : Type} (F : AggSt → α) (val : EErr) (st : AggSt)
    (h1 : F ({ st with
                seenFirst := true,
                firstResult := val,
                listenFirst := false }) = F st) :
    F (onFirst val st) = F st := by
  unfold onFirst; split
  · rfl
  · exact h1

theorem onAnyOK_keep {α : Type} (F : AggSt → α) (st : AggSt)
    (h1 : F ({ st with
                seenAnyOK := true,
                listenOK := false }) = F st) :
    F (onAnyOK st) = F st := by
  unfold onAnyOK; split
  · rfl
  · exact h1

theorem onAnyNot_keep {α : Type} (F : AggSt → α) (err : EErr) (st : AggSt)
    (h1 : F ({ st with
                seenAnyNot := true,
                firstError := err,
                listenNot := false }) = F st) :
    F (onAnyNot err st) = F st := by
  unfold onAnyNot; split
  · rfl
  · exact h1

theorem onAnyOK_seen (st : AggSt) : (onAnyOK st).seenAnyOK = true := by
  unfold onAnyOK; split
  · assumption
  · rfl

theorem onAnyNot_seen (err : EErr) (st : AggSt) :
    (onAnyNot err st).seenAnyNot = true := by
  unfold onAnyNot; split
  · assumption
  · rfl

theorem aggStep_okMono (pFR pFE : EErr) (st : AggSt) (e : AEvent)
    (h : st.seenAnyOK = true) : (aggStep pFR pFE st e).seenAnyOK = true := by
  cases e <;> simp only [aggStep, onFirst, onAnyOK, onAnyNot] <;>
    split_ifs <;> simp_all

theorem aggStep_okP (pFR pFE : EErr) (st : AggSt) (e : AEvent)
    (h : st.seenAnyOK = true ∨ st.listenOK = true) :
    (aggStep pFR pFE st e).seenAnyOK = true ∨
      (aggStep pFR pFE st e).listenOK = true := by
  cases e <;> simp only [aggStep, onFirst, onAnyOK, onAnyNot] <;>
    split_ifs <;> simp_all

theorem aggStep_prevOK (pFR pFE : EErr) (st : AggSt)
    (h : st.seenAnyOK = true ∨ st.listenOK = true) :
    (aggStep pFR pFE st .prevOK).seenAnyOK = true := by
  simp only [aggStep, onAnyOK]
  split_ifs <;> simp_all

theorem aggStep_notMono (pFR pFE : EErr) (st : AggSt) (e : AEvent)
    (h : st.seenAnyNot = true) : (aggStep pFR pFE st e).seenAnyNot = true := by
  cases e <;> simp only [aggStep, onFirst, onAnyOK, onAnyNot] <;>
    split_ifs <;> simp_all

theorem aggStep_notP (pFR pFE : EErr) (st : AggSt) (e : AEvent)
    (h : st.seenAnyNot = true ∨ st.listenNot = true) :
    (aggStep pFR pFE st e).seenAnyNot = true ∨
      (aggStep pFR pFE st e).listenNot = true := by
  cases e <;> simp only [aggStep, onFirst, onAnyOK, onAnyNot] <;>
    split_ifs <;> simp_all

theorem aggStep_prevNot (pFR pFE : EErr) (st : AggSt)
    (h : st.seenAnyNot = true ∨ st.listenNot = true) :
    (aggStep pFR pFE st .prevNot).seenAnyNot = true := by
  simp only [aggStep, onAnyNot]
  split_ifs <;> simp_all

theorem aggStep_ownFail (pFR pFE : EErr) (st : AggSt) (k : Nat) :
    (aggStep pFR pFE st (.ownRes (some (Err.mk k)))).seenAnyNot = true := by
  simp only [aggStep, onFirst, onAnyNot]
  split_ifs <;> simp_all

theorem aggStep_ownOK (pFR pFE : EErr) (st : AggSt) :
    (aggStep pFR pFE st (.ownRes none)).seenAnyOK = true := by
  simp only [aggStep, onFirst, onAnyOK]
  split_ifs <;> simp_all

theorem aggStep_received (pFR pFE : EErr) (st : AggSt) (e : AEvent) :
    (aggStep pFR pFE st e).received
      = st.received + (if isOwnRes e then 1 else 0) := by
  cases e <;> simp only [aggStep, onFirst, onAnyOK, onAnyNot, isOwnRes] <;>
    split_ifs <;> simp_all

theorem aggStep_pendingAll (pFR pFE : EErr) (st : AggSt) (e : AEvent)
    (he : e ≠ .prevAll) :
    (aggStep pFR pFE st e).pendingAll = st.pendingAll := by
  cases e <;> simp only [aggStep, onFirst, onAnyOK, onAnyNot] <;>
    split_ifs <;> simp_all

theorem aggStep_ignore (pFR pFE : EErr) (st : AggSt) :
    aggStep pFR pFE st (.ownRes (some Err.ignore))
      = { st with received := st.received + 1 } := rfl

theorem aggRun_okMono (pFR pFE : EErr) (st : AggSt) (tr : List AEvent)
    (h : st.seenAnyOK = true) : (aggRun pFR pFE st tr).seenAnyOK = true := by
  induction tr generalizing st with
  | nil => exact h
  | cons e tr ih => exact ih _ (aggStep_okMono pFR pFE st e h)

theorem aggRun_prevOK (pFR pFE : EErr) (st : AggSt) (tr : List AEvent)
    (h : st.seenAnyOK = true ∨ st.listenOK = true)
    (hm : AEvent.prevOK ∈ tr) : (aggRun pFR pFE st tr).seenAnyOK = true := by
  induction tr generalizing st with
  | nil => cases hm
  | cons e tr ih =>
    by_cases he : e = AEvent.prevOK
    · subst he
      exact aggRun_okMono pFR pFE _ tr (aggStep_prevOK pFR pFE st h)
    · rcases List.mem_cons.mp hm with h1 | h1
      · exact absurd h1.symm he
      · exact ih _ (aggStep_okP pFR pFE st e h) h1

theorem aggRun_notMono (pFR pFE : EErr) (st : AggSt) (tr : List AEvent)
    (h : st.seenAnyNot = true) : (aggRun pFR pFE st tr).seenAnyNot = true := by
  induction tr generalizing st with
  | nil => exact h
  | cons e tr ih => exact ih _ (aggStep_notMono pFR pFE st e h)

theorem aggRun_prevNot (pFR pFE : EErr) (st : AggSt) (tr : List AEvent)
    (h : st.seenAnyNot = true ∨ st.listenNot = true)
    (hm : AEvent.prevNot ∈ tr) : (aggRun pFR pFE st tr).seenAnyNot = true := by
  induction tr generalizing st with
  | nil => cases hm
  | cons e tr ih =>
    by_cases he : e = AEvent.prevNot
    · subst he
      exact aggRun_notMono pFR pFE _ tr (aggStep_prevNot pFR pFE st h)
    · rcases List.mem_cons.mp hm with h1 | h1
      · exact absurd h1.symm he
      · exact ih _ (aggStep_notP pFR pFE st e h) h1

theorem aggRun_ownFail (pFR pFE : EErr) (st : AggSt) (tr : List AEvent)
    (k : Nat) (hm : AEvent.ownRes (some (Err.mk k)) ∈ tr) :
    (aggRun pFR pFE st tr).seenAnyNot = true := by
  induction tr generalizing st with
  | nil => cases hm
  | cons e tr ih =>
    by_cases he : e = AEvent.ownRes (some (Err.mk k))
    · subst he
      exact aggRun_notMono pFR pFE _ tr (aggStep_ownFail pFR pFE st k)
    · rcases List.mem_cons.mp hm with h1 | h1
      · exact absurd h1.symm he
      · exact ih _ h1

theorem aggRun_ownOK (pFR pFE : EErr) (st : AggSt) (tr : List AEvent)
    (hm : AEvent.ownRes none ∈ tr) :
    (aggRun pFR pFE st tr).seenAnyOK = true := by
  induction tr generalizing st with
  | nil => cases hm
  | cons e tr ih =>
    by_cases he : e = AEvent.ownRes none
    · subst he
      exact aggRun_okMono pFR pFE _ tr (aggStep_ownOK pFR pFE st)
    · rcases List.mem_cons.mp hm with h1 | h1
      · exact absurd h1.symm he
      · exact ih _ h1

theorem aggRun_received (pFR pFE : EErr) (st : AggSt) (tr : List AEvent) :
    (aggRun pFR pFE st tr).received
      = st.received + tr.countP (fun e => isOwnRes e) := by
  induction tr generalizing st with
  | nil => simp [aggRun]
  | cons e tr ih =>
    show (aggRun pFR pFE (aggStep pFR pFE st e) tr).received = _
    rw [ih, aggStep_received, List.countP_cons]
    by_cases hp : isOwnRes e = true
    · simp only [hp, if_true]; omega
    · simp only [hp, if_false]; omega

theorem runDone_final (pFR pFE : EErr) (n : Nat) (st : AggSt)
    (tr : List AEvent) (h : runDone pFR pFE n st tr = true) :
    loopLive n (aggRun pFR pFE st tr) = false := by
  induction tr generalizing st with
  | nil => simpa [runDone, aggRun] using h
  | cons e tr ih =>
    have h2 : runDone pFR pFE n (aggStep pFR pFE st e) tr = true := by
      simp only [runDone, Bool.and_eq_true] at h
      exact h.2
    exact ih _ h2

theorem runDone_prevAll (pFR pFE : EErr) (n : Nat) (st : AggSt)
    (tr : List AEvent) (h : runDone pFR pFE n st tr = true)
    (hp : st.pendingAll = true) : AEvent.prevAll ∈ tr := by
  induction tr generalizing st with
  | nil =>
    exfalso
    have h1 : (! loopLive n st) = true := h
    have h2 : loopLive n st = true := by simp [loopLive, hp]
    simp [h2] at h1
  | cons e tr ih =>
    by_cases he : e = AEvent.prevAll
    · subst he; exact List.mem_cons_self _ _
    · have h2 : runDone pFR pFE n (aggStep pFR pFE st e) tr = true := by
        simp only [runDone, Bool.and_eq_true] at h
        exact h.2
      have hp2 : (aggStep pFR pFE st e).pendingAll = true := by
        rw [aggStep_pendingAll pFR pFE st e he]; exact hp
      exact List.mem_cons_of_mem _ (ih _ h2 hp2)

/-- C8: ignored results.  In the wrapper (lines 100-124), a function that
returns `IgnoreResult`, or whose captured context is done with its error
attributable to the context, sends the ignore sentinel and does not invoke
the monitor hook.  In the aggregation loop (lines 187-197), an ignored own
result increments `received` and changes nothing else — none of
first/anyOK/anyNot latches — while advancing the `allDone` guard exactly
like any other result. -/
theorem errfuncs_ignored_results (cfg : TaskCfg) (b : TaskB)
    (pFR pFE : EErr) (st : AggSt) (n : Nat) (tr : List AEvent)
    (hnp : b.panics = false) :
    (b.result = some Err.ignore →
      taskSend cfg b = some (some Err.ignore, false)) ∧
    (cfg.hasCtx = true → cfg.ctxDone = true → b.result = some cfg.ctxErr →
      taskSend cfg b = some (some Err.ignore, false)) ∧
    aggStep pFR pFE st (.ownRes (some Err.ignore))
      = { st with received := st.received + 1 } ∧
    runDone pFR pFE n st (.ownRes (some Err.ignore) :: tr)
      = (loopLive n st &&
          runDone pFR pFE n ({ st with received := st.received + 1 }) tr) := by
  refine ⟨?_, ?_, aggStep_ignore pFR pFE st, ?_⟩
  · intro hres
    simp [taskSend, hnp, hres]
  · intro hc hd hres
    by_cases hig : cfg.ctxErr = Err.ignore
    · rw [hig] at hres
      simp [taskSend, hnp, hres]
    · simp [taskSend, hnp, hres, hc, hd, hig]
  · simp only [runDone, aggStep_ignore]

/-- C8 applied to a concrete ignored result: a task returning its done
context's error `Err.mk 5` sends the ignore sentinel without invoking the
monitor, and an ignored own result advances only `received`. -/
theorem errfuncs_ignored_results_witness :
    bC8.panics = false ∧
    ((bC8.result = some Err.ignore →
       taskSend cfgC8 bC8 = some (some Err.ignore, false)) ∧
     (cfgC8.hasCtx = true → cfgC8.ctxDone = true →
       bC8.result = some cfgC8.ctxErr →
       taskSend cfgC8 bC8 = some (some Err.ignore, false)) ∧
     aggStep none none (aggInit true) (.ownRes (some Err.ignore))
       = { aggInit true with received := (aggInit true).received + 1 } ∧
     runDone none none 2 (aggInit true)
         (.ownRes (some Err.ignore) :: [.ownRes none])
       = (loopLive 2 (aggInit true) &&
           runDone none none 2
             ({ aggInit true with received := (aggInit true).received + 1 })
             [.ownRes none])) :=
  ⟨rfl, errfuncs_ignored_results cfgC8 bC8 none none (aggInit true) 2
    [.ownRes none] rfl⟩

/-- C9 (counterexample): a predecessor signal can be dropped, so a
generation's `anyOK` latch does not always fire when the preceding
generation's did.  Generation 1 (no predecessor, one succeeding task)
completes its run with `anyOK` latched.  Generation 2 (one failing task)
consumes its own result and then the predecessor's `allDone`: its loop
guard is exhausted and the run completes — `allDone` is closed — with
`anyOK` never latched, although the predecessor's `anyOK` fired and stays
ready the whole time.  Generation 2's `FirstOK` channel therefore never
signals. -/
theorem errfuncs_chain_drops_prev_ok :
    (runDone none none 1 (aggInit false) [.ownRes none] = true ∧
     (aggRun none none (aggInit false) [.ownRes none]).seenAnyOK = true ∧
     (aggRun none none (aggInit false) [.ownRes none]).firstResult = none ∧
     (aggRun none none (aggInit false) [.ownRes none]).firstError = none) ∧
    (runDone
        ((aggRun none none (aggInit false) [.ownRes none]).firstResult)
        ((aggRun none none (aggInit false) [.ownRes none]).firstError)
        1 (aggInit true) [.ownRes (some (Err.mk 0)), .prevAll] = true ∧
     (aggRun
        ((aggRun none none (aggInit false) [.ownRes none]).firstResult)
        ((aggRun none none (aggInit false) [.ownRes none]).firstError)
        (aggInit true)
        [.ownRes (some (Err.mk 0)), .prevAll]).seenAnyOK = false) := by
  decide

/-- C9 (amended): the guarantees the loop does give, for any loop state —
with or without a predecessor.  A generation's own success always latches
its `anyOK`, and a generation's own non-ignored failure always latches its
`anyNot` — so `FirstOK` fires on a later batch's own success, and
`FirstError` fires on a later batch's own failure even when registered
after an earlier batch succeeded.  A predecessor signal propagates exactly
when it is consumed before the loop exits: consuming `prevOK`
(resp. `prevNot`) latches this generation's `anyOK` (resp. `anyNot`, with
the predecessor's first error), provided the generation still listens for
that signal or has already latched it.  And a completed run, whose
completion closes `allDone`, requires the predecessor's `allDone` to have
fired (when there is a predecessor) and all `n` of this generation's task
results to have arrived. -/
theorem errfuncs_chain_signals (pFR pFE : EErr) (st : AggSt) (n : Nat)
    (tr : List AEvent) :
    (AEvent.ownRes none ∈ tr → (aggRun pFR pFE st tr).seenAnyOK = true) ∧
    (∀ k, AEvent.ownRes (some (Err.mk k)) ∈ tr →
      (aggRun pFR pFE st tr).seenAnyNot = true) ∧
    (st.seenAnyOK = true ∨ st.listenOK = true → AEvent.prevOK ∈ tr →
      (aggRun pFR pFE st tr).seenAnyOK = true) ∧
    (st.seenAnyNot = true ∨ st.listenNot = true → AEvent.prevNot ∈ tr →
      (aggRun pFR pFE st tr).seenAnyNot = true) ∧
    (runDone pFR pFE n st tr = true → st.pendingAll = true →
      AEvent.prevAll ∈ tr) ∧
    (runDone pFR pFE n st tr = true →
      n ≤ st.received + tr.countP (fun e => isOwnRes e)) := by
  refine ⟨aggRun_ownOK pFR pFE st tr,
          fun k => aggRun_ownFail pFR pFE st tr k,
          fun hok => aggRun_prevOK pFR pFE st tr hok,
          fun hnot => aggRun_prevNot pFR pFE st tr hnot,
          fun h hp => runDone_prevAll pFR pFE n st tr h hp,
          ?_⟩
  intro h
  have h2 := runDone_final pFR pFE n st tr h
  unfold loopLive at h2
  rw [aggRun_received pFR pFE st tr] at h2
  simp only [Bool.or_eq_false_iff, decide_eq_false_iff_not, Nat.not_lt] at h2
  exact h2.1

/-- C9 (amended) applied to the two-batch scenario: batch 1 succeeded and
failed at least once (both its signals are consumed here), batch 2 has one
succeeding task and one failing with `Err.mk 2`; every antecedent of the
amended guarantees holds concretely on this run, and the completed run
consumed the predecessor's `allDone` and both own results. -/
theorem errfuncs_chain_signals_witness :
    (AEvent.ownRes none ∈ trC9 ∧
     AEvent.ownRes (some (Err.mk 2)) ∈ trC9 ∧
     (aggInit true).listenOK = true ∧ AEvent.prevOK ∈ trC9 ∧
     (aggInit true).listenNot = true ∧ AEvent.prevNot ∈ trC9 ∧
     runDone none none 2 (aggInit true) trC9 = true ∧
     (aggInit true).pendingAll = true) ∧
    ((AEvent.ownRes none ∈ trC9 →
       (aggRun none none (aggInit true) trC9).seenAnyOK = true) ∧
     (∀ k, AEvent.ownRes (some (Err.mk k)) ∈ trC9 →
       (aggRun none none (aggInit true) trC9).seenAnyNot = true) ∧
     ((aggInit true).seenAnyOK = true ∨ (aggInit true).listenOK = true →
       AEvent.prevOK ∈ trC9 →
       (aggRun none none (aggInit true) trC9).seenAnyOK = true) ∧
     ((aggInit true).seenAnyNot = true ∨ (aggInit true).listenNot = true →
       AEvent.prevNot ∈ trC9 →
       (aggRun none none (aggInit true) trC9).seenAnyNot = true) ∧
     (runDone none none 2 (aggInit true) trC9 = true →
       (aggInit true).pendingAll = true → AEvent.prevAll ∈ trC9) ∧
     (runDone none none 2 (aggInit true) trC9 = true →
       2 ≤ (aggInit true).received + trC9.countP (fun e => isOwnRes e))) :=
  ⟨by decide, errfuncs_chain_signals none none (aggInit true) 2 trC9⟩

end Grouped
